import Mathlib

/-!
# UNH course catalogue assistant: retrieval and intent classification

A shallow embedding of `src/data-processor.js` (class `CourseDataProcessor`)
and `src/rag-chatbot.js` (class `RAGChatbot`), followed by theorems about the
embedded functions.

Strings are lists of characters.  The tests the pipeline performs on a string
(regular expressions without the `u` flag, `includes` of a fixed word,
`length` of a token) look only at ASCII word characters, white space and ASCII
substrings, for which code units and code points coincide.  Case conversion is
modelled on ASCII letters (see `lowerChar`, `toUpperCase`); where a method is
given a free string to convert and compare, the theorems assume it is ASCII.
-/

namespace Catalog

/-- A JavaScript string, as the list of its characters. -/
abbrev Str := List Char

/-! ## String primitives -/

/-- The class `\s` of a JavaScript regular expression: white space and line
terminators. -/
def isSpace (c : Char) : Bool :=
  let n := c.toNat
  (9 ≤ n && n ≤ 13) || n == 32 || n == 160 || n == 5760 ||
  (8192 ≤ n && n ≤ 8202) || n == 8232 || n == 8233 || n == 8239 ||
  n == 8287 || n == 12288 || n == 65279

/-- The class `\d`: an ASCII decimal digit. -/
def isDigit (c : Char) : Bool :=
  48 ≤ c.toNat && c.toNat ≤ 57

/-- ASCII capital letter. -/
def isUpperAscii (c : Char) : Bool :=
  65 ≤ c.toNat && c.toNat ≤ 90

/-- ASCII small letter. -/
def isLowerAscii (c : Char) : Bool :=
  97 ≤ c.toNat && c.toNat ≤ 122

/-- The class `\w` (no `i` or `u` flag): ASCII letter, digit or underscore. -/
def isWord (c : Char) : Bool :=
  isUpperAscii c || isLowerAscii c || isDigit c || c == '_'

/-- Lower-case form of one character under `String.prototype.toLowerCase`,
exact on ASCII and on the characters whose lower-case form reaches into ASCII.
ASCII capitals go to their small letters.  Two characters outside ASCII have a
lower-case form that contains an ASCII letter: U+212A (Kelvin sign) becomes
`k`, and U+0130 becomes `i` followed by U+0307.  Every other character outside
ASCII is kept, though `toLowerCase` maps the capital letters among them (such
as U+00C9) to other characters outside ASCII.  The lower-case form of such a
character lies outside ASCII again and is neither a word character nor white
space, so the model agrees with the program on tokens and on every search for
an ASCII string.  It does not agree on a search for a string with letters
outside ASCII; theorems about a search for a free string assume the string is
ASCII (`isAscii`). -/
def lowerChar (c : Char) : List Char :=
  if isUpperAscii c then [Char.ofNat (c.toNat + 32)]
  else if c.toNat == 8490 then ['k']
  else if c.toNat == 304 then ['i', Char.ofNat 775]
  else [c]

/-- The method `toLowerCase`. -/
def toLowerCase : Str → Str
  | [] => []
  | c :: cs => lowerChar c ++ toLowerCase cs

/-- The method `toUpperCase` on ASCII letters; used on course codes, whose
characters outside ASCII are not modelled. -/
def upperChar (c : Char) : Char :=
  if isLowerAscii c then Char.ofNat (c.toNat - 32) else c

/-- The method `includes`: `needle` occurs in `s` as a contiguous substring. -/
def includes (s needle : Str) : Bool :=
  match s with
  | [] => needle.isEmpty
  | c :: cs => needle.isPrefixOf (c :: cs) || includes cs needle

/-! ## The course-code pattern `/acfi\s*(\d{3})/i` -/

/-- Case-insensitive match of one pattern letter (flag `i` without `u`): an
ASCII letter matches exactly its two cases. -/
def eqIgnoreCase (p c : Char) : Bool :=
  c == p || (isUpperAscii c && c.toNat + 32 == p.toNat)

/-- The greedy `\s*`: the longest run of white space at the head. -/
def takeSpaces : Str → Str
  | [] => []
  | c :: cs => if isSpace c then c :: takeSpaces cs else []

/-- What follows the longest run of white space at the head. -/
def dropSpaces : Str → Str
  | [] => []
  | c :: cs => if isSpace c then dropSpaces cs else c :: cs

/-- The group `(\d{3})` at the head: the three digits and the rest. -/
def matchDigits3 : Str → Option (Str × Str)
  | d1 :: d2 :: d3 :: rest =>
    if isDigit d1 && isDigit d2 && isDigit d3 then some ([d1, d2, d3], rest) else none
  | _ => none

/-- The pattern `/acfi\s*(\d{3})/i` anchored at the head of the string: the
matched text, the captured digits and the rest.  White space and digits are
disjoint, so backtracking over `\s*` never finds a match the greedy run
misses. -/
def matchCodeAt : Str → Option (Str × Str × Str)
  | a :: c :: f :: i :: rest =>
    if eqIgnoreCase 'a' a && eqIgnoreCase 'c' c && eqIgnoreCase 'f' f && eqIgnoreCase 'i' i then
      match matchDigits3 (dropSpaces rest) with
      | some (ds, rest') => some (a :: c :: f :: i :: (takeSpaces rest ++ ds), ds, rest')
      | none => none
    else none
  | _ => none

/-- The call `query.match(/acfi\s*(\d{3})/i)`: the leftmost match, as the
matched text (index 0) and the captured digits (index 1); `none` is `null`. -/
def matchCode : Str → Option (Str × Str)
  | [] => none
  | c :: cs =>
    match matchCodeAt (c :: cs) with
    | some (m, ds, _) => some (m, ds)
    | none => matchCode cs

/-- Scan for the global pattern; `skip` characters of the current match are
still to be stepped over. -/
def matchAllAux : Nat → Str → List Str
  | _, [] => []
  | k + 1, _ :: cs => matchAllAux k cs
  | 0, c :: cs =>
    match matchCodeAt (c :: cs) with
    | some (m, _, _) => m :: matchAllAux (m.length - 1) cs
    | none => matchAllAux 0 cs

/-- The expression `query.match(/acfi\s*\d{3}/gi) || []`: all matched
substrings, left to right, without overlap. -/
def matchAllCodes (query : Str) : List Str :=
  matchAllAux 0 query

/-! ## Intent classification (`RAGChatbot.classifyIntent`) -/

/-- The object returned by `classifyIntent`, by its `type` field. -/
inductive Intent where
  | specific_course (courseCode : Str)
  | list_courses (category : Str)
  | prerequisites
  | comparison (courses : List Str)
  | topic_search (topic : Str)
  | general_info
  | semantic_search
  deriving DecidableEq, Repr

/-- The array `topics` of `classifyIntent`. -/
def topics : List Str :=
  ["derivative".toList, "audit".toList, "international".toList, "tax".toList,
   "finance".toList, "accounting".toList, "ethics".toList, "fraud".toList]

/-- The method `RAGChatbot.classifyIntent`. -/
def classifyIntent (query : Str) : Intent :=
  match matchCode query with
  | some (_, digits) => .specific_course ("ACFI ".toList ++ digits)
  | none =>
    if includes query "list".toList &&
        (includes query "course".toList || includes query "all".toList) then
      .list_courses
        (if includes query "finance".toList then "finance".toList
         else if includes query "accounting".toList then "accounting".toList
         else "all".toList)
    else if includes query "prerequisite".toList || includes query "prereq".toList then
      .prerequisites
    else if decide ((matchAllCodes query).length > 1) || includes query "compare".toList ||
        includes query "difference".toList then
      .comparison (matchAllCodes query)
    else
      match topics.find? (fun topic => includes query topic) with
      | some matchedTopic => .topic_search matchedTopic
      | none =>
        if includes query "credit".toList || includes query "hour".toList ||
            includes query "grade".toList || includes query "repeat".toList then
          .general_info
        else .semantic_search

/-! ### The classifier as an ordered list of rules

Each rule is one `if` of `classifyIntent`, taken on its own: its test and the
intent it returns.  `firstMatch` is the reading "test the rules in order and
return the first match". -/

/-- Rule SpecificCourse. -/
def ruleSpecificCourse (query : Str) : Option Intent :=
  match matchCode query with
  | some (_, digits) => some (.specific_course ("ACFI ".toList ++ digits))
  | none => none

/-- Rule ListCourses. -/
def ruleListCourses (query : Str) : Option Intent :=
  if includes query "list".toList &&
      (includes query "course".toList || includes query "all".toList) then
    some (.list_courses
      (if includes query "finance".toList then "finance".toList
       else if includes query "accounting".toList then "accounting".toList
       else "all".toList))
  else none

/-- Rule Comparison. -/
def ruleComparison (query : Str) : Option Intent :=
  if decide ((matchAllCodes query).length > 1) || includes query "compare".toList ||
      includes query "difference".toList then
    some (.comparison (matchAllCodes query))
  else none

/-- Rule Prerequisites. -/
def rulePrerequisites (query : Str) : Option Intent :=
  if includes query "prerequisite".toList || includes query "prereq".toList then
    some .prerequisites
  else none

/-- Rule TopicSearch. -/
def ruleTopicSearch (query : Str) : Option Intent :=
  match topics.find? (fun topic => includes query topic) with
  | some matchedTopic => some (.topic_search matchedTopic)
  | none => none

/-- Rule GeneralInfo. -/
def ruleGeneralInfo (query : Str) : Option Intent :=
  if includes query "credit".toList || includes query "hour".toList ||
      includes query "grade".toList || includes query "repeat".toList then
    some .general_info
  else none

/-- Test the rules in order, return what the first matching rule returns, and
the default SemanticSearch when none matches. -/
def firstMatch : List (Str → Option Intent) → Str → Intent
  | [], _ => .semantic_search
  | rule :: rules, query =>
    match rule query with
    | some intent => intent
    | none => firstMatch rules query

/-- The rule order the specification gives: SpecificCourse, ListCourses,
Comparison, Prerequisites, TopicSearch, GeneralInfo. -/
def rulesInSpecOrder : List (Str → Option Intent) :=
  [ruleSpecificCourse, ruleListCourses, ruleComparison, rulePrerequisites,
   ruleTopicSearch, ruleGeneralInfo]

/-- The rule order of the source: SpecificCourse, ListCourses, Prerequisites,
Comparison, TopicSearch, GeneralInfo. -/
def rulesInCodeOrder : List (Str → Option Intent) :=
  [ruleSpecificCourse, ruleListCourses, rulePrerequisites, ruleComparison,
   ruleTopicSearch, ruleGeneralInfo]

/-! ## Numbers

A JavaScript number is an IEEE-754 binary64 value.  The program only forms
non-negative finite numbers and NaN: a finite number is `m * 2 ^ e`, and each
arithmetic operation is the exact result rounded to 53 significant bits, ties
to even.  The exponent is not bounded: the numbers computed from token counts
lie far inside the binary64 range. -/

/-- A number: NaN, or the non-negative finite value `m * 2 ^ e`. -/
inductive Num where
  | nan
  | fin (m : Nat) (e : Int)
  deriving DecidableEq, Repr

/-- Number of binary digits of `n`, by halving `n`. -/
def bitLengthAux : Nat → Nat → Nat
  | 0, _ => 0
  | fuel + 1, n => if n = 0 then 0 else bitLengthAux fuel (n / 2) + 1

/-- Number of binary digits of `n` (0 for 0). -/
def bitLength (n : Nat) : Nat := bitLengthAux n n

/-- Round `q * 2 ^ e`, plus a positive fraction of `2 ^ e` when `sticky`, to
53 significant bits, ties to even.  A caller that sets `sticky` supplies a `q`
of more than 54 bits. -/
def roundTo53 (q : Nat) (sticky : Bool) (e : Int) : Num :=
  if bitLength q ≤ 53 then .fin q e
  else
    let sh := bitLength q - 53
    let m := q / 2 ^ sh
    let r := q % 2 ^ sh
    let half := 2 ^ (sh - 1)
    if decide (r > half) || (r == half && (sticky || m % 2 == 1)) then .fin (m + 1) (e + sh)
    else .fin m (e + sh)

/-- Integer square root, one bit at a time from bit `i - 1` down. -/
def isqrtAux (n : Nat) : Nat → Nat → Nat
  | 0, r => r
  | i + 1, r => isqrtAux n i (if (r + 2 ^ i) * (r + 2 ^ i) ≤ n then r + 2 ^ i else r)

/-- Integer square root: the largest `r` with `r * r ≤ n`. -/
def isqrt (n : Nat) : Nat := isqrtAux n (bitLength n / 2 + 1) 0

/-- The number denoted by a natural-number literal or count. -/
def Num.ofNat (n : Nat) : Num := roundTo53 n false 0

/-- The constant `0`. -/
def Num.zero : Num := .fin 0 0

/-- The literal `0.1`: the binary64 value nearest to one tenth. -/
def Num.tenth : Num := .fin 7205759403792794 (-56)

/-- The operator `*`. -/
def Num.mul : Num → Num → Num
  | .fin m1 e1, .fin m2 e2 => roundTo53 (m1 * m2) false (e1 + e2)
  | _, _ => .nan

/-- The operator `+` on numbers. -/
def Num.add : Num → Num → Num
  | .fin m1 e1, .fin m2 e2 =>
    roundTo53 (m1 * 2 ^ (e1 - min e1 e2).toNat + m2 * 2 ^ (e2 - min e1 e2).toNat) false
      (min e1 e2)
  | _, _ => .nan

/-- The function `Math.sqrt`, correctly rounded: the argument is scaled by an
even power of two to an integer of at least 110 bits, whose integer square
root has at least 55 bits. -/
def Num.sqrt : Num → Num
  | .fin m e =>
    if m = 0 then .fin 0 0
    else
      let k : Nat := if (e - 110) % 2 = 0 then 110 else 111
      roundTo53 (isqrt (m * 2 ^ k)) (isqrt (m * 2 ^ k) * isqrt (m * 2 ^ k) != m * 2 ^ k)
        ((e - k) / 2)
  | .nan => .nan

/-- The operator `/`.  The quotient is taken with at least 55 bits.  A zero
divisor gives NaN here (`0 / 0`); the program's one division is by a product
of square roots of non-zero numbers. -/
def Num.div : Num → Num → Num
  | .fin m1 e1, .fin m2 e2 =>
    if m2 = 0 then .nan
    else
      roundTo53 (m1 * 2 ^ (bitLength m2 + 55) / m2) (m1 * 2 ^ (bitLength m2 + 55) % m2 != 0)
        (e1 - e2 - (bitLength m2 + 55 : Nat))
  | _, _ => .nan

/-- The operator `>` on numbers; false when an operand is NaN. -/
def Num.gt : Num → Num → Bool
  | .fin m1 e1, .fin m2 e2 =>
    decide (m1 * 2 ^ (e1 - min e1 e2).toNat > m2 * 2 ^ (e2 - min e1 e2).toNat)
  | _, _ => false

/-- The test `x === 0`. -/
def Num.isZero : Num → Bool
  | .fin m _ => m == 0
  | .nan => false

/-! ## Plain objects used as maps

`wordFreq`, `queryVector` and `creditCounts` are object literals `{}`: their
prototype is `Object.prototype`, so reading a key that is not an own property
finds the inherited member of that name, if there is one. -/

/-- The property names of `Object.prototype`. -/
def objectPrototypeNames : List Str :=
  ["constructor".toList, "__defineGetter__".toList, "__defineSetter__".toList,
   "hasOwnProperty".toList, "__lookupGetter__".toList, "__lookupSetter__".toList,
   "isPrototypeOf".toList, "propertyIsEnumerable".toList, "toString".toList,
   "valueOf".toList, "__proto__".toList, "toLocaleString".toList]

/-- What reading `obj[key]` can give on such an object:
* `undefined`: no own and no inherited property;
* `count n`: the number `n`;
* `native name ones`: the string that the inherited member `name` converts to
  (the source text of a built-in function), followed by `ones` digits `1`;
* `inherited name`: the member `name` of `Object.prototype` itself, a function
  or, for `__proto__`, an object. -/
inductive PropVal where
  | undefined
  | count (n : Nat)
  | native (name : Str) (ones : Nat)
  | inherited (name : Str)
  deriving DecidableEq, Repr

/-- An object: its own properties in insertion order. -/
abbrev Obj := List (Str × PropVal)

/-- Own property `key` of the object, if present. -/
def ownProp : Obj → Str → Option PropVal
  | [], _ => none
  | (k, v) :: rest, key => if k = key then some v else ownProp rest key

/-- The read `obj[key]`. -/
def getProp (obj : Obj) (key : Str) : PropVal :=
  match ownProp obj key with
  | some v => v
  | none => if key ∈ objectPrototypeNames then .inherited key else .undefined

/-- Replace the value of the own property `key`, or append it. -/
def putOwn : Obj → Str → PropVal → Obj
  | [], key, v => [(key, v)]
  | (k, w) :: rest, key, v => if k = key then (k, v) :: rest else (k, w) :: putOwn rest key v

/-- The write `obj[key] = v` of a number or string `v`.  Writing `__proto__`
calls the inherited setter, which ignores a value that is not an object. -/
def setProp (obj : Obj) (key : Str) (v : PropVal) : Obj :=
  if key = "__proto__".toList then obj else putOwn obj key v

/-- The expression `(x || 0) + 1`: a missing or zero count gives 1, a count
`n` gives `n + 1`, a string gets the digit `1` appended, and an inherited
member is converted to its string first. -/
def orZeroPlusOne : PropVal → PropVal
  | .undefined => .count 1
  | .count n => .count (n + 1)
  | .native name ones => .native name (ones + 1)
  | .inherited name => .native name 1

/-- The statement `obj[word] = (obj[word] || 0) + 1`. -/
def addWord (obj : Obj) (word : Str) : Obj :=
  setProp obj word (orZeroPlusOne (getProp obj word))

/-- The expression `x || 0` followed by the conversion to a number that `*`
applies: a count is itself, `undefined` and a zero count give 0, a string of
the form `native` and an inherited member give NaN. -/
def orZeroToNumber : PropVal → Num
  | .undefined => Num.zero
  | .count n => Num.ofNat n
  | .native _ _ => .nan
  | .inherited _ => .nan

/-- The number an array-index key denotes: a canonical decimal numeral (no
leading zero) of value at most `2 ^ 32 - 2`. -/
def arrayIndex (key : Str) : Option Nat :=
  match key with
  | [] => none
  | c :: cs =>
    if (c :: cs).all isDigit && (cs.isEmpty || c != '0') then
      let n := (c :: cs).foldl (fun acc d => 10 * acc + (d.toNat - 48)) 0
      if n ≤ 4294967294 then some n else none
    else none

/-- Insert an index key into a list sorted by index. -/
def insertIndexKey (x : Nat × Str) : List (Nat × Str) → List (Nat × Str)
  | [] => [x]
  | y :: ys => if x.1 ≤ y.1 then x :: y :: ys else y :: insertIndexKey x ys

/-- The call `Object.keys(obj)`: array-index keys in ascending numeric order,
then the other keys in insertion order. -/
def objectKeys (obj : Obj) : List Str :=
  ((obj.filterMap (fun kv => (arrayIndex kv.1).map (fun n => (n, kv.1)))).foldr
      insertIndexKey []).map Prod.snd ++
    (obj.map Prod.fst).filter (fun k => (arrayIndex k).isNone)

/-- Elements of a `Set` built from a list: first occurrences, in order. -/
def uniq {α : Type} [DecidableEq α] : List α → List α
  | [] => []
  | x :: xs => x :: (uniq xs).filter (fun y => decide (y ≠ x))

/-! ## Tokens -/

/-- The call `.replace(/[^\w\s]/g, '')`. -/
def stripNonWord (s : Str) : Str :=
  s.filter (fun c => isWord c || isSpace c)

/-- The call `.split(/\s+/)`: the pieces between maximal runs of white space;
leading or trailing white space gives an empty first or last piece. -/
def splitSpaces : Str → List Str
  | [] => [[]]
  | c :: cs =>
    if isSpace c then
      match cs with
      | d :: _ => if isSpace d then splitSpaces cs else [] :: splitSpaces cs
      | [] => [] :: splitSpaces cs
    else
      match splitSpaces cs with
      | t :: ts => (c :: t) :: ts
      | [] => [[c]]

/-! ## Course records -/

/-- A value held by a field of a course record: absent, `null`, a string, or
a non-negative integer (below `10 ^ 21`, where the decimal form is the
numeral). -/
inductive Value where
  | undefined
  | null
  | str (s : Str)
  | num (n : Nat)
  deriving DecidableEq, Repr

/-- Truthiness of a value, as tested by `if (x)`. -/
def Value.truthy : Value → Bool
  | .undefined => false
  | .null => false
  | .str s => !s.isEmpty
  | .num n => n != 0

/-- Conversion to a string, as in a template literal or `x + ' '`. -/
def Value.toStr : Value → Str
  | .undefined => "undefined".toList
  | .null => "null".toList
  | .str s => s
  | .num n => Nat.toDigits 10 n

/-- A course record of the catalogue. -/
structure Course where
  code : Value
  title : Value
  credits : Value
  description : Value
  prerequisites : Value
  repeatRule : Value
  mutualExclusion : Value
  equivalent : Value
  gradeMode : Value
  deriving DecidableEq, Repr

/-- The `metadata` object of a chunk. -/
structure Metadata where
  type : Str
  courseCode : Value
  deriving DecidableEq, Repr

/-- A text chunk made by `createTextChunks`. -/
structure Chunk where
  type : Str
  text : Str
  metadata : Metadata
  deriving DecidableEq, Repr

/-- An entry made by `generateEmbeddings`. -/
structure Embedding where
  chunkId : Str
  vector : Obj
  text : Str
  metadata : Metadata
  deriving DecidableEq, Repr

/-- A value of the map `this.embeddings`. -/
structure CourseEmbeddings where
  chunks : List Chunk
  embeddings : List Embedding
  deriving DecidableEq, Repr

/-- The method `Map.prototype.set`: an existing key keeps its position. -/
def mapSet {β : Type} : List (Value × β) → Value → β → List (Value × β)
  | [], key, v => [(key, v)]
  | (k, w) :: rest, key, v => if k = key then (k, v) :: rest else (k, w) :: mapSet rest key v

/-- The method `Map.prototype.get`; `none` is `undefined`. -/
def mapGet {β : Type} : List (Value × β) → Value → Option β
  | [], _ => none
  | (k, w) :: rest, key => if k = key then some w else mapGet rest key

/-- The state of a `CourseDataProcessor`: the maps `courses` and `embeddings`,
each in insertion order. -/
structure CourseDataProcessor where
  courses : List (Value × Course)
  embeddings : List (Value × CourseEmbeddings)
  deriving DecidableEq, Repr

/-- The state made by the constructor. -/
def CourseDataProcessor.new : CourseDataProcessor :=
  { courses := [], embeddings := [] }

/-! ## Chunking and embedding (`CourseDataProcessor`) -/

/-- The method `createTextChunks`. -/
def createTextChunks (course : Course) : List Chunk :=
  let chunks : List Chunk :=
    [{ type := "basic_info".toList,
       text := course.code.toStr ++ " ".toList ++ course.title.toStr ++ ": ".toList ++
         course.description.toStr,
       metadata := { type := "description".toList, courseCode := course.code } }]
  let chunks :=
    if course.prerequisites.truthy then
      chunks ++
        [{ type := "prerequisites".toList,
           text := "Prerequisites for ".toList ++ course.code.toStr ++ ": ".toList ++
             course.prerequisites.toStr,
           metadata := { type := "prerequisites".toList, courseCode := course.code } }]
    else chunks
  let chunks := chunks ++
    [{ type := "logistics".toList,
       text := course.code.toStr ++ " is worth ".toList ++ course.credits.toStr ++
         " credits and uses ".toList ++ course.gradeMode.toStr,
       metadata := { type := "logistics".toList, courseCode := course.code } }]
  if course.repeatRule.truthy || course.mutualExclusion.truthy || course.equivalent.truthy then
    let rulesText := "Additional rules for ".toList ++ course.code.toStr ++ ": ".toList
    let rulesText :=
      if course.repeatRule.truthy then rulesText ++ (course.repeatRule.toStr ++ " ".toList)
      else rulesText
    let rulesText :=
      if course.mutualExclusion.truthy then
        rulesText ++ (course.mutualExclusion.toStr ++ " ".toList)
      else rulesText
    let rulesText :=
      if course.equivalent.truthy then
        rulesText ++ ("Equivalent to ".toList ++ course.equivalent.toStr)
      else rulesText
    chunks ++
      [{ type := "rules".toList, text := rulesText,
         metadata := { type := "rules".toList, courseCode := course.code } }]
  else chunks

/-- The callback of `generateEmbeddings`: the entry made for one chunk. -/
def embedChunk (chunk : Chunk) : Embedding :=
  let words := (splitSpaces (stripNonWord (toLowerCase chunk.text))).filter
    (fun word => decide (word.length > 2))
  let wordFreq : Obj := words.foldl (fun wordFreq word => addWord wordFreq word) []
  { chunkId := chunk.metadata.courseCode.toStr ++ "_".toList ++ chunk.type,
    vector := wordFreq,
    text := chunk.text,
    metadata := chunk.metadata }

/-- The method `generateEmbeddings`. -/
def generateEmbeddings (textChunks : List Chunk) : List Embedding :=
  textChunks.map embedChunk

/-- The method `processCourseData`, on the array `catalogData.courses`. -/
def processCourseData (dp : CourseDataProcessor) : List Course → CourseDataProcessor
  | [] => dp
  | course :: rest =>
    let textChunks := createTextChunks course
    let embeddings := generateEmbeddings textChunks
    processCourseData
      { courses := mapSet dp.courses course.code course,
        embeddings := mapSet dp.embeddings course.code
          { chunks := textChunks, embeddings := embeddings } }
      rest

/-! ## Similarity search (`CourseDataProcessor`) -/

/-- The running values `dotProduct`, `normA`, `normB` of `cosineSimilarity`. -/
structure Sums where
  dotProduct : Num
  normA : Num
  normB : Num
  deriving DecidableEq, Repr

/-- One pass of the loop body of `cosineSimilarity`. -/
def cosineStep (vecA vecB : Obj) (acc : Sums) (word : Str) : Sums :=
  let a := orZeroToNumber (getProp vecA word)
  let b := orZeroToNumber (getProp vecB word)
  { dotProduct := Num.add acc.dotProduct (Num.mul a b),
    normA := Num.add acc.normA (Num.mul a a),
    normB := Num.add acc.normB (Num.mul b b) }

/-- The sums of `cosineSimilarity` after its loop over `allWords`. -/
def cosineSums (vecA vecB : Obj) : Sums :=
  (uniq (objectKeys vecA ++ objectKeys vecB)).foldl (cosineStep vecA vecB)
    { dotProduct := Num.zero, normA := Num.zero, normB := Num.zero }

/-- The method `cosineSimilarity`. -/
def cosineSimilarity (vecA vecB : Obj) : Num :=
  let sums := cosineSums vecA vecB
  if sums.normA.isZero || sums.normB.isZero then Num.zero
  else Num.div sums.dotProduct (Num.mul (Num.sqrt sums.normA) (Num.sqrt sums.normB))

/-- An element of the array returned by `semanticSearch`. -/
structure Hit where
  courseCode : Value
  similarity : Num
  text : Str
  metadata : Metadata
  course : Option Course
  deriving DecidableEq, Repr

/-- The object `queryVector` that `semanticSearch` builds from the query. -/
def queryVectorOf (query : Str) : Obj :=
  let queryWords := (splitSpaces (stripNonWord (toLowerCase query))).filter
    (fun word => decide (word.length > 2))
  queryWords.foldl (fun queryVector word => addWord queryVector word) []

/-- The hits pushed for one entry of `this.embeddings`. -/
def searchCourse (dp : CourseDataProcessor) (queryVector : Obj)
    (entry : Value × CourseEmbeddings) : List Hit :=
  entry.2.embeddings.filterMap (fun embedding =>
    let similarity := cosineSimilarity queryVector embedding.vector
    if similarity.gt Num.zero then
      some { courseCode := entry.1, similarity := similarity, text := embedding.text,
             metadata := embedding.metadata, course := mapGet dp.courses entry.1 }
    else none)

/-- The array `results` of `semanticSearch` before sorting. -/
def searchResults (dp : CourseDataProcessor) (query : Str) : List Hit :=
  dp.embeddings.flatMap (searchCourse dp (queryVectorOf query))

/-- Insert a hit into a list sorted by the comparator
`(a, b) => b.similarity - a.similarity`: it goes behind every hit of strictly
greater similarity and in front of the others. -/
def insertHit (x : Hit) : List Hit → List Hit
  | [] => [x]
  | y :: ys => if y.similarity.gt x.similarity then y :: insertHit x ys else x :: y :: ys

/-- The call `.sort((a, b) => b.similarity - a.similarity)`.  The sort is
stable, and the similarities are finite, so the result is the one stable
arrangement by decreasing similarity, built here by insertion from the right. -/
def sortBySimilarity (results : List Hit) : List Hit :=
  results.foldr insertHit []

/-- The method `semanticSearch`. -/
def semanticSearch (dp : CourseDataProcessor) (query : Str) (topK : Nat) : List Hit :=
  (sortBySimilarity (searchResults dp query)).take topK

/-- The method `getAllCourses`. -/
def getAllCourses (dp : CourseDataProcessor) : List Course :=
  dp.courses.map Prod.snd

/-- The method `toUpperCase`, on strings whose letters are ASCII. -/
def toUpperCase (s : Str) : Str :=
  s.map upperChar

/-- The method `getCourse` on a string; `none` is `undefined`. -/
def getCourse (dp : CourseDataProcessor) (courseCode : Str) : Option Course :=
  mapGet dp.courses (.str (toUpperCase courseCode))

/-- The keyword table `categoryKeywords` of `getCoursesByCategory`. -/
def categoryKeywords (key : Str) : List Str :=
  if key = "finance".toList then
    ["finance".toList, "investment".toList, "corporate".toList, "derivative".toList,
     "portfolio".toList, "valuation".toList, "capital".toList, "securities".toList,
     "markets".toList]
  else if key = "accounting".toList then
    ["accounting".toList, "audit".toList, "financial reporting".toList, "tax".toList,
     "governmental".toList, "non-profit".toList, "fraud".toList, "ethics".toList]
  else []

/-- The method `getCoursesByCategory`; `none` is a thrown `TypeError`.  The
keyword table is an object literal: for the keys `constructor` and
`__proto__` the lookup finds an inherited member that is not an array, and
the filter callback throws on the first course. -/
def getCoursesByCategory (dp : CourseDataProcessor) (category : Str) : Option (List Course) :=
  let key := toLowerCase category
  if key = "constructor".toList ∨ key = "__proto__".toList then
    if (getAllCourses dp).isEmpty then some [] else none
  else if (categoryKeywords key).isEmpty then some []
  else
    some ((getAllCourses dp).filter (fun course =>
      let searchText :=
        toLowerCase (course.title.toStr ++ " ".toList ++ course.description.toStr)
      (categoryKeywords key).any (fun keyword => includes searchText keyword)))

/-! ## Retrieval and response generation (`RAGChatbot`) -/

/-- An element of the array returned by `retrieveRelevantInfo`. -/
structure Info where
  courseCode : Value
  course : Option Course
  relevantText : Str
  similarity : Num
  metadata : Metadata
  deriving DecidableEq, Repr

/-- The method `retrieveRelevantInfo`. -/
def retrieveRelevantInfo (dp : CourseDataProcessor) (query : Str) : List Info :=
  ((semanticSearch dp query 8).filter (fun result => result.similarity.gt Num.tenth)).map
    (fun result =>
      { courseCode := result.courseCode, course := result.course,
        relevantText := result.text, similarity := result.similarity,
        metadata := result.metadata })

/-- The method `formatCourseResponse`. -/
def formatCourseResponse (course : Course) : Str :=
  let response :=
    "\n            <div class=\"course-card\">\n                <div class=\"course-title\">".toList ++
    course.code.toStr ++ " - ".toList ++ course.title.toStr ++
    "</div>\n                <div class=\"course-credits\">Credits: ".toList ++
    course.credits.toStr ++
    "</div>\n                <div class=\"course-description\">".toList ++
    course.description.toStr ++
    "</div>\n                <div class=\"course-details\">\n        ".toList
  let response :=
    if course.prerequisites.truthy then
      response ++ ("<p><strong>Prerequisites:</strong> ".toList ++
        course.prerequisites.toStr ++ "</p>".toList)
    else response
  let response :=
    if course.repeatRule.truthy then
      response ++ ("<p><strong>Repeat Rule:</strong> ".toList ++
        course.repeatRule.toStr ++ "</p>".toList)
    else response
  let response :=
    if course.mutualExclusion.truthy then
      response ++ ("<p><strong>Mutual Exclusion:</strong> ".toList ++
        course.mutualExclusion.toStr ++ "</p>".toList)
    else response
  let response :=
    if course.equivalent.truthy then
      response ++ ("<p><strong>Equivalent:</strong> ".toList ++
        course.equivalent.toStr ++ "</p>".toList)
    else response
  let response := response ++ ("<p><strong>Grade Mode:</strong> ".toList ++
    course.gradeMode.toStr ++ "</p>".toList)
  response ++ "</div></div>".toList

/-- The message of `generateCourseSpecificResponse` for a code without a hit. -/
def notFoundMessage (courseCode : Str) : Str :=
  "I couldn\x27t find information about ".toList ++ courseCode ++
    ". Please check the course code and try again.".toList

/-- The method `generateCourseSpecificResponse`; `none` is a thrown
`TypeError` (a hit without a course record). -/
def generateCourseSpecificResponse (courseCode : Str) (retrievedInfo : List Info) :
    Option Str :=
  match retrievedInfo.find? (fun info => decide (info.courseCode = .str courseCode)) with
  | none => some (notFoundMessage courseCode)
  | some courseInfo =>
    match courseInfo.course with
    | none => none
    | some course => some (formatCourseResponse course)

/-- The card of `generateCourseListResponse`. -/
def listCard (course : Course) : Str :=
  "\n                    <div class=\"course-card\">\n                        <div class=\"course-title\">".toList ++
  course.code.toStr ++ " - ".toList ++ course.title.toStr ++
  "</div>\n                        <div class=\"course-credits\">Credits: ".toList ++
  course.credits.toStr ++
  "</div>\n                        <div class=\"course-description\">".toList ++
  course.description.toStr ++
  "</div>\n                    </div>\n                ".toList

/-- The method `generateCourseListResponse`. -/
def generateCourseListResponse (dp : CourseDataProcessor) (category : Str) : Option Str :=
  let selected : Option (List Course) × Str :=
    if category = "finance".toList then
      (getCoursesByCategory dp "finance".toList, "Finance-Related Courses".toList)
    else if category = "accounting".toList then
      (getCoursesByCategory dp "accounting".toList, "Accounting-Related Courses".toList)
    else (some (getAllCourses dp), "All ACFI Courses".toList)
  match selected.1 with
  | none => none
  | some courses =>
    let response := "<h3>".toList ++ selected.2 ++ ":</h3>".toList
    if courses.length = 0 then
      some (response ++ "<p>No courses found for this category.</p>".toList)
    else
      some (courses.foldl (fun response course => response ++ listCard course) response)

/-- The idiom `.filter((course, index, self) => self.findIndex(c => c.code
=== course.code) === index)` on an array of records: the first record of each
code, in order. -/
def uniqByCode : List Course → List Course
  | [] => []
  | course :: rest => course :: (uniqByCode rest).filter (fun c => decide (c.code ≠ course.code))

/-- The records of the hits, when every hit has one; the de-duplicating
callback reads `course.code` of every element and throws on `undefined`. -/
def coursesOf : List Info → Option (List Course)
  | [] => some []
  | info :: rest =>
    match info.course, coursesOf rest with
    | some course, some courses => some (course :: courses)
    | _, _ => none

/-- The card of `generatePrerequisitesResponse`. -/
def prerequisitesCard (course : Course) : Str :=
  "\n                <div class=\"course-card\">\n                    <div class=\"course-title\">".toList ++
  course.code.toStr ++ " - ".toList ++ course.title.toStr ++
  "</div>\n                    <div class=\"course-details\">\n                        <p><strong>Prerequisites:</strong> ".toList ++
  course.prerequisites.toStr ++
  "</p>\n                    </div>\n                </div>\n            ".toList

/-- The method `generatePrerequisitesResponse`. -/
def generatePrerequisitesResponse (retrievedInfo : List Info) : Option Str :=
  match coursesOf (retrievedInfo.filter
      (fun info => decide (info.metadata.type = "prerequisites".toList))) with
  | none => none
  | some courses =>
    let coursesWithPrereqs := uniqByCode courses
    if coursesWithPrereqs.length = 0 then
      some "<p>Most ACFI courses do not have specific prerequisites listed. However, some advanced courses may require foundational knowledge.</p>".toList
    else
      some (coursesWithPrereqs.foldl (fun response course => response ++ prerequisitesCard course)
        "<h3>Courses with Prerequisites:</h3>".toList)

/-- The call `.replace(/\s+/g, ' ')`: every maximal run of white space becomes
one space. -/
def collapseSpaces : Str → Str
  | [] => []
  | c :: cs =>
    if isSpace c then
      match cs with
      | d :: _ => if isSpace d then collapseSpaces cs else ' ' :: collapseSpaces cs
      | [] => ' ' :: collapseSpaces cs
    else c :: collapseSpaces cs

/-- The method `generateComparisonResponse`. -/
def generateComparisonResponse (dp : CourseDataProcessor) (courses : List Str) : Option Str :=
  if courses.length < 2 then some "Please specify at least two courses to compare.".toList
  else
    some (courses.foldl (fun response courseCode =>
      let normalizedCode := toUpperCase (collapseSpaces courseCode)
      match getCourse dp normalizedCode with
      | some course => response ++ formatCourseResponse course
      | none => response) "<h3>Course Comparison:</h3>".toList)

/-- The card of `generateTopicResponse`. -/
def topicCard (course : Course) : Str :=
  "\n                <div class=\"course-card\">\n                    <div class=\"course-title\">".toList ++
  course.code.toStr ++ " - ".toList ++ course.title.toStr ++
  "</div>\n                    <div class=\"course-credits\">Credits: ".toList ++
  course.credits.toStr ++
  "</div>\n                    <div class=\"course-description\">".toList ++
  course.description.toStr ++
  "</div>\n                </div>\n            ".toList

/-- The method `generateTopicResponse`. -/
def generateTopicResponse (topic : Str) (retrievedInfo : List Info) : Option Str :=
  match coursesOf (retrievedInfo.filter
      (fun info => includes (toLowerCase info.relevantText) (toLowerCase topic))) with
  | none => none
  | some courses =>
    let relevantCourses := uniqByCode courses
    if relevantCourses.length = 0 then
      some ("<p>No courses found specifically related to \"".toList ++ topic ++
        "\". Try asking about specific course codes or browse all courses.</p>".toList)
    else
      some (relevantCourses.foldl (fun response course => response ++ topicCard course)
        ("<h3>Courses related to \"".toList ++ topic ++ "\":</h3>".toList))

/-- The source text a built-in member of `Object.prototype` converts to. -/
def nativeSource (name : Str) : Str :=
  if name = "__proto__".toList then "[object Object]".toList
  else
    "function ".toList ++ (if name = "constructor".toList then "Object".toList else name) ++
      "() \x7b [native code] \x7d".toList

/-- Conversion of a property value to a string. -/
def PropVal.toStr : PropVal → Str
  | .undefined => "undefined".toList
  | .count n => Nat.toDigits 10 n
  | .native name ones => nativeSource name ++ List.replicate ones '1'
  | .inherited name => nativeSource name

/-- The method `generateGeneralInfoResponse`. -/
def generateGeneralInfoResponse (dp : CourseDataProcessor) : Str :=
  let creditCounts : Obj :=
    (getAllCourses dp).foldl (fun creditCounts course => addWord creditCounts course.credits.toStr) []
  let response := "<h3>Course Information Summary:</h3>".toList
  let response := response ++ "<h4>Credit Distribution:</h4><ul>".toList
  let response := (objectKeys creditCounts).foldl (fun response credits =>
    response ++ ("<li><strong>".toList ++ credits ++ " credits:</strong> ".toList ++
      (getProp creditCounts credits).toStr ++ " courses</li>".toList)) response
  let response := response ++ "</ul>".toList
  response ++ "<p>Most ACFI courses are 3 credits and use Letter Grading. Some courses may be repeated for additional credits.</p>".toList

/-- The method `getDefaultResponse`. -/
def getDefaultResponse : Str :=
  "\n            <p>I\x27m not sure about that specific question. Here are some things you can try:</p>\n            <ul>\n                ".toList ++
  ("<li>".toList ++ "Try asking about a specific course like \x27ACFI 801\x27 or \x27Corporate Finance\x27".toList ++ "</li>".toList) ++
  ("<li>".toList ++ "Ask \x27List all courses\x27 to see all available ACFI courses".toList ++ "</li>".toList) ++
  ("<li>".toList ++ "Ask about prerequisites or course requirements".toList ++ "</li>".toList) ++
  ("<li>".toList ++ "Search by topic like \x27international\x27, \x27derivatives\x27, or \x27accounting\x27".toList ++ "</li>".toList) ++
  "\n            </ul>\n            <p>Feel free to ask me anything about ACFI courses at UNH!</p>\n        ".toList

/-- The method `getCourse` on a map key: a key that is not a string has no
method `toUpperCase`, and the call throws (outer `none`). -/
def getCourseOfKey (dp : CourseDataProcessor) : Value → Option (Option Course)
  | .str s => some (getCourse dp s)
  | _ => none

/-- The card of `generateSemanticResponse`. -/
def semanticCard (course : Course) : Str :=
  "\n                        <div class=\"course-card\">\n                            <div class=\"course-title\">".toList ++
  course.code.toStr ++ " - ".toList ++ course.title.toStr ++
  "</div>\n                            <div class=\"course-credits\">Credits: ".toList ++
  course.credits.toStr ++
  "</div>\n                            <div class=\"course-description\">".toList ++
  course.description.toStr ++
  "</div>\n                        </div>\n                    ".toList

/-- The loop of `generateSemanticResponse` over the distinct codes. -/
def semanticCards (dp : CourseDataProcessor) : List Value → Str → Option Str
  | [], response => some response
  | courseCode :: rest, response =>
    match getCourseOfKey dp courseCode with
    | none => none
    | some none => semanticCards dp rest response
    | some (some course) => semanticCards dp rest (response ++ semanticCard course)

/-- The method `generateSemanticResponse`. -/
def generateSemanticResponse (dp : CourseDataProcessor) (retrievedInfo : List Info) :
    Option Str :=
  if retrievedInfo.length = 0 then some getDefaultResponse
  else
    let topResults := retrievedInfo.take 3
    let uniqueCourses := uniq (topResults.map (fun info => info.courseCode))
    match uniqueCourses with
    | [courseCode] =>
      match getCourseOfKey dp courseCode with
      | some (some course) => some (formatCourseResponse course)
      | _ => none
    | _ => semanticCards dp (uniqueCourses.take 3) "<h3>Related Information:</h3>".toList

/-- The method `generateResponse`; `none` is a thrown `TypeError`, which
`processQuery` catches. -/
def generateResponse (dp : CourseDataProcessor) (query : Str) (retrievedInfo : List Info) :
    Option Str :=
  let queryLower := toLowerCase query
  match classifyIntent queryLower with
  | .specific_course courseCode => generateCourseSpecificResponse courseCode retrievedInfo
  | .list_courses category => generateCourseListResponse dp category
  | .prerequisites => generatePrerequisitesResponse retrievedInfo
  | .comparison courses => generateComparisonResponse dp courses
  | .topic_search topic => generateTopicResponse topic retrievedInfo
  | .general_info => some (generateGeneralInfoResponse dp)
  | .semantic_search => generateSemanticResponse dp retrievedInfo

/-- Steps 1 and 2 of `processQuery`: retrieve, then generate the response. -/
def answerQuery (dp : CourseDataProcessor) (query : Str) : Option Str :=
  generateResponse dp query (retrieveRelevantInfo dp query)

/-! ## Loading (`CourseDataProcessor.fetchCourseData`) -/

/-- The method `processCourseData` on an array whose elements need not be
records: `none` is an element that is `null` or `undefined`, on which reading
`course.code` throws.  The result is the state reached and whether the loop
ran to its end without throwing. -/
def processCourseDataArray (dp : CourseDataProcessor) :
    List (Option Course) → CourseDataProcessor × Bool
  | [] => (dp, true)
  | none :: _ => (dp, false)
  | some course :: rest =>
    let textChunks := createTextChunks course
    let embeddings := generateEmbeddings textChunks
    processCourseDataArray
      { courses := mapSet dp.courses course.code course,
        embeddings := mapSet dp.embeddings course.code
          { chunks := textChunks, embeddings := embeddings } }
      rest

/-- The method `fetchCourseData`, with the array that `parseStaticCatalogData`
returns as a parameter: the boolean it returns (`false` from the `catch`
branch) and the state it leaves.  The time stamp `lastUpdated` is not part of
the state. -/
def fetchCourseData (dp : CourseDataProcessor) (catalogData : List (Option Course)) :
    Bool × CourseDataProcessor :=
  ((processCourseDataArray dp catalogData).2, (processCourseDataArray dp catalogData).1)

/-- Every character of the string is an ASCII character. -/
def isAscii (s : Str) : Bool :=
  s.all (fun c => decide (c.toNat < 128))

/-! ## The conversation (`RAGChatbot.processQuery`) -/

/-- An element of `conversationHistory`.  Only assistant turns have the field
`sources`.  The field `timestamp` holds the time of the call and is not part
of the model. -/
structure Turn where
  type : Str
  content : Str
  sources : Option (List Value)
  deriving DecidableEq, Repr

/-- The state of a `RAGChatbot`. -/
structure RAGChatbot where
  dataProcessor : CourseDataProcessor
  conversationHistory : List Turn
  initialized : Bool
  deriving DecidableEq, Repr

/-- The constructor of `RAGChatbot`. -/
def RAGChatbot.new (dataProcessor : CourseDataProcessor) : RAGChatbot :=
  { dataProcessor := dataProcessor, conversationHistory := [], initialized := false }

/-- The method `RAGChatbot.initialize`, with the array that
`parseStaticCatalogData` returns as a parameter.  `fetchCourseData` catches
its own errors, so the `try` block runs to its end: the flag is set and `true`
is returned whatever `fetchCourseData` returned. -/
def initializeChatbot (bot : RAGChatbot) (catalogData : List (Option Course)) :
    Bool × RAGChatbot :=
  (true,
   { bot with
     dataProcessor := (fetchCourseData bot.dataProcessor catalogData).2,
     initialized := true })

/-- The method `getErrorResponse`. -/
def getErrorResponse : Str :=
  "\n            <p>I\x27m sorry, I encountered an error processing your request. Please try asking your question differently or contact support if the problem persists.</p>\n            <p>You can try:</p>\n            <ul>\n                <li>Asking about specific course codes (e.g., \"ACFI 801\")</li>\n                <li>Requesting course lists by category</li>\n                <li>Searching for topics like \"derivatives\" or \"accounting\"</li>\n            </ul>\n        ".toList

/-- The method `processQuery`, one call run from its start to its return: the
value returned and the state left.  The user turn is pushed before the `try`
block; the assistant turn is pushed inside it, after the response was
generated; when `generateResponse` throws, the `catch` branch returns
`getErrorResponse` and pushes nothing. -/
def processQuery (bot : RAGChatbot) (catalogData : List (Option Course)) (query : Str) :
    Str × RAGChatbot :=
  let bot := if bot.initialized then bot else (initializeChatbot bot catalogData).2
  let bot := { bot with
    conversationHistory := bot.conversationHistory ++
      [{ type := "user".toList, content := query, sources := none }] }
  let retrievedInfo := retrieveRelevantInfo bot.dataProcessor query
  match generateResponse bot.dataProcessor query retrievedInfo with
  | some response =>
    (response,
     { bot with
       conversationHistory := bot.conversationHistory ++
         [{ type := "assistant".toList, content := response,
            sources := some (uniq (retrievedInfo.map (fun info => info.courseCode))) }] })
  | none => (getErrorResponse, bot)

/-- The method `clearHistory`. -/
def clearHistory (bot : RAGChatbot) : RAGChatbot :=
  { bot with conversationHistory := [] }

/-- The method `getConversationHistory`. -/
def getConversationHistory (bot : RAGChatbot) : List Turn :=
  bot.conversationHistory

/-! ## The rules text as the specification words it -/

/-- The values of the fields that are present, in the given order. -/
def presentValues (fields : List Value) : List Str :=
  (fields.filter (fun field => field.truthy)).map (fun field => field.toStr)

/-- The text of the rules document in the words of the specification: the
prefix, then the present fields among `repeatRule`, `mutualExclusion`,
`equivalent`, in that order, separated by single spaces. -/
def rulesTextInSpecWords (course : Course) : Str :=
  "Additional rules for ".toList ++ course.code.toStr ++ ": ".toList ++
    " ".toList.intercalate
      (presentValues [course.repeatRule, course.mutualExclusion, course.equivalent])

/-! ## Equal similarity -/

/-- The hit has the similarity `s`: neither number is greater than the other. -/
def sameSimilarity (s : Num) (h : Hit) : Bool :=
  !(h.similarity.gt s) && !(s.gt h.similarity)

/-- The entry of `this.embeddings` that `processCourseData` stores for a
record. -/
def embeddingsEntry (course : Course) : Value × CourseEmbeddings :=
  (course.code,
   { chunks := createTextChunks course,
     embeddings := generateEmbeddings (createTextChunks course) })

/-! ## Term vectors as the claims describe them -/

/-- The count a vector holds for a word; 0 when the word is not an own key. -/
def countOf (v : Obj) (word : Str) : Nat :=
  match ownProp v word with
  | some (.count n) => n
  | _ => 0

/-- The value is a count between 1 and `2 ^ 16 - 1`. -/
def isSmallCount : PropVal → Bool
  | .count n => decide (0 < n) && decide (n < 2 ^ 16)
  | _ => false

/-- A map from tokens to positive counts, of moderate size: no key is a
property name of `Object.prototype`, every value is a count between 1 and
`2 ^ 16 - 1`, and there are at most `2 ^ 19` keys.  For such vectors each sum
of `cosineSimilarity` stays below `2 ^ 53` and is computed without rounding. -/
def IsTermVector (v : Obj) : Prop :=
  v.length ≤ 2 ^ 19 ∧
  ∀ kv ∈ v, kv.1 ∉ objectPrototypeNames ∧ isSmallCount kv.2 = true

/-- Every own value of the object is a count. -/
def AllCounts (obj : Obj) : Prop :=
  ∀ kv ∈ obj, ∃ n, kv.2 = PropVal.count n

/-! ## Invariant of the store -/

/-- The store is consistent: a record is filed under its own code, and every
key of `embeddings` is a key of `courses`. -/
def Consistent (dp : CourseDataProcessor) : Prop :=
  (∀ k r, mapGet dp.courses k = some r → r.code = k) ∧
  ∀ entry ∈ dp.embeddings, ∃ r, mapGet dp.courses entry.1 = some r

/-! ## Inputs of the examples -/

/-- A chunk with the given text, of the kind `createTextChunks` makes first. -/
def textChunk (text : Str) : Chunk :=
  { type := "basic_info".toList, text := text,
    metadata := { type := "description".toList, courseCode := .null } }

/-- The hit that `semanticSearch` makes for a query, a stored record and one of
its chunks. -/
def hitFor (query : Str) (course : Course) (chunk : Chunk) : Hit :=
  { courseCode := course.code,
    similarity := cosineSimilarity (queryVectorOf query) (embedChunk chunk).vector,
    text := chunk.text,
    metadata := chunk.metadata,
    course := some course }

/-- The logistics chunk of a record with the given code, worth 3 credits with
letter grading. -/
def logisticsChunk (code : Str) : Chunk :=
  { type := "logistics".toList,
    text := code ++ " is worth 3 credits and uses Letter Grading".toList,
    metadata := { type := "logistics".toList, courseCode := .str code } }

/-- A retrieved hit of a record with the given text, as `retrieveRelevantInfo`
shapes its elements. -/
def infoOf (course : Course) (text : Str) : Info :=
  { courseCode := course.code, course := some course, relevantText := text,
    similarity := Num.tenth, metadata := (textChunk text).metadata }

/-- The record of ACFI 801 in `parseStaticCatalogData`. -/
def acfi801 : Course :=
  { code := .str "ACFI 801".toList,
    title := .str "Corporate Finance".toList,
    credits := .num 3,
    description := .str "This course provides the foundation of corporate finance. Topics include investment criteria, capital structure, valuation, mergers and acquisitions, real options, and payout policy.".toList,
    prerequisites := .null,
    repeatRule := .str "May be repeated for a maximum of 6 credits.".toList,
    mutualExclusion := .null,
    equivalent := .undefined,
    gradeMode := .str "Letter Grading".toList }

/-- The record of ACFI 802 in `parseStaticCatalogData`. -/
def acfi802 : Course :=
  { code := .str "ACFI 802".toList,
    title := .str "Investments".toList,
    credits := .num 3,
    description := .str "This course provides an overview of several important topics in investments: securities and markets, asset pricing theory, stock analysis and valuation, fixed income securities, stock options, and applied portfolio management.".toList,
    prerequisites := .null,
    repeatRule := .str "May be repeated for a maximum of 6 credits.".toList,
    mutualExclusion := .null,
    equivalent := .undefined,
    gradeMode := .str "Letter Grading".toList }

/-- The record of ACFI 803 in `parseStaticCatalogData`. -/
def acfi803 : Course :=
  { code := .str "ACFI 803".toList,
    title := .str "International Financial Management".toList,
    credits := .num 3,
    description := .str "This course explores the financial management of firms operating in a global environment. Topics typically include foreign exchange markets, the financing of international trade, multinational tax management, derivatives used to mitigate international exposure, and the financial impact of foreign currency usage.".toList,
    prerequisites := .null,
    repeatRule := .null,
    mutualExclusion := .str "No credit for students who have taken ADMN 846.".toList,
    equivalent := .undefined,
    gradeMode := .str "Letter Grading".toList }

/-- The record of ACFI 804 in `parseStaticCatalogData`. -/
def acfi804 : Course :=
  { code := .str "ACFI 804".toList,
    title := .str "Derivative Securities and Markets".toList,
    credits := .num 3,
    description := .str "This course explores the basic types of derivative instruments (forwards, futures, options, swaps) and their use in the context of financial risk management by investors, firms and financial institutions. Topics include the mechanics of derivatives markets, practical and theoretical aspects of hedging and speculating using derivatives, and methodologies for pricing derivatives.".toList,
    prerequisites := .str "ACFI 801 with a minimum grade of B- and ACFI 802 with a minimum grade of B-.".toList,
    repeatRule := .str "May be repeated for a maximum of 6 credits.".toList,
    mutualExclusion := .null,
    equivalent := .undefined,
    gradeMode := .str "Letter Grading".toList }

/-- The record of ACFI 801 with its code written in lower case. -/
def acfi801LowerCase : Course :=
  { acfi801 with code := .str "acfi 801".toList }

/-- A record whose description contains the word "constructor". -/
def acfi899 : Course :=
  { code := .str "ACFI 899".toList,
    title := .str "Financial Software".toList,
    credits := .num 3,
    description := .str "The constructor pattern in financial software.".toList,
    prerequisites := .null,
    repeatRule := .null,
    mutualExclusion := .null,
    equivalent := .undefined,
    gradeMode := .str "Letter Grading".toList }

/-! # Theorems -/

set_option maxRecDepth 100000

/-! ## Lemmas on the course-code pattern -/

theorem takeSpaces_append_dropSpaces (s : Str) : takeSpaces s ++ dropSpaces s = s := by
  induction s with
  | nil => rfl
  | cons c cs ih =>
    by_cases h : isSpace c = true
    · simp [takeSpaces, dropSpaces, h, ih]
    · simp [takeSpaces, dropSpaces, h]

theorem isSpace_of_mem_takeSpaces (s : Str) : ∀ c ∈ takeSpaces s, isSpace c = true := by
  induction s with
  | nil => intro c hc; simp [takeSpaces] at hc
  | cons d ds ih =>
    intro c hc
    by_cases h : isSpace d = true
    · simp only [takeSpaces, h, if_true, List.mem_cons] at hc
      rcases hc with rfl | hc
      · exact h
      · exact ih c hc
    · simp [takeSpaces, h] at hc

theorem matchDigits3_some {s ds rest : Str} (h : matchDigits3 s = some (ds, rest)) :
    s = ds ++ rest ∧ ds.length = 3 ∧ ∀ c ∈ ds, isDigit c = true := by
  match s, h with
  | d1 :: d2 :: d3 :: r, h =>
    simp only [matchDigits3] at h
    split at h
    · rename_i hd
      simp only [Bool.and_eq_true] at hd
      simp only [Option.some.injEq, Prod.mk.injEq] at h
      obtain ⟨rfl, rfl⟩ := h
      refine ⟨rfl, rfl, ?_⟩
      intro c hc
      simp only [List.mem_cons, List.mem_singleton, List.not_mem_nil, or_false] at hc
      rcases hc with rfl | rfl | rfl
      · exact hd.1.1
      · exact hd.1.2
      · exact hd.2
    · exact absurd h (by simp)

theorem lowerChar_of_eqIgnoreCase {p c : Char} (hp : isLowerAscii p = true)
    (h : eqIgnoreCase p c = true) : lowerChar c = [p] := by
  simp only [eqIgnoreCase, Bool.or_eq_true, beq_iff_eq, Bool.and_eq_true] at h
  have hpl : 97 ≤ p.toNat ∧ p.toNat ≤ 122 := by
    simpa [isLowerAscii] using hp
  rcases h with rfl | ⟨hu, hn⟩
  · have h1 : isUpperAscii c = false := by
      simp only [isUpperAscii, Bool.and_eq_false_imp, decide_eq_true_eq, decide_eq_false_iff_not]
      omega
    have h2 : (c.toNat == 8490) = false := by
      simp only [beq_eq_false_iff_ne, ne_eq]; omega
    have h3 : (c.toNat == 304) = false := by
      simp only [beq_eq_false_iff_ne, ne_eq]; omega
    simp [lowerChar, h1, h2, h3]
  · simp only [lowerChar, hu, if_true, hn, List.cons.injEq, and_true]
    exact Char.ofNat_toNat p

theorem matchCodeAt_some {s m ds rest : Str} (h : matchCodeAt s = some (m, ds, rest)) :
    s = m ++ rest ∧ ∃ letters spaces, m = letters ++ spaces ++ ds ∧
      toLowerCase letters = "acfi".toList ∧ (∀ c ∈ spaces, isSpace c = true) ∧
      ds.length = 3 ∧ ∀ c ∈ ds, isDigit c = true := by
  match s, h with
  | a :: c :: f :: i :: r, h =>
    simp only [matchCodeAt] at h
    split at h
    · rename_i hl
      simp only [Bool.and_eq_true] at hl
      split at h
      · rename_i ds0 rest0 hd
        simp only [Option.some.injEq, Prod.mk.injEq] at h
        obtain ⟨rfl, rfl, rfl⟩ := h
        obtain ⟨hs, hlen, hdig⟩ := matchDigits3_some hd
        refine ⟨?_, [a, c, f, i], takeSpaces r, ?_, ?_, isSpace_of_mem_takeSpaces r, hlen, hdig⟩
        · have := takeSpaces_append_dropSpaces r
          rw [hs] at this
          simp [List.append_assoc, this]
        · simp
        · simp only [toLowerCase, lowerChar_of_eqIgnoreCase (by decide) hl.1.1.1,
            lowerChar_of_eqIgnoreCase (by decide) hl.1.1.2,
            lowerChar_of_eqIgnoreCase (by decide) hl.1.2,
            lowerChar_of_eqIgnoreCase (by decide) hl.2]
          rfl
      · exact absurd h (by simp)
    · exact absurd h (by simp)

theorem matchAllAux_zero_of_matchCode_none (q : Str) (h : matchCode q = none) :
    matchAllAux 0 q = [] := by
  induction q with
  | nil => rfl
  | cons c cs ih =>
    simp only [matchCode] at h
    split at h
    · exact absurd h (by simp)
    · rename_i hn
      simp only [matchAllAux, hn]
      exact ih h

theorem matchAllAux_zero_of_matchCode_some (q : Str) {m ds : Str}
    (h : matchCode q = some (m, ds)) :
    ∃ pre post tail, q = pre ++ m ++ post ∧ matchAllAux 0 q = m :: tail ∧
      ∃ letters spaces, m = letters ++ spaces ++ ds ∧
        toLowerCase letters = "acfi".toList ∧ (∀ c ∈ spaces, isSpace c = true) ∧
        ds.length = 3 ∧ ∀ c ∈ ds, isDigit c = true := by
  induction q with
  | nil => simp [matchCode] at h
  | cons c cs ih =>
    simp only [matchCode] at h
    split at h
    · rename_i m0 ds0 rest0 hm
      simp only [Option.some.injEq, Prod.mk.injEq] at h
      obtain ⟨rfl, rfl⟩ := h
      obtain ⟨hs, hstruct⟩ := matchCodeAt_some hm
      refine ⟨[], rest0, matchAllAux (m0.length - 1) cs, by simpa using hs, ?_, hstruct⟩
      simp only [matchAllAux, hm]
    · rename_i hn
      obtain ⟨pre, post, tail, hq, hall, hstruct⟩ := ih h
      refine ⟨c :: pre, post, tail, by simp [hq], ?_, hstruct⟩
      simp only [matchAllAux, hn]
      exact hall

/-! ## Intent classification -/

/-- C1 (the code at the failing input): a query naming two course codes is
classified `specific_course` with the first code, not `comparison`; the same
holds for the lower-cased query that `generateResponse` passes on. -/
theorem classifyIntent_two_codes_is_specific :
    matchAllCodes "compare ACFI 801 and ACFI 802".toList
        = ["ACFI 801".toList, "ACFI 802".toList] ∧
    classifyIntent "compare ACFI 801 and ACFI 802".toList
        = .specific_course "ACFI 801".toList ∧
    classifyIntent (toLowerCase "compare ACFI 801 and ACFI 802".toList)
        = .specific_course "ACFI 801".toList := by
  decide

/-- C2: a query with exactly one match of the course-code pattern is
classified `specific_course`, and the code it carries is `ACFI ` followed by
the three digits of that match, whatever else the query contains. -/
theorem classifyIntent_single_code (query : Str) (h : (matchAllCodes query).length = 1) :
    ∃ pre letters spaces digits post,
      query = pre ++ (letters ++ spaces ++ digits) ++ post ∧
      toLowerCase letters = "acfi".toList ∧ (∀ c ∈ spaces, isSpace c = true) ∧
      digits.length = 3 ∧ (∀ c ∈ digits, isDigit c = true) ∧
      matchAllCodes query = [letters ++ spaces ++ digits] ∧
      classifyIntent query = .specific_course ("ACFI ".toList ++ digits) := by
  cases hm : matchCode query with
  | none =>
    have := matchAllAux_zero_of_matchCode_none query hm
    simp [matchAllCodes, this] at h
  | some md =>
    obtain ⟨m, ds⟩ := md
    obtain ⟨pre, post, tail, hq, hall, letters, spaces, hmeq, hl, hsp, hlen, hdig⟩ :=
      matchAllAux_zero_of_matchCode_some query hm
    have htail : tail = [] := by
      simp only [matchAllCodes, hall, List.length_cons, Nat.add_left_eq_self] at h
      exact List.length_eq_zero.mp h
    subst hmeq
    refine ⟨pre, letters, spaces, ds, post, hq, hl, hsp, hlen, hdig, ?_, ?_⟩
    · simp [matchAllCodes, hall, htail]
    · simp only [classifyIntent, hm]

/-- C2, witness: the query "compare ACFI 801" has one match and is a
specific-course request. -/
theorem classifyIntent_single_code_witness :
    (matchAllCodes "compare ACFI 801".toList).length = 1 ∧
    ∃ pre letters spaces digits post,
      "compare ACFI 801".toList = pre ++ (letters ++ spaces ++ digits) ++ post ∧
      toLowerCase letters = "acfi".toList ∧ (∀ c ∈ spaces, isSpace c = true) ∧
      digits.length = 3 ∧ (∀ c ∈ digits, isDigit c = true) ∧
      matchAllCodes "compare ACFI 801".toList = [letters ++ spaces ++ digits] ∧
      classifyIntent "compare ACFI 801".toList = .specific_course ("ACFI ".toList ++ digits) :=
  ⟨by decide, classifyIntent_single_code "compare ACFI 801".toList (by decide)⟩

/-- C3, counterexample: "compare prerequisites" has no course code, is not a
list request, contains "compare" and "prerequisite", and is classified
`prerequisites`; testing the rules in the order the specification gives
would return `comparison`. -/
theorem classifyIntent_not_spec_order :
    matchCode "compare prerequisites".toList = none ∧
    ruleListCourses "compare prerequisites".toList = none ∧
    includes "compare prerequisites".toList "compare".toList = true ∧
    includes "compare prerequisites".toList "prerequisite".toList = true ∧
    classifyIntent "compare prerequisites".toList = .prerequisites ∧
    firstMatch rulesInSpecOrder "compare prerequisites".toList = .comparison [] ∧
    classifyIntent "compare prerequisites".toList
      ≠ firstMatch rulesInSpecOrder "compare prerequisites".toList := by
  decide

/-- C3, amended: `classifyIntent` returns what the first matching rule
returns when the rules are tested in the order SpecificCourse, ListCourses,
Prerequisites, Comparison, TopicSearch, GeneralInfo, SemanticSearch; a query
with no course code that is not a list request and contains "prerequisite" or
"prereq" is classified `prerequisites`, also when it contains "compare" or
"difference". -/
theorem classifyIntent_first_match_code_order (query : Str) :
    classifyIntent query = firstMatch rulesInCodeOrder query ∧
    (matchCode query = none → ruleListCourses query = none →
      (includes query "compare".toList = true ∨ includes query "difference".toList = true) →
      (includes query "prerequisite".toList = true ∨ includes query "prereq".toList = true) →
      classifyIntent query = .prerequisites) := by
  constructor
  · simp only [classifyIntent, rulesInCodeOrder, firstMatch, ruleSpecificCourse,
      ruleListCourses, rulePrerequisites, ruleComparison, ruleTopicSearch, ruleGeneralInfo]
    repeat' split
    all_goals first | rfl | simp_all
  · intro hc hl _ hp
    have hl2 : (includes query "list".toList &&
        (includes query "course".toList || includes query "all".toList)) = false := by
      simp only [ruleListCourses] at hl
      split at hl
      · exact absurd hl (by simp)
      · rename_i hne; simpa using hne
    have hp2 : (includes query "prerequisite".toList || includes query "prereq".toList) = true := by
      simpa using hp
    simp only [classifyIntent, hc, hl2, hp2]
    simp

/-- C3, witness of the amended claim at "compare prerequisites". -/
theorem classifyIntent_first_match_code_order_witness :
    classifyIntent "compare prerequisites".toList
      = firstMatch rulesInCodeOrder "compare prerequisites".toList ∧
    classifyIntent "compare prerequisites".toList = .prerequisites :=
  ⟨(classifyIntent_first_match_code_order "compare prerequisites".toList).1,
   (classifyIntent_first_match_code_order "compare prerequisites".toList).2
     (by decide) (by decide) (Or.inl (by decide)) (Or.inl (by decide))⟩

/-! ## Lemmas on tokens -/

theorem lowerChar_not_upper (c d : Char) (h : d ∈ lowerChar c) : isUpperAscii d = false := by
  unfold lowerChar at h
  split at h
  · rename_i hu
    simp only [List.mem_singleton] at h
    subst h
    have hb : 65 ≤ c.toNat ∧ c.toNat ≤ 90 := by simpa [isUpperAscii] using hu
    obtain ⟨h1, h2⟩ := hb
    generalize c.toNat = n at h1 h2
    interval_cases n <;> decide
  · split at h
    · simp only [List.mem_singleton] at h
      subst h; decide
    · split at h
      · simp only [List.mem_cons, List.mem_singleton, List.not_mem_nil, or_false] at h
        rcases h with rfl | rfl <;> decide
      · rename_i hu _ _
        simp only [List.mem_singleton] at h
        subst h
        simpa using hu

theorem toLowerCase_not_upper (s : Str) : ∀ d ∈ toLowerCase s, isUpperAscii d = false := by
  induction s with
  | nil => intro d hd; simp [toLowerCase] at hd
  | cons c cs ih =>
    intro d hd
    simp only [toLowerCase, List.mem_append] at hd
    rcases hd with hd | hd
    · exact lowerChar_not_upper c d hd
    · exact ih d hd

theorem splitSpaces_mem (s : Str) :
    ∀ tok ∈ splitSpaces s, ∀ ch ∈ tok, ch ∈ s ∧ isSpace ch = false := by
  induction s with
  | nil =>
    intro tok htok ch hch
    simp only [splitSpaces, List.mem_singleton] at htok
    subst htok
    simp at hch
  | cons c cs ih =>
    intro tok htok ch hch
    by_cases hc : isSpace c = true
    · have hin : tok = [] ∨ tok ∈ splitSpaces cs := by
        cases cs with
        | nil => simpa [splitSpaces, hc] using htok
        | cons d ds =>
          by_cases hd : isSpace d = true
          · right; simpa [splitSpaces, hc, hd] using htok
          · simpa [splitSpaces, hc, hd] using htok
      rcases hin with rfl | hin
      · simp at hch
      · obtain ⟨h1, h2⟩ := ih tok hin ch hch
        exact ⟨List.mem_cons_of_mem _ h1, h2⟩
    · simp only [splitSpaces, hc] at htok
      cases hs : splitSpaces cs with
      | nil =>
        simp only [hs, Bool.false_eq_true, if_false, List.mem_singleton] at htok
        subst htok
        simp only [List.mem_singleton] at hch
        subst hch
        exact ⟨List.mem_cons_self _ _, by simpa using hc⟩
      | cons t ts =>
        simp only [hs, Bool.false_eq_true, if_false, List.mem_cons] at htok
        rcases htok with rfl | htok
        · simp only [List.mem_cons] at hch
          rcases hch with rfl | hch
          · exact ⟨List.mem_cons_self _ _, by simpa using hc⟩
          · obtain ⟨h1, h2⟩ := ih t (by simp [hs]) ch hch
            exact ⟨List.mem_cons_of_mem _ h1, h2⟩
        · obtain ⟨h1, h2⟩ := ih tok (by simp [hs, htok]) ch hch
          exact ⟨List.mem_cons_of_mem _ h1, h2⟩

theorem putOwn_keys (obj : Obj) (key : Str) (v : PropVal) :
    ∀ k ∈ (putOwn obj key v).map Prod.fst, k = key ∨ k ∈ obj.map Prod.fst := by
  induction obj with
  | nil => intro k hk; simp [putOwn] at hk; exact Or.inl hk
  | cons kv rest ih =>
    obtain ⟨k0, w⟩ := kv
    intro k hk
    by_cases h : k0 = key
    · simp only [putOwn, h, if_true, List.map_cons, List.mem_cons] at hk
      rcases hk with rfl | hk
      · exact Or.inl rfl
      · right; simp only [List.map_cons, List.mem_cons]; exact Or.inr hk
    · simp only [putOwn, h, if_false, List.map_cons, List.mem_cons] at hk
      rcases hk with rfl | hk
      · right; exact List.mem_cons_self _ _
      · rcases ih k hk with h1 | h1
        · exact Or.inl h1
        · right; simp only [List.map_cons, List.mem_cons]; exact Or.inr h1

theorem addWord_keys (obj : Obj) (word : Str) :
    ∀ k ∈ (addWord obj word).map Prod.fst, k = word ∨ k ∈ obj.map Prod.fst := by
  intro k hk
  unfold addWord setProp at hk
  split at hk
  · exact Or.inr hk
  · exact putOwn_keys _ _ _ k hk

theorem foldl_addWord_keys (words : List Str) (obj : Obj) :
    ∀ k ∈ (words.foldl (fun o w => addWord o w) obj).map Prod.fst,
      k ∈ words ∨ k ∈ obj.map Prod.fst := by
  induction words generalizing obj with
  | nil => intro k hk; exact Or.inr hk
  | cons w ws ih =>
    intro k hk
    simp only [List.foldl_cons] at hk
    rcases ih (addWord obj w) k hk with h | h
    · exact Or.inl (List.mem_cons_of_mem _ h)
    · rcases addWord_keys obj w k h with h1 | h1
      · subst h1; exact Or.inl (List.mem_cons_self _ _)
      · exact Or.inr h1

/-- Every key of a term vector is a token of the text: longer than two
characters, and made of small ASCII letters, digits and underscores. -/
theorem vector_key_shape (text key : Str)
    (h : key ∈ (((splitSpaces (stripNonWord (toLowerCase text))).filter
      (fun word => decide (word.length > 2))).foldl (fun o w => addWord o w) []).map Prod.fst) :
    key.length > 2 ∧
      ∀ c ∈ key, isLowerAscii c = true ∨ isDigit c = true ∨ c = '_' := by
  rcases foldl_addWord_keys _ [] key h with h | h
  · simp only [List.mem_filter, decide_eq_true_eq] at h
    obtain ⟨htok, hlen⟩ := h
    refine ⟨hlen, ?_⟩
    intro c hc
    obtain ⟨hmem, hsp⟩ := splitSpaces_mem _ key htok c hc
    simp only [stripNonWord, List.mem_filter, Bool.or_eq_true] at hmem
    obtain ⟨hlow, hw⟩ := hmem
    have hup := toLowerCase_not_upper text c hlow
    rcases hw with hw | hw
    · simp only [isWord, hup, Bool.false_or, Bool.or_eq_true, beq_iff_eq] at hw
      rcases hw with (hw | hw) | hw
      · exact Or.inl hw
      · exact Or.inr (Or.inl hw)
      · exact Or.inr (Or.inr hw)
    · rw [hsp] at hw; exact absurd hw (by simp)
  · simp only [List.map_nil, List.not_mem_nil] at h

/-! ## Term vectors -/

/-- C5 (the code at the failing input): for the text "constructor" the
vector holds, under the key "constructor", not the count 1 but the string
made of the source text of the inherited `Object` function followed by "1";
a second occurrence appends another "1"; and the token "__proto__" gets no
key at all. -/
theorem embedChunk_constructor_not_count :
    (embedChunk (textChunk "constructor".toList)).vector
      = [("constructor".toList, .native "constructor".toList 1)] ∧
    (embedChunk (textChunk "constructor constructor".toList)).vector
      = [("constructor".toList, .native "constructor".toList 2)] ∧
    (splitSpaces (stripNonWord (toLowerCase "__proto__".toList))).filter
        (fun word => decide (word.length > 2)) = ["__proto__".toList] ∧
    (embedChunk (textChunk "__proto__".toList)).vector = [] := by
  decide

/-- C6: the vector that `generateEmbeddings` stores for a chunk is the query
vector that `semanticSearch` builds for the chunk's text. -/
theorem embedding_vector_eq_queryVector (chunk : Chunk) :
    (generateEmbeddings [chunk]).map (fun embedding => embedding.vector)
      = [queryVectorOf chunk.text] := by
  simp [generateEmbeddings, embedChunk, queryVectorOf]

/-- C7, counterexample: the text "foo_bar" has the key "foo_bar", which
contains an underscore, a character that is neither a letter nor a digit. -/
theorem vector_key_with_underscore :
    (embedChunk (textChunk "foo_bar".toList)).vector
      = [("foo_bar".toList, .count 1)] ∧
    '_' ∈ "foo_bar".toList ∧ isLowerAscii '_' = false ∧ isDigit '_' = false ∧
    Char.isAlphanum '_' = false := by
  decide

/-- C7, amended: every key of the term vector of a text is longer than two
characters and consists only of small ASCII letters, digits and underscores;
the vector of "an ox at it" is empty. -/
theorem vector_keys_word_chars (chunk : Chunk) (key : Str)
    (h : key ∈ (embedChunk chunk).vector.map Prod.fst) :
    (key.length > 2 ∧ ∀ c ∈ key, isLowerAscii c = true ∨ isDigit c = true ∨ c = '_') ∧
    (embedChunk (textChunk "an ox at it".toList)).vector = [] :=
  ⟨vector_key_shape chunk.text key h, by decide⟩

/-- C7, witness: the key "corporate" of the vector of "Corporate Finance: an
overview". -/
theorem vector_keys_word_chars_witness :
    "corporate".toList ∈ (embedChunk (textChunk "Corporate Finance: an overview".toList)).vector.map Prod.fst ∧
    (("corporate".toList.length > 2 ∧
        ∀ c ∈ "corporate".toList, isLowerAscii c = true ∨ isDigit c = true ∨ c = '_') ∧
      (embedChunk (textChunk "an ox at it".toList)).vector = []) :=
  ⟨by decide,
    vector_keys_word_chars (textChunk "Corporate Finance: an overview".toList) "corporate".toList
      (by decide)⟩

/-! ## Order of numbers -/

theorem Num.gt_fin_iff (m1 m2 : Nat) (e1 e2 : Int) :
    Num.gt (.fin m1 e1) (.fin m2 e2) = true ↔
      (m2 : ℚ) * (2 : ℚ) ^ e2 < (m1 : ℚ) * (2 : ℚ) ^ e1 := by
  have h2 : (0 : ℚ) < 2 := by norm_num
  have hne : (2 : ℚ) ≠ 0 := by norm_num
  have key : ∀ (m : Nat) (e : Int), min e1 e2 ≤ e →
      ((m * 2 ^ (e - min e1 e2).toNat : Nat) : ℚ) * (2 : ℚ) ^ (min e1 e2) = (m : ℚ) * (2 : ℚ) ^ e := by
    intro m e he
    have hd : ((e - min e1 e2).toNat : Int) = e - min e1 e2 := Int.toNat_of_nonneg (by omega)
    push_cast
    rw [mul_assoc, ← zpow_natCast, hd, ← zpow_add₀ hne]
    congr 2
    omega
  simp only [Num.gt, decide_eq_true_eq, gt_iff_lt]
  rw [← key m1 e1 (min_le_left _ _), ← key m2 e2 (min_le_right _ _)]
  rw [mul_lt_mul_right (zpow_pos h2 _)]
  exact Nat.cast_lt.symm

theorem Num.gt_zero_fin {x : Num} (h : x.gt Num.zero = true) : ∃ m e, x = .fin m e := by
  cases x with
  | nan => simp [Num.gt] at h
  | fin m e => exact ⟨m, e, rfl⟩

theorem Num.not_gt_trans {x y z : Num} (hy : ∃ m e, y = .fin m e)
    (h1 : y.gt x = false) (h2 : z.gt y = false) : z.gt x = false := by
  obtain ⟨my, ey, rfl⟩ := hy
  cases x with
  | nan => cases z <;> rfl
  | fin mx ex =>
    cases z with
    | nan => rfl
    | fin mz ez =>
      rw [Bool.eq_false_iff, ne_eq, Num.gt_fin_iff, not_lt] at h1 h2 ⊢
      exact le_trans h2 h1

/-! ## Sorting by similarity -/

theorem mem_insertHit (x h : Hit) (l : List Hit) : h ∈ insertHit x l ↔ h = x ∨ h ∈ l := by
  induction l with
  | nil => simp [insertHit]
  | cons y ys ih =>
    by_cases hg : y.similarity.gt x.similarity = true
    · simp only [insertHit, hg, if_true, List.mem_cons, ih]
      tauto
    · simp only [insertHit, hg, List.mem_cons]
      simp

theorem mem_sortBySimilarity (h : Hit) (l : List Hit) : h ∈ sortBySimilarity l ↔ h ∈ l := by
  induction l with
  | nil => simp [sortBySimilarity]
  | cons x xs ih =>
    have : sortBySimilarity (x :: xs) = insertHit x (sortBySimilarity xs) := rfl
    rw [this, mem_insertHit, ih, List.mem_cons]

theorem insertHit_pairwise (x : Hit) (l : List Hit)
    (hfin : ∀ h ∈ l, ∃ m e, h.similarity = .fin m e)
    (hx : ∃ m e, x.similarity = .fin m e)
    (hs : l.Pairwise (fun a b => b.similarity.gt a.similarity = false)) :
    (insertHit x l).Pairwise (fun a b => b.similarity.gt a.similarity = false) := by
  induction l with
  | nil => simp [insertHit]
  | cons y ys ih =>
    rw [List.pairwise_cons] at hs
    obtain ⟨hy, hys⟩ := hs
    have hyfin := hfin y (List.mem_cons_self _ _)
    by_cases hg : y.similarity.gt x.similarity = true
    · simp only [insertHit, hg, if_true]
      rw [List.pairwise_cons]
      refine ⟨?_, ih (fun h hh => hfin h (List.mem_cons_of_mem _ hh)) hys⟩
      intro b hb
      rcases (mem_insertHit x b ys).mp hb with rfl | hb
      · obtain ⟨mb, eb, hbe⟩ := hx
        obtain ⟨my, ey, hye⟩ := hyfin
        rw [hbe, hye] at hg ⊢
        rw [Num.gt_fin_iff] at hg
        rw [Bool.eq_false_iff, ne_eq, Num.gt_fin_iff, not_lt]
        exact le_of_lt hg
      · exact hy b hb
    · have hg2 : y.similarity.gt x.similarity = false := by simpa using hg
      simp only [insertHit, hg2, Bool.false_eq_true, if_false]
      rw [List.pairwise_cons]
      refine ⟨?_, List.pairwise_cons.mpr ⟨hy, hys⟩⟩
      intro b hb
      rcases List.mem_cons.mp hb with rfl | hb
      · exact hg2
      · exact Num.not_gt_trans hyfin hg2 (hy b hb)

theorem sortBySimilarity_pairwise (l : List Hit)
    (hfin : ∀ h ∈ l, ∃ m e, h.similarity = .fin m e) :
    (sortBySimilarity l).Pairwise (fun a b => b.similarity.gt a.similarity = false) := by
  induction l with
  | nil => simp [sortBySimilarity]
  | cons x xs ih =>
    have : sortBySimilarity (x :: xs) = insertHit x (sortBySimilarity xs) := rfl
    rw [this]
    refine insertHit_pairwise x _ ?_ (hfin x (List.mem_cons_self _ _))
      (ih (fun h hh => hfin h (List.mem_cons_of_mem _ hh)))
    intro h hh
    exact hfin h (List.mem_cons_of_mem _ ((mem_sortBySimilarity h xs).mp hh))

theorem searchResults_positive (dp : CourseDataProcessor) (query : Str) :
    ∀ h ∈ searchResults dp query, h.similarity.gt Num.zero = true := by
  intro h hh
  simp only [searchResults, List.mem_flatMap, searchCourse, List.mem_filterMap] at hh
  obtain ⟨entry, _, embedding, _, hsome⟩ := hh
  split at hsome
  · rename_i hpos
    simp only [Option.some.injEq] at hsome
    subst hsome
    exact hpos
  · exact absurd hsome (by simp)

/-- C10: `semanticSearch` returns at most `topK` hits, no hit is followed by
one of strictly greater similarity, and every hit has similarity greater
than 0. -/
theorem semanticSearch_topK_sorted_positive (dp : CourseDataProcessor) (query : Str)
    (topK : Nat) :
    (semanticSearch dp query topK).length ≤ topK ∧
    (semanticSearch dp query topK).Pairwise
      (fun a b => b.similarity.gt a.similarity = false) ∧
    ∀ h ∈ semanticSearch dp query topK, h.similarity.gt Num.zero = true := by
  refine ⟨List.length_take_le _ _, ?_, ?_⟩
  · refine List.Pairwise.sublist (List.take_sublist _ _) (sortBySimilarity_pairwise _ ?_)
    intro h hh
    exact Num.gt_zero_fin (searchResults_positive dp query h hh)
  · intro h hh
    exact searchResults_positive dp query h
      ((mem_sortBySimilarity h _).mp (List.mem_of_mem_take hh))
/-! ## The corpus built by `processCourseData` -/

theorem mapGet_mapSet {β : Type} (m : List (Value × β)) (k k' : Value) (v : β) :
    mapGet (mapSet m k v) k' = if k = k' then some v else mapGet m k' := by
  induction m with
  | nil => simp [mapSet, mapGet]
  | cons kw rest ih =>
    obtain ⟨k0, w⟩ := kw
    by_cases h0 : k0 = k
    · subst h0
      by_cases h1 : k0 = k' <;> simp [mapSet, mapGet, h1]
    · by_cases h1 : k0 = k'
      · subst h1
        have : ¬ k = k0 := fun h => h0 h.symm
        simp [mapSet, mapGet, h0, this]
      · simp [mapSet, mapGet, h0, h1, ih]

theorem mem_mapSet {β : Type} (m : List (Value × β)) (k : Value) (v : β) :
    ∀ entry ∈ mapSet m k v, entry.1 = k ∨ entry ∈ m := by
  induction m with
  | nil => intro entry h; simp [mapSet] at h; left; rw [h]
  | cons kw rest ih =>
    obtain ⟨k0, w⟩ := kw
    intro entry h
    by_cases h0 : k0 = k
    · simp only [mapSet, h0, if_true, List.mem_cons] at h
      rcases h with rfl | h
      · exact Or.inl rfl
      · exact Or.inr (List.mem_cons_of_mem _ h)
    · simp only [mapSet, h0, if_false, List.mem_cons] at h
      rcases h with rfl | h
      · exact Or.inr (List.mem_cons_self _ _)
      · rcases ih entry h with h1 | h1
        · exact Or.inl h1
        · exact Or.inr (List.mem_cons_of_mem _ h1)

theorem processCourseData_consistent (records : List Course) (dp : CourseDataProcessor)
    (h : Consistent dp) : Consistent (processCourseData dp records) := by
  induction records generalizing dp with
  | nil => exact h
  | cons course rest ih =>
    apply ih
    obtain ⟨h1, h2⟩ := h
    constructor
    · intro k r hk
      simp only [mapGet_mapSet] at hk
      split at hk
      · rename_i hkk
        simp only [Option.some.injEq] at hk
        subst hk
        exact hkk
      · exact h1 k r hk
    · intro entry hentry
      simp only [mapGet_mapSet]
      rcases mem_mapSet _ _ _ entry hentry with he | he
      · exact ⟨course, by simp [he]⟩
      · split
        · exact ⟨course, rfl⟩
        · exact h2 entry he

theorem new_consistent : Consistent CourseDataProcessor.new :=
  ⟨fun k r h => by simp [CourseDataProcessor.new, mapGet] at h,
   fun entry h => by simp [CourseDataProcessor.new] at h⟩

theorem retrieved_course (dp : CourseDataProcessor) (h : Consistent dp) (query : Str) :
    ∀ info ∈ retrieveRelevantInfo dp query,
      ∃ r, info.course = some r ∧ r.code = info.courseCode ∧
        mapGet dp.courses info.courseCode = some r := by
  intro info hinfo
  simp only [retrieveRelevantInfo, List.mem_map, List.mem_filter] at hinfo
  obtain ⟨hit, ⟨hhit, _⟩, rfl⟩ := hinfo
  have hmem := (mem_sortBySimilarity hit _).mp (List.mem_of_mem_take hhit)
  simp only [searchResults, List.mem_flatMap, searchCourse, List.mem_filterMap] at hmem
  obtain ⟨entry, hentry, embedding, _, hsome⟩ := hmem
  split at hsome
  · simp only [Option.some.injEq] at hsome
    subst hsome
    obtain ⟨r, hr⟩ := h.2 entry hentry
    exact ⟨r, hr, h.1 _ _ hr, hr⟩
  · exact absurd hsome (by simp)

/-! ## Specific-course answers -/

/-- C4, counterexample: the corpus holds the record ACFI 801, the query
"acfi801" is classified `specific_course` with the code "ACFI 801", and the
answer is the not-found message: the one token `acfi801` of the query occurs
in no document, so no hit is retrieved. -/
theorem answerQuery_not_found_though_present :
    mapGet (processCourseData CourseDataProcessor.new [acfi801]).courses
      (.str "ACFI 801".toList) = some acfi801 ∧
    classifyIntent (toLowerCase "acfi801".toList) = .specific_course "ACFI 801".toList ∧
    retrieveRelevantInfo (processCourseData CourseDataProcessor.new [acfi801])
      "acfi801".toList = [] ∧
    answerQuery (processCourseData CourseDataProcessor.new [acfi801]) "acfi801".toList
      = some (notFoundMessage "ACFI 801".toList) := by
  decide

/-- C4, amended: for a corpus loaded from records and a query classified
`specific_course` with code `c`, the answer is the not-found message when no
retrieved hit (top 8, similarity above 0.1) has the code `c`, and otherwise it
is the course detail of the corpus record whose code is `c`.  For the corpus
holding only ACFI 801 and the query "Tell me about ACFI 801" the answer is
that record's detail; it shows the title and the credits and no
prerequisites line. -/
theorem answerQuery_specific_course (records : List Course) (query c : Str)
    (hc : classifyIntent (toLowerCase query) = .specific_course c) :
    ((∀ info ∈ retrieveRelevantInfo (processCourseData CourseDataProcessor.new records) query,
        info.courseCode ≠ .str c) →
      answerQuery (processCourseData CourseDataProcessor.new records) query
        = some (notFoundMessage c)) ∧
    ((∃ info ∈ retrieveRelevantInfo (processCourseData CourseDataProcessor.new records) query,
        info.courseCode = .str c) →
      ∃ r, mapGet (processCourseData CourseDataProcessor.new records).courses (.str c) = some r ∧
        r.code = .str c ∧
        answerQuery (processCourseData CourseDataProcessor.new records) query
          = some (formatCourseResponse r)) ∧
    (answerQuery (processCourseData CourseDataProcessor.new [acfi801])
        "Tell me about ACFI 801".toList = some (formatCourseResponse acfi801) ∧
      includes (formatCourseResponse acfi801) "Corporate Finance".toList = true ∧
      includes (formatCourseResponse acfi801) "Credits: 3".toList = true ∧
      includes (formatCourseResponse acfi801) "Prerequisites".toList = false) := by
  refine ⟨?_, ?_, by decide⟩
  · intro hnone
    simp only [answerQuery, generateResponse, hc, generateCourseSpecificResponse]
    have : (retrieveRelevantInfo (processCourseData CourseDataProcessor.new records) query).find?
        (fun info => decide (info.courseCode = .str c)) = none := by
      rw [List.find?_eq_none]
      intro info hinfo
      simpa using hnone info hinfo
    rw [this]
  · rintro ⟨info0, hinfo0, hcode0⟩
    simp only [answerQuery, generateResponse, hc, generateCourseSpecificResponse]
    cases hfind : (retrieveRelevantInfo (processCourseData CourseDataProcessor.new records)
        query).find? (fun info => decide (info.courseCode = .str c)) with
    | none =>
      rw [List.find?_eq_none] at hfind
      have := hfind info0 hinfo0
      simp [hcode0] at this
    | some info =>
      have hp := List.find?_some hfind
      have hmem := List.mem_of_find?_eq_some hfind
      simp only [decide_eq_true_eq] at hp
      obtain ⟨r, hr, hrc, hget⟩ := retrieved_course _
        (processCourseData_consistent records _ new_consistent) query info hmem
      rw [hp] at hrc hget
      exact ⟨r, hget, hrc, by simp [hr]⟩

/-- C4, witness: the corpus holding only ACFI 801 and the query "Tell me
about ACFI 801". -/
theorem answerQuery_specific_course_witness :
    classifyIntent (toLowerCase "Tell me about ACFI 801".toList)
      = .specific_course "ACFI 801".toList ∧
    (∃ info ∈ retrieveRelevantInfo (processCourseData CourseDataProcessor.new [acfi801])
        "Tell me about ACFI 801".toList, info.courseCode = .str "ACFI 801".toList) ∧
    ∃ r, mapGet (processCourseData CourseDataProcessor.new [acfi801]).courses
        (.str "ACFI 801".toList) = some r ∧
      r.code = .str "ACFI 801".toList ∧
      answerQuery (processCourseData CourseDataProcessor.new [acfi801])
        "Tell me about ACFI 801".toList = some (formatCourseResponse r) :=
  ⟨by decide, by decide,
   (answerQuery_specific_course [acfi801] "Tell me about ACFI 801".toList "ACFI 801".toList
      (by decide)).2.1 (by decide)⟩

/-! ## Cosine similarity on an empty vector -/

/-- C9 (the code at the failing input): the query "hi" has the empty vector,
and its similarity with the vector of a text containing the word
"constructor" is NaN, not 0; the same for the empty vector and the vector
with the one count `constructor: 1`. -/
theorem cosineSimilarity_empty_vector_nan :
    queryVectorOf "hi".toList = [] ∧
    cosineSimilarity (queryVectorOf "hi".toList)
      (embedChunk (textChunk "The constructor pattern".toList)).vector = .nan ∧
    cosineSimilarity [] [("constructor".toList, .count 1)] = .nan ∧
    cosineSimilarity [("constructor".toList, .count 1)] [] = .nan := by
  decide

/-! ## Bit length and integer square root -/

theorem bitLengthAux_spec (fuel n : Nat) (h : n ≤ fuel) (hn : 0 < n) :
    2 ^ (bitLengthAux fuel n - 1) ≤ n ∧ n < 2 ^ bitLengthAux fuel n := by
  induction fuel generalizing n with
  | zero => omega
  | succ f ih =>
    have hne : n ≠ 0 := by omega
    simp only [bitLengthAux, hne, if_false]
    by_cases h2 : n / 2 = 0
    · have h1 : n = 1 := by omega
      subst h1
      cases f <;> simp [bitLengthAux]
    · have hpos : 0 < n / 2 := Nat.pos_of_ne_zero h2
      obtain ⟨ih1, ih2⟩ := ih (n / 2) (by omega) hpos
      have hb : 0 < bitLengthAux f (n / 2) := by
        rcases Nat.eq_zero_or_pos (bitLengthAux f (n / 2)) with h0 | h0
        · rw [h0] at ih2; simp at ih2; omega
        · exact h0
      constructor
      · have : bitLengthAux f (n / 2) + 1 - 1 = (bitLengthAux f (n / 2) - 1) + 1 := by omega
        rw [this, pow_succ]
        omega
      · rw [pow_succ]
        omega

theorem bitLength_spec (n : Nat) (hn : 0 < n) :
    2 ^ (bitLength n - 1) ≤ n ∧ n < 2 ^ bitLength n :=
  bitLengthAux_spec n n (le_refl n) hn

theorem bitLength_zero : bitLength 0 = 0 := rfl

theorem lt_two_pow_bitLength (n : Nat) : n < 2 ^ bitLength n := by
  rcases Nat.eq_zero_or_pos n with h | h
  · subst h; simp [bitLength_zero]
  · exact (bitLength_spec n h).2

theorem bitLength_le_of_lt (n k : Nat) (h : n < 2 ^ k) : bitLength n ≤ k := by
  rcases Nat.eq_zero_or_pos n with h0 | h0
  · subst h0; simp [bitLength_zero]
  · by_contra hc
    have h1 := (bitLength_spec n h0).1
    have : 2 ^ k ≤ 2 ^ (bitLength n - 1) := Nat.pow_le_pow_right (by norm_num) (by omega)
    omega

theorem lt_bitLength_of_le (n k : Nat) (h : 2 ^ k ≤ n) : k < bitLength n := by
  by_contra hc
  have h1 := lt_two_pow_bitLength n
  have : 2 ^ bitLength n ≤ 2 ^ k := Nat.pow_le_pow_right (by norm_num) (by omega)
  omega

theorem isqrtAux_spec (n i r : Nat) (h1 : r * r ≤ n) (h2 : n < (r + 2 ^ i) * (r + 2 ^ i)) :
    isqrtAux n i r * isqrtAux n i r ≤ n ∧ n < (isqrtAux n i r + 1) * (isqrtAux n i r + 1) := by
  induction i generalizing r with
  | zero => simpa [isqrtAux] using And.intro h1 h2
  | succ i ih =>
    simp only [isqrtAux]
    split
    · rename_i hc
      apply ih _ hc
      have : r + 2 ^ i + 2 ^ i = r + 2 ^ (i + 1) := by rw [pow_succ]; omega
      rw [this]; exact h2
    · rename_i hc
      exact ih r h1 (by omega)

theorem isqrt_spec (n : Nat) :
    isqrt n * isqrt n ≤ n ∧ n < (isqrt n + 1) * (isqrt n + 1) := by
  apply isqrtAux_spec
  · simp
  · have h := lt_two_pow_bitLength n
    have h3 : 2 ^ bitLength n ≤ 2 ^ (bitLength n / 2 + 1) * 2 ^ (bitLength n / 2 + 1) := by
      rw [← pow_add]
      exact Nat.pow_le_pow_right (by norm_num) (by omega)
    simp only [Nat.zero_add]
    omega
/-! ## Rounding -/

theorem half_ulp_le (m P : ℝ) (hm : (2 : ℝ) ^ 52 ≤ m) (hP : 0 ≤ P) :
    P ≤ m * (2 * P) * (1 / 2 ^ 53) := by
  have h1 : m * (2 * P) * (1 / 2 ^ 53) = (m / 2 ^ 52) * P := by
    field_simp; ring
  rw [h1]
  have h2 : (1 : ℝ) ≤ m / 2 ^ 52 := by
    rw [le_div_iff₀ (by positivity)]; linarith
  calc P = 1 * P := (one_mul P).symm
    _ ≤ (m / 2 ^ 52) * P := mul_le_mul_of_nonneg_right h2 hP

theorem roundTo53_spec (q : Nat) (sticky : Bool) (e : Int) (T : ℝ)
    (h1 : (q : ℝ) ≤ T) (h2 : T < q + 1) (hs : sticky = false → T = q)
    (hb : sticky = true → 55 ≤ bitLength q) :
    ∃ m e', roundTo53 q sticky e = .fin m e' ∧ (0 < q → 0 < m) ∧
      (m : ℝ) * (2 : ℝ) ^ e' * (1 - 1 / 2 ^ 53) ≤ T * (2 : ℝ) ^ e ∧
      T * (2 : ℝ) ^ e ≤ (m : ℝ) * (2 : ℝ) ^ e' * (1 + 1 / 2 ^ 53) := by
  have hE : (0 : ℝ) < (2 : ℝ) ^ e := zpow_pos (by norm_num) _
  by_cases hL : bitLength q ≤ 53
  · have hst : sticky = false := by
      cases sticky with
      | false => rfl
      | true => have := hb rfl; omega
    have hT := hs hst
    refine ⟨q, e, by simp [roundTo53, hL], fun h => h, ?_, ?_⟩
    · rw [hT]
      have : (0 : ℝ) ≤ (q : ℝ) * (2 : ℝ) ^ e := by positivity
      nlinarith
    · rw [hT]
      have : (0 : ℝ) ≤ (q : ℝ) * (2 : ℝ) ^ e := by positivity
      nlinarith
  · have hqpos : 0 < q := by
      rcases Nat.eq_zero_or_pos q with h0 | h0
      · subst h0; simp [bitLength_zero] at hL
      · exact h0
    obtain ⟨hlo, hhi⟩ := bitLength_spec q hqpos
    -- the shift and its power
    obtain ⟨sh, hsh⟩ : ∃ sh, bitLength q = 53 + (sh + 1) := ⟨bitLength q - 54, by omega⟩
    have hshift : bitLength q - 53 = sh + 1 := by omega
    have hP : (2 : Nat) ^ (sh + 1) = 2 * 2 ^ sh := by rw [pow_succ]; ring
    have hlo' : 2 ^ 52 * (2 * 2 ^ sh) ≤ q := by
      have : bitLength q - 1 = 52 + (sh + 1) := by omega
      rw [this, pow_add, hP] at hlo
      exact hlo
    have hdm := Nat.div_add_mod q (2 * 2 ^ sh)
    have hr : q % (2 * 2 ^ sh) < 2 * 2 ^ sh := Nat.mod_lt _ (by positivity)
    have hm0 : 2 ^ 52 ≤ q / (2 * 2 ^ sh) := by
      rw [Nat.le_div_iff_mul_le (by positivity)]
      exact hlo'
    generalize hm0def : q / (2 * 2 ^ sh) = m0 at hdm hm0
    generalize hrdef : q % (2 * 2 ^ sh) = r at hdm hr
    have hqR : (q : ℝ) = 2 * 2 ^ sh * (m0 : ℝ) + (r : ℝ) := by exact_mod_cast hdm.symm
    have hrR : (r : ℝ) + 1 ≤ 2 * 2 ^ sh := by exact_mod_cast hr
    have hm0R : (2 : ℝ) ^ 52 ≤ (m0 : ℝ) := by exact_mod_cast hm0
    have hexp : (2 : ℝ) ^ (e + ((sh + 1 : Nat) : Int)) = (2 : ℝ) ^ e * (2 * 2 ^ sh) := by
      rw [zpow_add₀ (by norm_num), zpow_natCast, pow_succ]; ring
    have hH : (0 : ℝ) < 2 ^ sh := by positivity
    unfold roundTo53
    simp only [hL, if_false, hshift, hP, hm0def, hrdef, Nat.add_sub_cancel]
    split
    · rename_i hup
      refine ⟨m0 + 1, e + ((sh + 1 : Nat) : Int), rfl, fun _ => Nat.succ_pos _, ?_, ?_⟩
      · have hge : (2 : ℝ) ^ sh ≤ (r : ℝ) := by
          simp only [Bool.or_eq_true, decide_eq_true_eq, Bool.and_eq_true, beq_iff_eq] at hup
          rcases hup with h | ⟨h, _⟩
          · exact_mod_cast le_of_lt h
          · exact_mod_cast le_of_eq h.symm
        rw [hexp]
        push_cast
        have e1 : ((m0 : ℝ) + 1) * ((2 : ℝ) ^ e * (2 * 2 ^ sh)) * (1 - 1 / 2 ^ 53)
            = (2 : ℝ) ^ e * (((m0 : ℝ) + 1) * (2 * 2 ^ sh) * (1 - 1 / 2 ^ 53)) := by ring
        rw [e1, mul_comm T]
        apply mul_le_mul_of_nonneg_left _ hE.le
        have hk := half_ulp_le ((m0 : ℝ) + 1) (2 ^ sh) (by linarith) hH.le
        have e2 : ((m0 : ℝ) + 1) * (2 * 2 ^ sh) * (1 - 1 / 2 ^ 53)
            = ((m0 : ℝ) + 1) * (2 * 2 ^ sh) - ((m0 : ℝ) + 1) * (2 * 2 ^ sh) * (1 / 2 ^ 53) := by
          ring
        rw [e2]
        linarith
      · rw [hexp]
        push_cast
        have e1 : ((m0 : ℝ) + 1) * ((2 : ℝ) ^ e * (2 * 2 ^ sh)) * (1 + 1 / 2 ^ 53)
            = (2 : ℝ) ^ e * (((m0 : ℝ) + 1) * (2 * 2 ^ sh) * (1 + 1 / 2 ^ 53)) := by ring
        rw [e1, mul_comm T]
        apply mul_le_mul_of_nonneg_left _ hE.le
        have hk : (0 : ℝ) ≤ ((m0 : ℝ) + 1) * (2 * 2 ^ sh) * (1 / 2 ^ 53) := by positivity
        have e2 : ((m0 : ℝ) + 1) * (2 * 2 ^ sh) * (1 + 1 / 2 ^ 53)
            = ((m0 : ℝ) + 1) * (2 * 2 ^ sh) + ((m0 : ℝ) + 1) * (2 * 2 ^ sh) * (1 / 2 ^ 53) := by
          ring
        rw [e2]
        linarith
    · rename_i hup
      refine ⟨m0, e + ((sh + 1 : Nat) : Int), rfl, fun _ => by omega, ?_, ?_⟩
      · rw [hexp]
        have e1 : (m0 : ℝ) * ((2 : ℝ) ^ e * (2 * 2 ^ sh)) * (1 - 1 / 2 ^ 53)
            = (2 : ℝ) ^ e * ((m0 : ℝ) * (2 * 2 ^ sh) * (1 - 1 / 2 ^ 53)) := by ring
        rw [e1, mul_comm T]
        apply mul_le_mul_of_nonneg_left _ hE.le
        have hk : (0 : ℝ) ≤ (m0 : ℝ) * (2 * 2 ^ sh) * (1 / 2 ^ 53) := by positivity
        have hr0 : (0 : ℝ) ≤ (r : ℝ) := by positivity
        have e2 : (m0 : ℝ) * (2 * 2 ^ sh) * (1 - 1 / 2 ^ 53)
            = (m0 : ℝ) * (2 * 2 ^ sh) - (m0 : ℝ) * (2 * 2 ^ sh) * (1 / 2 ^ 53) := by
          ring
        rw [e2]
        linarith
      · have hle : T ≤ 2 * 2 ^ sh * (m0 : ℝ) + 2 ^ sh := by
          simp only [Bool.or_eq_true, decide_eq_true_eq, Bool.and_eq_true, beq_iff_eq,
            not_or, not_and, not_lt] at hup
          obtain ⟨hle, heq⟩ := hup
          rcases Nat.lt_or_eq_of_le hle with hlt | heq2
          · have : (r : ℝ) + 1 ≤ 2 ^ sh := by exact_mod_cast hlt
            linarith
          · have hst : sticky = false := by
              have := heq heq2
              cases sticky with
              | false => rfl
              | true => simp at this
            rw [hs hst, hqR]
            have : (r : ℝ) = 2 ^ sh := by exact_mod_cast heq2
            linarith
        rw [hexp]
        have e1 : (m0 : ℝ) * ((2 : ℝ) ^ e * (2 * 2 ^ sh)) * (1 + 1 / 2 ^ 53)
            = (2 : ℝ) ^ e * ((m0 : ℝ) * (2 * 2 ^ sh) * (1 + 1 / 2 ^ 53)) := by ring
        rw [e1, mul_comm T]
        apply mul_le_mul_of_nonneg_left _ hE.le
        have hk := half_ulp_le (m0 : ℝ) (2 ^ sh) hm0R hH.le
        have e2 : (m0 : ℝ) * (2 * 2 ^ sh) * (1 + 1 / 2 ^ 53)
            = (m0 : ℝ) * (2 * 2 ^ sh) + (m0 : ℝ) * (2 * 2 ^ sh) * (1 / 2 ^ 53) := by
          ring
        rw [e2]
        linarith
/-! ## The arithmetic operations, up to rounding -/

theorem Num.mul_spec (m1 m2 : Nat) (e1 e2 : Int) :
    ∃ m e, Num.mul (.fin m1 e1) (.fin m2 e2) = .fin m e ∧ (0 < m1 → 0 < m2 → 0 < m) ∧
      (m : ℝ) * (2 : ℝ) ^ e * (1 - 1 / 2 ^ 53)
        ≤ ((m1 : ℝ) * (2 : ℝ) ^ e1) * ((m2 : ℝ) * (2 : ℝ) ^ e2) ∧
      ((m1 : ℝ) * (2 : ℝ) ^ e1) * ((m2 : ℝ) * (2 : ℝ) ^ e2)
        ≤ (m : ℝ) * (2 : ℝ) ^ e * (1 + 1 / 2 ^ 53) := by
  obtain ⟨m, e, hr, hpos, hlo, hhi⟩ := roundTo53_spec (m1 * m2) false (e1 + e2)
    ((m1 * m2 : Nat) : ℝ) (le_refl _) (by linarith) (fun _ => rfl) (fun h => by simp at h)
  have hX : ((m1 * m2 : Nat) : ℝ) * (2 : ℝ) ^ (e1 + e2)
      = ((m1 : ℝ) * (2 : ℝ) ^ e1) * ((m2 : ℝ) * (2 : ℝ) ^ e2) := by
    rw [zpow_add₀ (by norm_num)]; push_cast; ring
  rw [hX] at hlo hhi
  exact ⟨m, e, hr, fun h1 h2 => hpos (Nat.mul_pos h1 h2), hlo, hhi⟩

theorem Num.sqrt_spec (m0 : Nat) (e0 : Int) (hm : 0 < m0) :
    ∃ m e, Num.sqrt (.fin m0 e0) = .fin m e ∧ 0 < m ∧
      (m : ℝ) * (2 : ℝ) ^ e * (1 - 1 / 2 ^ 53) ≤ √((m0 : ℝ) * (2 : ℝ) ^ e0) ∧
      √((m0 : ℝ) * (2 : ℝ) ^ e0) ≤ (m : ℝ) * (2 : ℝ) ^ e * (1 + 1 / 2 ^ 53) := by
  obtain ⟨k, hk110, hkeven⟩ : ∃ k : Nat, 110 ≤ k ∧
      (if (e0 - 110) % 2 = 0 then (110 : Nat) else 111) = k ∧ (e0 - (k : Int)) % 2 = 0 := by
    by_cases hpar : (e0 - 110) % 2 = 0
    · exact ⟨110, le_refl _, by simp [hpar], by simpa using hpar⟩
    · exact ⟨111, by norm_num, by simp [hpar], by push_cast; omega⟩
  obtain ⟨hkdef, hkeven⟩ := hkeven
  obtain ⟨hs1, hs2⟩ := isqrt_spec (m0 * 2 ^ k)
  generalize hsdef : isqrt (m0 * 2 ^ k) = s at hs1 hs2
  have hN110 : 2 ^ 110 ≤ m0 * 2 ^ k := by
    calc 2 ^ 110 ≤ 2 ^ k := Nat.pow_le_pow_right (by norm_num) hk110
      _ = 1 * 2 ^ k := (Nat.one_mul _).symm
      _ ≤ m0 * 2 ^ k := Nat.mul_le_mul_right _ hm
  have hs55 : 2 ^ 55 ≤ s := by
    by_contra hc
    have h1 : s + 1 ≤ 2 ^ 55 := by omega
    have h2 : (s + 1) * (s + 1) ≤ 2 ^ 55 * 2 ^ 55 := Nat.mul_le_mul h1 h1
    have h3 : (2 : Nat) ^ 55 * 2 ^ 55 = 2 ^ 110 := by norm_num
    omega
  have hNR : (0 : ℝ) ≤ ((m0 * 2 ^ k : Nat) : ℝ) := by positivity
  have hT1 : (s : ℝ) ≤ √((m0 * 2 ^ k : Nat) : ℝ) := by
    apply Real.le_sqrt_of_sq_le
    rw [sq]; exact_mod_cast hs1
  have hT2 : √((m0 * 2 ^ k : Nat) : ℝ) < (s : ℝ) + 1 := by
    rw [Real.sqrt_lt' (by positivity), sq]
    exact_mod_cast hs2
  have hst : ((s * s != m0 * 2 ^ k) = false) → √((m0 * 2 ^ k : Nat) : ℝ) = (s : ℝ) := by
    intro h
    have heq : s * s = m0 * 2 ^ k := by simpa using h
    rw [← heq]
    push_cast
    exact Real.sqrt_mul_self (by positivity)
  obtain ⟨m, e, hr, hpos, hlo, hhi⟩ := roundTo53_spec s (s * s != m0 * 2 ^ k)
    ((e0 - (k : Int)) / 2) (√((m0 * 2 ^ k : Nat) : ℝ)) hT1 hT2 hst
    (fun _ => le_of_lt (lt_bitLength_of_le s 55 hs55))
  have hX : √((m0 * 2 ^ k : Nat) : ℝ) * (2 : ℝ) ^ ((e0 - (k : Int)) / 2)
      = √((m0 : ℝ) * (2 : ℝ) ^ e0) := by
    have hj : e0 = (k : Int) + ((e0 - (k : Int)) / 2 + (e0 - (k : Int)) / 2) := by omega
    have hpow : (0 : ℝ) < (2 : ℝ) ^ ((e0 - (k : Int)) / 2) := zpow_pos (by norm_num) _
    have h1 : (m0 : ℝ) * (2 : ℝ) ^ e0
        = ((m0 * 2 ^ k : Nat) : ℝ) *
          ((2 : ℝ) ^ ((e0 - (k : Int)) / 2) * (2 : ℝ) ^ ((e0 - (k : Int)) / 2)) := by
      rw [← zpow_add₀ (by norm_num : (2 : ℝ) ≠ 0)]
      push_cast
      rw [mul_assoc, ← zpow_natCast, ← zpow_add₀ (by norm_num : (2 : ℝ) ≠ 0), ← hj]
    rw [h1, Real.sqrt_mul hNR, Real.sqrt_mul_self hpow.le]
  rw [hX] at hlo hhi
  refine ⟨m, e, ?_, hpos (by omega), hlo, hhi⟩
  have hm0 : m0 ≠ 0 := by omega
  simp only [Num.sqrt, hm0, if_false, hkdef, hsdef]
  exact hr

theorem Num.div_spec (m1 m2 : Nat) (e1 e2 : Int) (hm2 : 0 < m2) :
    ∃ m e, Num.div (.fin m1 e1) (.fin m2 e2) = .fin m e ∧
      (m : ℝ) * (2 : ℝ) ^ e * (1 - 1 / 2 ^ 53)
        ≤ ((m1 : ℝ) * (2 : ℝ) ^ e1) / ((m2 : ℝ) * (2 : ℝ) ^ e2) ∧
      ((m1 : ℝ) * (2 : ℝ) ^ e1) / ((m2 : ℝ) * (2 : ℝ) ^ e2)
        ≤ (m : ℝ) * (2 : ℝ) ^ e * (1 + 1 / 2 ^ 53) := by
  generalize hkdef : bitLength m2 + 55 = k
  have hm2R : (0 : ℝ) < (m2 : ℝ) := by exact_mod_cast hm2
  have hdm := Nat.div_add_mod (m1 * 2 ^ k) m2
  have hrem : m1 * 2 ^ k % m2 < m2 := Nat.mod_lt _ hm2
  generalize hqdef : m1 * 2 ^ k / m2 = q at hdm
  generalize hrdef : m1 * 2 ^ k % m2 = r at hdm hrem
  have hdmR : ((m1 * 2 ^ k : Nat) : ℝ) = (m2 : ℝ) * (q : ℝ) + (r : ℝ) := by
    exact_mod_cast hdm.symm
  have hT1 : (q : ℝ) ≤ ((m1 * 2 ^ k : Nat) : ℝ) / (m2 : ℝ) := by
    rw [le_div_iff₀ hm2R, hdmR]
    have : (0 : ℝ) ≤ (r : ℝ) := by positivity
    nlinarith
  have hT2 : ((m1 * 2 ^ k : Nat) : ℝ) / (m2 : ℝ) < (q : ℝ) + 1 := by
    rw [div_lt_iff₀ hm2R, hdmR]
    have : (r : ℝ) < (m2 : ℝ) := by exact_mod_cast hrem
    nlinarith
  have hst : ((r != 0) = false) → ((m1 * 2 ^ k : Nat) : ℝ) / (m2 : ℝ) = (q : ℝ) := by
    intro h
    have hr0 : r = 0 := by simpa using h
    rw [hdmR, hr0]
    field_simp
  have hbits : ((r != 0) = true) → 55 ≤ bitLength q := by
    intro h
    have hr0 : r ≠ 0 := by simpa using h
    have hm1 : 0 < m1 := by
      rcases Nat.eq_zero_or_pos m1 with h0 | h0
      · subst h0; simp at hrdef; omega
      · exact h0
    have h55 : 2 ^ 55 ≤ q := by
      rw [← hqdef, Nat.le_div_iff_mul_le hm2]
      have hlt := lt_two_pow_bitLength m2
      calc 2 ^ 55 * m2 ≤ 2 ^ 55 * 2 ^ bitLength m2 := Nat.mul_le_mul_left _ hlt.le
        _ = 2 ^ k := by rw [← hkdef, ← pow_add, Nat.add_comm]
        _ = 1 * 2 ^ k := (Nat.one_mul _).symm
        _ ≤ m1 * 2 ^ k := Nat.mul_le_mul_right _ hm1
    exact le_of_lt (lt_bitLength_of_le q 55 h55)
  obtain ⟨m, e, hr, _, hlo, hhi⟩ := roundTo53_spec q (r != 0) (e1 - e2 - (k : Int))
    (((m1 * 2 ^ k : Nat) : ℝ) / (m2 : ℝ)) hT1 hT2 hst hbits
  have hX : ((m1 * 2 ^ k : Nat) : ℝ) / (m2 : ℝ) * (2 : ℝ) ^ (e1 - e2 - (k : Int))
      = ((m1 : ℝ) * (2 : ℝ) ^ e1) / ((m2 : ℝ) * (2 : ℝ) ^ e2) := by
    have h2 : (2 : ℝ) ≠ 0 := by norm_num
    rw [zpow_sub₀ h2, zpow_sub₀ h2, zpow_natCast]
    push_cast
    field_simp
    ring
  rw [hX] at hlo hhi
  refine ⟨m, e, ?_, hlo, hhi⟩
  have hm0 : m2 ≠ 0 := by omega
  simp only [Num.div, hm0, if_false, hkdef, hqdef, hrdef]
  exact hr
/-! ## The quotient of `cosineSimilarity`, up to rounding -/

theorem quotient_upper (u vx vy vp vr sA sB D : ℝ) (hu0 : 0 ≤ u)
    (hvx : 0 ≤ vx) (hvp : 0 < vp) (hsB : 0 ≤ sB)
    (hx : sA ≤ vx * (1 + u)) (hy : sB ≤ vy * (1 + u)) (hp : vx * vy ≤ vp * (1 + u))
    (hr : vr * (1 - u) ≤ D / vp) (hD : D ≤ sA * sB) :
    vr * (1 - u) ≤ (1 + u) ^ 3 := by
  have h1 : sA * sB ≤ (vx * (1 + u)) * (vy * (1 + u)) :=
    mul_le_mul hx hy hsB (by positivity)
  have h2 : (vx * (1 + u)) * (vy * (1 + u)) = (vx * vy) * ((1 + u) * (1 + u)) := by ring
  have h3 : (vx * vy) * ((1 + u) * (1 + u)) ≤ (vp * (1 + u)) * ((1 + u) * (1 + u)) :=
    mul_le_mul_of_nonneg_right hp (by positivity)
  have h4 : D ≤ vp * (1 + u) ^ 3 := by
    calc D ≤ sA * sB := hD
      _ ≤ (vx * vy) * ((1 + u) * (1 + u)) := by rw [← h2]; exact h1
      _ ≤ (vp * (1 + u)) * ((1 + u) * (1 + u)) := h3
      _ = vp * (1 + u) ^ 3 := by ring
  have h5 : D / vp ≤ (1 + u) ^ 3 := by
    rw [div_le_iff₀ hvp]; linarith
  linarith

theorem quotient_lower (u vx vy vp vr s n : ℝ) (hu1 : u < 1)
    (hvy : 0 ≤ vy) (hvp : 0 < vp) (hs : 0 ≤ s) (hss : s * s = n)
    (hx : vx * (1 - u) ≤ s) (hy : vy * (1 - u) ≤ s) (hp : vp * (1 - u) ≤ vx * vy)
    (hr : n / vp ≤ vr * (1 + u)) :
    (1 - u) ^ 3 ≤ vr * (1 + u) := by
  have hu : 0 ≤ 1 - u := by linarith
  have h1 : (vx * (1 - u)) * (vy * (1 - u)) ≤ s * s :=
    mul_le_mul hx hy (by positivity) hs
  have h2 : vp * (1 - u) ^ 3 ≤ n := by
    calc vp * (1 - u) ^ 3 = (vp * (1 - u)) * ((1 - u) * (1 - u)) := by ring
      _ ≤ (vx * vy) * ((1 - u) * (1 - u)) := mul_le_mul_of_nonneg_right hp (by positivity)
      _ = (vx * (1 - u)) * (vy * (1 - u)) := by ring
      _ ≤ s * s := h1
      _ = n := hss
  have h3 : (1 - u) ^ 3 ≤ n / vp := by
    rw [le_div_iff₀ hvp]; linarith
  linarith

theorem cosine_quotient_bounds (D NA NB : Nat) (hA : 0 < NA) (hB : 0 < NB)
    (hCS : D * D ≤ NA * NB) :
    ∃ m e, Num.div (.fin D 0) (Num.mul (Num.sqrt (.fin NA 0)) (Num.sqrt (.fin NB 0)))
        = .fin m e ∧
      (m : ℝ) * (2 : ℝ) ^ e ≤ 1 + 1 / 2 ^ 50 ∧
      (D = NA → D = NB → 1 - 1 / 2 ^ 50 ≤ (m : ℝ) * (2 : ℝ) ^ e) := by
  obtain ⟨mx, ex, hxe, hmx, hxlo, hxhi⟩ := Num.sqrt_spec NA 0 hA
  obtain ⟨my, ey, hye, hmy, hylo, hyhi⟩ := Num.sqrt_spec NB 0 hB
  obtain ⟨mp, ep, hpe, hmp, hplo, hphi⟩ := Num.mul_spec mx my ex ey
  obtain ⟨m, e, hre, hrlo, hrhi⟩ := Num.div_spec D mp 0 ep (hmp hmx hmy)
  simp only [zpow_zero, mul_one] at hxlo hxhi hylo hyhi hrlo hrhi
  refine ⟨m, e, by rw [hxe, hye, hpe, hre], ?_, ?_⟩
  · have hvx : (0 : ℝ) ≤ (mx : ℝ) * (2 : ℝ) ^ ex := by positivity
    have hvp : (0 : ℝ) < (mp : ℝ) * (2 : ℝ) ^ ep := by
      have : (0 : ℝ) < (mp : ℝ) := by exact_mod_cast hmp hmx hmy
      positivity
    have hD : (D : ℝ) ≤ √(NA : ℝ) * √(NB : ℝ) := by
      rw [← Real.sqrt_mul (by positivity)]
      apply Real.le_sqrt_of_sq_le
      rw [sq]; exact_mod_cast hCS
    have key := quotient_upper (1 / 2 ^ 53) _ _ _ ((m : ℝ) * (2 : ℝ) ^ e) _ _ (D : ℝ)
      (by positivity) hvx hvp (Real.sqrt_nonneg _)
      hxhi hyhi hphi hrlo hD
    have hnum : ((1 : ℝ) + 1 / 2 ^ 53) ^ 3 ≤ (1 + 1 / 2 ^ 50) * (1 - 1 / 2 ^ 53) := by
      norm_num
    have hpos : (0 : ℝ) < 1 - 1 / 2 ^ 53 := by norm_num
    exact le_of_mul_le_mul_right (le_trans key hnum) hpos
  · intro h1 h2
    subst h1
    subst h2
    have hvy : (0 : ℝ) ≤ (my : ℝ) * (2 : ℝ) ^ ey := by positivity
    have hvp : (0 : ℝ) < (mp : ℝ) * (2 : ℝ) ^ ep := by
      have : (0 : ℝ) < (mp : ℝ) := by exact_mod_cast hmp hmx hmy
      positivity
    have hn : (0 : ℝ) < (D : ℝ) := by exact_mod_cast hA
    have key := quotient_lower (1 / 2 ^ 53) _ _ _ ((m : ℝ) * (2 : ℝ) ^ e) (√(D : ℝ)) (D : ℝ)
      (by norm_num) hvy hvp (Real.sqrt_nonneg _)
      (Real.mul_self_sqrt hn.le) hxlo hylo hplo hrhi
    have hnum : ((1 : ℝ) - 1 / 2 ^ 50) * (1 + 1 / 2 ^ 53) ≤ (1 - 1 / 2 ^ 53) ^ 3 := by
      norm_num
    have hpos : (0 : ℝ) < 1 + 1 / 2 ^ 53 := by norm_num
    exact le_of_mul_le_mul_right (le_trans hnum key) hpos
/-! ## The sums of `cosineSimilarity` without rounding -/

theorem roundTo53_exact (n : Nat) (e : Int) (h : n < 2 ^ 53) :
    roundTo53 n false e = .fin n e := by
  simp [roundTo53, bitLength_le_of_lt n 53 h]

theorem add_mul_exact (s x y : Nat) (h : s + x * y < 2 ^ 53) :
    Num.add (.fin s 0) (Num.mul (.fin x 0) (.fin y 0)) = .fin (s + x * y) 0 := by
  have h1 : x * y < 2 ^ 53 := by omega
  simp only [Num.mul, Int.add_zero, roundTo53_exact _ _ h1, Num.add, min_self, Int.sub_self,
    Int.toNat_zero, pow_zero, Nat.mul_one, roundTo53_exact _ _ h]

theorem cosine_foldl_exact (vecA vecB : Obj) (ca cb : Str → Nat) (ws : List Str)
    (hca : ∀ w ∈ ws, orZeroToNumber (getProp vecA w) = .fin (ca w) 0)
    (hcb : ∀ w ∈ ws, orZeroToNumber (getProp vecB w) = .fin (cb w) 0)
    (d na nb : Nat)
    (hd : d + (ws.map (fun w => ca w * cb w)).sum < 2 ^ 53)
    (hna : na + (ws.map (fun w => ca w * ca w)).sum < 2 ^ 53)
    (hnb : nb + (ws.map (fun w => cb w * cb w)).sum < 2 ^ 53) :
    ws.foldl (cosineStep vecA vecB)
        { dotProduct := .fin d 0, normA := .fin na 0, normB := .fin nb 0 }
      = { dotProduct := .fin (d + (ws.map (fun w => ca w * cb w)).sum) 0,
          normA := .fin (na + (ws.map (fun w => ca w * ca w)).sum) 0,
          normB := .fin (nb + (ws.map (fun w => cb w * cb w)).sum) 0 } := by
  induction ws generalizing d na nb with
  | nil => simp
  | cons w ws ih =>
    simp only [List.map_cons, List.sum_cons] at hd hna hnb
    simp only [List.foldl_cons, List.map_cons, List.sum_cons]
    have h1 : cosineStep vecA vecB
        { dotProduct := .fin d 0, normA := .fin na 0, normB := .fin nb 0 } w
        = { dotProduct := .fin (d + ca w * cb w) 0, normA := .fin (na + ca w * ca w) 0,
            normB := .fin (nb + cb w * cb w) 0 } := by
      simp only [cosineStep, hca w (List.mem_cons_self _ _), hcb w (List.mem_cons_self _ _)]
      rw [add_mul_exact _ _ _ (by omega), add_mul_exact _ _ _ (by omega),
        add_mul_exact _ _ _ (by omega)]
    rw [h1, ih (fun w hw => hca w (List.mem_cons_of_mem _ hw))
      (fun w hw => hcb w (List.mem_cons_of_mem _ hw)) _ _ _ (by omega) (by omega) (by omega)]
    simp only [Nat.add_assoc]

theorem cauchy_schwarz_step (d na nb x y : Nat) (h : d * d ≤ na * nb) :
    (d + x * y) * (d + x * y) ≤ (na + x * x) * (nb + y * y) := by
  have key : 2 * d * x * y ≤ na * (y * y) + x * x * nb := by
    by_contra hc
    have hc : na * (y * y) + x * x * nb < 2 * d * x * y := by omega
    have h1 : (na * (y * y) + x * x * nb) * (na * (y * y) + x * x * nb)
        < (2 * d * x * y) * (2 * d * x * y) := Nat.mul_self_lt_mul_self hc
    have h2 : (2 * d * x * y) * (2 * d * x * y) ≤ 4 * (na * nb) * (x * x * (y * y)) := by
      have : (2 * d * x * y) * (2 * d * x * y) = 4 * (d * d) * (x * x * (y * y)) := by ring
      rw [this]
      exact Nat.mul_le_mul_right _ (Nat.mul_le_mul_left _ h)
    have h3 : 4 * (na * nb) * (x * x * (y * y))
        ≤ (na * (y * y) + x * x * nb) * (na * (y * y) + x * x * nb) := by
      have h4 : (4 : ℤ) * ((na : ℤ) * nb) * ((x : ℤ) * x * ((y : ℤ) * y))
          ≤ ((na : ℤ) * ((y : ℤ) * y) + (x : ℤ) * x * nb) *
            ((na : ℤ) * ((y : ℤ) * y) + (x : ℤ) * x * nb) := by
        nlinarith [sq_nonneg ((na : ℤ) * ((y : ℤ) * y) - (x : ℤ) * x * nb)]
      exact_mod_cast h4
    omega
  nlinarith

theorem cauchy_schwarz_sums (ca cb : Str → Nat) (ws : List Str) (d na nb : Nat)
    (h : d * d ≤ na * nb) :
    (d + (ws.map (fun w => ca w * cb w)).sum) * (d + (ws.map (fun w => ca w * cb w)).sum)
      ≤ (na + (ws.map (fun w => ca w * ca w)).sum) *
        (nb + (ws.map (fun w => cb w * cb w)).sum) := by
  induction ws generalizing d na nb with
  | nil => simpa using h
  | cons w ws ih =>
    simp only [List.map_cons, List.sum_cons, ← Nat.add_assoc]
    exact ih _ _ _ (cauchy_schwarz_step d na nb (ca w) (cb w) h)

theorem sum_le_length_mul (f : Str → Nat) (M : Nat) (ws : List Str) (h : ∀ w ∈ ws, f w ≤ M) :
    (ws.map f).sum ≤ ws.length * M := by
  induction ws with
  | nil => simp
  | cons w ws ih =>
    simp only [List.map_cons, List.sum_cons, List.length_cons]
    have h1 := h w (List.mem_cons_self _ _)
    have h2 := ih (fun w hw => h w (List.mem_cons_of_mem _ hw))
    rw [Nat.add_mul, Nat.one_mul]
    omega

theorem le_sum_of_mem (f : Str → Nat) (ws : List Str) (w : Str) (h : w ∈ ws) :
    f w ≤ (ws.map f).sum := by
  induction ws with
  | nil => simp at h
  | cons x xs ih =>
    simp only [List.map_cons, List.sum_cons]
    rcases List.mem_cons.mp h with rfl | h
    · omega
    · have := ih h; omega
/-! ## Keys of an object -/

theorem mem_insertIndexKey (x y : Nat × Str) (l : List (Nat × Str)) :
    x ∈ insertIndexKey y l ↔ x = y ∨ x ∈ l := by
  induction l with
  | nil => simp [insertIndexKey]
  | cons z zs ih =>
    by_cases h : y.1 ≤ z.1
    · simp [insertIndexKey, h]
    · simp only [insertIndexKey, h, if_false, List.mem_cons, ih]
      tauto

theorem mem_foldr_insertIndexKey (x : Nat × Str) (l : List (Nat × Str)) :
    x ∈ l.foldr insertIndexKey [] ↔ x ∈ l := by
  induction l with
  | nil => simp
  | cons y ys ih => simp only [List.foldr_cons, mem_insertIndexKey, ih, List.mem_cons]

theorem length_insertIndexKey (y : Nat × Str) (l : List (Nat × Str)) :
    (insertIndexKey y l).length = l.length + 1 := by
  induction l with
  | nil => simp [insertIndexKey]
  | cons z zs ih =>
    by_cases h : y.1 ≤ z.1
    · simp [insertIndexKey, h]
    · simp [insertIndexKey, h, ih]

theorem length_foldr_insertIndexKey (l : List (Nat × Str)) :
    (l.foldr insertIndexKey []).length = l.length := by
  induction l with
  | nil => simp
  | cons y ys ih => simp only [List.foldr_cons, length_insertIndexKey, ih, List.length_cons]

theorem mem_objectKeys (v : Obj) (w : Str) : w ∈ objectKeys v ↔ w ∈ v.map Prod.fst := by
  simp only [objectKeys, List.mem_append, List.mem_map, mem_foldr_insertIndexKey,
    List.mem_filterMap, List.mem_filter, Option.map_eq_some', Prod.exists]
  constructor
  · rintro (⟨n, k, ⟨k0, val, hmem, n0, _, heq⟩, rfl⟩ | ⟨⟨k0, val, hmem, rfl⟩, _⟩)
    · simp only [Prod.mk.injEq] at heq
      obtain ⟨_, rfl⟩ := heq
      exact ⟨k0, val, hmem, rfl⟩
    · exact ⟨k0, val, hmem, rfl⟩
  · rintro ⟨k0, val, hmem, rfl⟩
    cases hidx : arrayIndex k0 with
    | none => right; exact ⟨⟨k0, val, hmem, rfl⟩, by simp⟩
    | some n => left; exact ⟨n, k0, ⟨k0, val, hmem, n, hidx, rfl⟩, rfl⟩

theorem length_objectKeys_le (v : Obj) : (objectKeys v).length ≤ 2 * v.length := by
  simp only [objectKeys, List.length_append, List.length_map, length_foldr_insertIndexKey]
  have h1 := List.length_filterMap_le
    (fun kv : Str × PropVal => (arrayIndex kv.1).map (fun n => (n, kv.1))) v
  have h2 := List.length_filter_le (fun k : Str => (arrayIndex k).isNone) (v.map Prod.fst)
  simp only [List.length_map] at h2
  omega

theorem mem_uniq {α : Type} [DecidableEq α] (x : α) (l : List α) : x ∈ uniq l ↔ x ∈ l := by
  induction l with
  | nil => simp [uniq]
  | cons y ys ih =>
    simp only [uniq, List.mem_cons, List.mem_filter, ih, decide_eq_true_eq]
    by_cases h : x = y
    · simp [h]
    · simp [h]

theorem length_uniq_le {α : Type} [DecidableEq α] (l : List α) : (uniq l).length ≤ l.length := by
  induction l with
  | nil => simp [uniq]
  | cons y ys ih =>
    simp only [uniq, List.length_cons]
    have := List.length_filter_le (fun z => decide (z ≠ y)) (uniq ys)
    omega

theorem ownProp_mem (v : Obj) (w : Str) (val : PropVal) (h : ownProp v w = some val) :
    (w, val) ∈ v := by
  induction v with
  | nil => simp [ownProp] at h
  | cons kv rest ih =>
    obtain ⟨k, x⟩ := kv
    by_cases hk : k = w
    · simp only [ownProp, hk, if_true, Option.some.injEq] at h
      subst h; subst hk
      exact List.mem_cons_self _ _
    · simp only [ownProp, hk, if_false] at h
      exact List.mem_cons_of_mem _ (ih h)

theorem termVector_lookup (v : Obj) (hv : IsTermVector v) (w : Str)
    (hw : w ∉ objectPrototypeNames) :
    orZeroToNumber (getProp v w) = .fin (countOf v w) 0 ∧ countOf v w < 2 ^ 16 := by
  cases hown : ownProp v w with
  | none =>
    refine ⟨?_, ?_⟩
    · simp only [getProp, hown, hw, if_false, orZeroToNumber, countOf, Num.zero]
    · simp only [countOf, hown]
      norm_num
  | some val =>
    obtain ⟨_, hsmall⟩ := hv.2 (w, val) (ownProp_mem v w val hown)
    cases val with
    | count n =>
      simp only [isSmallCount, Bool.and_eq_true, decide_eq_true_eq] at hsmall
      simp only [getProp, hown, orZeroToNumber, countOf, Num.ofNat]
      exact ⟨roundTo53_exact n 0 (by omega), hsmall.2⟩
    | undefined => simp [isSmallCount] at hsmall
    | native name ones => simp [isSmallCount] at hsmall
    | inherited name => simp [isSmallCount] at hsmall

theorem termVector_first_count (v : Obj) (hv : IsTermVector v) (hne : v ≠ []) :
    ∃ w ∈ v.map Prod.fst, 0 < countOf v w := by
  cases v with
  | nil => exact absurd rfl hne
  | cons kv rest =>
    obtain ⟨k, x⟩ := kv
    obtain ⟨_, hsmall⟩ := hv.2 (k, x) (List.mem_cons_self _ _)
    cases x with
    | count n =>
      simp only [isSmallCount, Bool.and_eq_true, decide_eq_true_eq] at hsmall
      refine ⟨k, List.mem_map.mpr ⟨(k, .count n), List.mem_cons_self _ _, rfl⟩, ?_⟩
      simp only [countOf, ownProp, if_true]
      exact hsmall.1
    | undefined => simp [isSmallCount] at hsmall
    | native name ones => simp [isSmallCount] at hsmall
    | inherited name => simp [isSmallCount] at hsmall

theorem Num.gt_fin_iff_real (m1 m2 : Nat) (e1 e2 : Int) :
    Num.gt (.fin m1 e1) (.fin m2 e2) = true ↔
      (m2 : ℝ) * (2 : ℝ) ^ e2 < (m1 : ℝ) * (2 : ℝ) ^ e1 := by
  rw [Num.gt_fin_iff]
  have h : ∀ (m : Nat) (e : Int), (((m : ℚ) * (2 : ℚ) ^ e : ℚ) : ℝ) = (m : ℝ) * (2 : ℝ) ^ e := by
    intro m e; push_cast; ring
  rw [← h m1 e1, ← h m2 e2, Rat.cast_lt]
/-! ## Bounds on the cosine similarity -/

/-- C8, counterexample: the vector of "corporate finance course" holds three
tokens once each, and its similarity with itself is `1 + 2 ^ (-52)`
(1.0000000000000002), which is greater than 1; for the two tokens of
"corporate finance" it is `1 - 2 ^ (-52)` (0.9999999999999998), less than 1. -/
theorem cosineSimilarity_self_not_one :
    queryVectorOf "corporate finance course".toList
      = [("corporate".toList, .count 1), ("finance".toList, .count 1),
         ("course".toList, .count 1)] ∧
    cosineSimilarity (queryVectorOf "corporate finance course".toList)
      (queryVectorOf "corporate finance course".toList) = .fin 4503599627370497 (-52) ∧
    Num.gt (cosineSimilarity (queryVectorOf "corporate finance course".toList)
      (queryVectorOf "corporate finance course".toList)) (Num.ofNat 1) = true ∧
    cosineSimilarity (queryVectorOf "corporate finance".toList)
      (queryVectorOf "corporate finance".toList) = .fin 9007199254740990 (-53) ∧
    Num.gt (Num.ofNat 1) (cosineSimilarity (queryVectorOf "corporate finance".toList)
      (queryVectorOf "corporate finance".toList)) = true := by
  decide

/-- C8, amended: for term vectors `a` and `b` (no key a property name of
`Object.prototype`, counts from 1 to 65535, at most 524288 keys),
`cosineSimilarity a b` is a number, not NaN, that is at least 0 and at most
`1 + 2 ^ (-50)`; and for a non-empty such vector `v`, `cosineSimilarity v v`
is at least `1 - 2 ^ (-50)`. -/
theorem cosineSimilarity_bounds (a b : Obj) (ha : IsTermVector a) (hb : IsTermVector b) :
    ∃ m e, cosineSimilarity a b = .fin m e ∧
      Num.gt Num.zero (.fin m e) = false ∧
      Num.gt (.fin m e) (.fin (2 ^ 50 + 1) (-50)) = false ∧
      (a = b → a ≠ [] → Num.gt (.fin (2 ^ 50 - 1) (-50)) (.fin m e) = false) := by
  have hone : ((2 ^ 50 + 1 : Nat) : ℝ) * (2 : ℝ) ^ (-50 : Int) = 1 + 1 / 2 ^ 50 := by
    norm_num [zpow_neg]
  have hone' : ((2 ^ 50 - 1 : Nat) : ℝ) * (2 : ℝ) ^ (-50 : Int) = 1 - 1 / 2 ^ 50 := by
    norm_num [zpow_neg]
  have hzero : ∀ (m : Nat) (e : Int), Num.gt Num.zero (.fin m e) = false := by
    intro m e
    rw [Bool.eq_false_iff, ne_eq, Num.zero, Num.gt_fin_iff_real, not_lt]
    have : (0 : ℝ) ≤ (m : ℝ) * (2 : ℝ) ^ e := by positivity
    simpa using this
  -- the words of the loop and their counts
  have hws : ∀ w ∈ uniq (objectKeys a ++ objectKeys b), w ∉ objectPrototypeNames := by
    intro w hw
    rw [mem_uniq, List.mem_append, mem_objectKeys, mem_objectKeys] at hw
    rcases hw with hw | hw
    · obtain ⟨kv, hkv, rfl⟩ := List.mem_map.mp hw
      exact (ha.2 kv hkv).1
    · obtain ⟨kv, hkv, rfl⟩ := List.mem_map.mp hw
      exact (hb.2 kv hkv).1
  have hlen : (uniq (objectKeys a ++ objectKeys b)).length ≤ 2 ^ 21 := by
    have h1 := length_uniq_le (objectKeys a ++ objectKeys b)
    have h2 := length_objectKeys_le a
    have h3 := length_objectKeys_le b
    have h4 := ha.1
    have h5 := hb.1
    rw [List.length_append] at h1
    have : (2 : Nat) ^ 21 = 2 * 2 ^ 19 + 2 * 2 ^ 19 := by norm_num
    omega
  have hprod : ∀ (f g : Str → Nat), (∀ w ∈ uniq (objectKeys a ++ objectKeys b), f w < 2 ^ 16) →
      (∀ w ∈ uniq (objectKeys a ++ objectKeys b), g w < 2 ^ 16) →
      0 + ((uniq (objectKeys a ++ objectKeys b)).map (fun w => f w * g w)).sum < 2 ^ 53 := by
    intro f g hf hg
    have h1 := sum_le_length_mul (fun w => f w * g w) (2 ^ 32 - 1)
      (uniq (objectKeys a ++ objectKeys b)) (by
        intro w hw
        have h1 : f w ≤ 2 ^ 16 - 1 := by have := hf w hw; omega
        have h2 : g w ≤ 2 ^ 16 - 1 := by have := hg w hw; omega
        calc f w * g w ≤ (2 ^ 16 - 1) * (2 ^ 16 - 1) := Nat.mul_le_mul h1 h2
          _ ≤ 2 ^ 32 - 1 := by norm_num)
    have h2 : (uniq (objectKeys a ++ objectKeys b)).length * (2 ^ 32 - 1)
        ≤ 2 ^ 21 * (2 ^ 32 - 1) := Nat.mul_le_mul_right _ hlen
    have h3 : (2 : Nat) ^ 21 * (2 ^ 32 - 1) < 2 ^ 53 := by norm_num
    omega
  have hca := fun w hw => (termVector_lookup a ha w (hws w hw))
  have hcb := fun w hw => (termVector_lookup b hb w (hws w hw))
  have hsums : cosineSums a b = _ :=
    cosine_foldl_exact a b (countOf a) (countOf b) (uniq (objectKeys a ++ objectKeys b))
      (fun w hw => (hca w hw).1) (fun w hw => (hcb w hw).1) 0 0 0
      (hprod _ _ (fun w hw => (hca w hw).2) (fun w hw => (hcb w hw).2))
      (hprod _ _ (fun w hw => (hca w hw).2) (fun w hw => (hca w hw).2))
      (hprod _ _ (fun w hw => (hcb w hw).2) (fun w hw => (hcb w hw).2))
  have hCS := cauchy_schwarz_sums (countOf a) (countOf b)
    (uniq (objectKeys a ++ objectKeys b)) 0 0 0 (le_refl _)
  generalize hD : 0 + ((uniq (objectKeys a ++ objectKeys b)).map
    (fun w => countOf a w * countOf b w)).sum = D at hsums hCS
  generalize hNA : 0 + ((uniq (objectKeys a ++ objectKeys b)).map
    (fun w => countOf a w * countOf a w)).sum = NA at hsums hCS
  generalize hNB : 0 + ((uniq (objectKeys a ++ objectKeys b)).map
    (fun w => countOf b w * countOf b w)).sum = NB at hsums hCS
  by_cases hz : NA = 0 ∨ NB = 0
  · refine ⟨0, 0, ?_, hzero 0 0, ?_, ?_⟩
    · simp only [cosineSimilarity, hsums, Num.isZero]
      rcases hz with h | h <;> simp [h, Num.zero]
    · rw [Bool.eq_false_iff, ne_eq, Num.gt_fin_iff_real, not_lt, hone]
      norm_num
    · intro hab hne
      exfalso
      subst hab
      obtain ⟨w, hw, hpos⟩ := termVector_first_count a ha hne
      have hmem : w ∈ uniq (objectKeys a ++ objectKeys a) := by
        rw [mem_uniq, List.mem_append, mem_objectKeys]; exact Or.inl hw
      have hle := le_sum_of_mem (fun w => countOf a w * countOf a w) _ w hmem
      have hpp : 0 < countOf a w * countOf a w := Nat.mul_pos hpos hpos
      simp only at hle
      rcases hz with h | h <;> omega
  · have hA : 0 < NA := by omega
    have hB : 0 < NB := by omega
    obtain ⟨m, e, hq, hup, hlow⟩ := cosine_quotient_bounds D NA NB hA hB hCS
    refine ⟨m, e, ?_, hzero m e, ?_, ?_⟩
    · have hA0 : (NA == 0) = false := by simpa using (by omega : NA ≠ 0)
      have hB0 : (NB == 0) = false := by simpa using (by omega : NB ≠ 0)
      simp only [cosineSimilarity, hsums, Num.isZero, hA0, hB0, Bool.or_self,
        Bool.false_eq_true, if_false]
      exact hq
    · rw [Bool.eq_false_iff, ne_eq, Num.gt_fin_iff_real, not_lt, hone]
      exact hup
    · intro hab _
      subst hab
      rw [Bool.eq_false_iff, ne_eq, Num.gt_fin_iff_real, not_lt, hone']
      apply hlow
      · rw [← hD, ← hNA]
      · rw [← hD, ← hNB]

/-- C8, witness: the vector of "corporate finance course" against itself. -/
theorem cosineSimilarity_bounds_witness :
    IsTermVector (queryVectorOf "corporate finance course".toList) ∧
    ∃ m e, cosineSimilarity (queryVectorOf "corporate finance course".toList)
        (queryVectorOf "corporate finance course".toList) = .fin m e ∧
      Num.gt Num.zero (.fin m e) = false ∧
      Num.gt (.fin m e) (.fin (2 ^ 50 + 1) (-50)) = false ∧
      (queryVectorOf "corporate finance course".toList
          = queryVectorOf "corporate finance course".toList →
        queryVectorOf "corporate finance course".toList ≠ [] →
        Num.gt (.fin (2 ^ 50 - 1) (-50)) (.fin m e) = false) :=
  ⟨by unfold IsTermVector; decide,
   cosineSimilarity_bounds _ _ (by unfold IsTermVector; decide)
     (by unfold IsTermVector; decide)⟩

/-! ## Stability of the sort -/

theorem Num.gt_irrefl (x : Num) : x.gt x = false := by
  cases x with
  | nan => rfl
  | fin m e => simp [Num.gt]

theorem sameSimilarity_not_both (s : Num) (hs : ∃ m e, s = .fin m e) (x y : Hit)
    (hg : y.similarity.gt x.similarity = true) :
    ¬ (sameSimilarity s x = true ∧ sameSimilarity s y = true) := by
  obtain ⟨ms, es, rfl⟩ := hs
  rintro ⟨hx, hy⟩
  cases hxs : x.similarity with
  | nan => rw [hxs] at hg; cases y.similarity <;> simp [Num.gt] at hg
  | fin mx ex =>
    cases hys : y.similarity with
    | nan => rw [hys] at hg; simp [Num.gt] at hg
    | fin my ey =>
      simp only [sameSimilarity, hxs, hys, Bool.and_eq_true, Bool.not_eq_true'] at hx hy
      rw [hxs, hys, Num.gt_fin_iff] at hg
      have h1 := hx.2
      have h2 := hy.1
      rw [Bool.eq_false_iff, ne_eq, Num.gt_fin_iff, not_lt] at h1 h2
      linarith

theorem insertHit_filter (s : Num) (hs : ∃ m e, s = .fin m e) (x : Hit) (l : List Hit) :
    (insertHit x l).filter (sameSimilarity s) = (x :: l).filter (sameSimilarity s) := by
  induction l with
  | nil => rfl
  | cons y ys ih =>
    by_cases hg : y.similarity.gt x.similarity = true
    · simp only [insertHit, hg, if_true]
      rw [List.filter_cons, ih]
      have hnb := sameSimilarity_not_both s hs x y hg
      by_cases hx : sameSimilarity s x = true
      · have hy : sameSimilarity s y = false := by
          cases h : sameSimilarity s y with
          | false => rfl
          | true => exact absurd ⟨hx, h⟩ hnb
        simp [List.filter_cons, hx, hy]
      · have hx' : sameSimilarity s x = false := by simpa using hx
        simp [List.filter_cons, hx']
    · simp only [insertHit, hg]
      rfl

theorem sortBySimilarity_filter (s : Num) (hs : ∃ m e, s = .fin m e) (l : List Hit) :
    (sortBySimilarity l).filter (sameSimilarity s) = l.filter (sameSimilarity s) := by
  induction l with
  | nil => rfl
  | cons x xs ih =>
    have : sortBySimilarity (x :: xs) = insertHit x (sortBySimilarity xs) := rfl
    rw [this, insertHit_filter s hs, List.filter_cons, List.filter_cons, ih]

/-! ## The entries made by `processCourseData` -/

theorem mapSet_append_of_not_mem {β : Type} (m : List (Value × β)) (k : Value) (v : β)
    (h : ∀ entry ∈ m, entry.1 ≠ k) : mapSet m k v = m ++ [(k, v)] := by
  induction m with
  | nil => rfl
  | cons kw rest ih =>
    obtain ⟨k0, w⟩ := kw
    have h0 : k0 ≠ k := h (k0, w) (List.mem_cons_self _ _)
    simp only [mapSet, h0, if_false, List.cons_append]
    rw [ih (fun entry he => h entry (List.mem_cons_of_mem _ he))]

theorem processCourseData_embeddings_append (records : List Course) (dp : CourseDataProcessor)
    (hnodup : (records.map (fun r => r.code)).Nodup)
    (hnew : ∀ entry ∈ dp.embeddings, ∀ r ∈ records, entry.1 ≠ r.code) :
    (processCourseData dp records).embeddings
      = dp.embeddings ++ records.map embeddingsEntry := by
  induction records generalizing dp with
  | nil => simp [processCourseData]
  | cons course rest ih =>
    simp only [List.map_cons, List.nodup_cons, List.mem_map, not_exists, not_and] at hnodup
    obtain ⟨hhead, htail⟩ := hnodup
    have hset : mapSet dp.embeddings course.code
        { chunks := createTextChunks course,
          embeddings := generateEmbeddings (createTextChunks course) }
        = dp.embeddings ++ [embeddingsEntry course] :=
      mapSet_append_of_not_mem _ _ _
        (fun entry he => hnew entry he course (List.mem_cons_self _ _))
    simp only [processCourseData]
    rw [ih _ htail]
    · simp only [hset, List.map_cons, List.append_assoc, List.singleton_append]
    · intro entry he r hr
      simp only [hset, List.mem_append, List.mem_singleton] at he
      rcases he with he | he
      · exact hnew entry he r (List.mem_cons_of_mem _ hr)
      · subst he
        intro heq
        exact hhead r hr heq.symm

/-- C11: two hits that `semanticSearch` returns one before the other with
equal similarity stand in the same order in the list of hits collected before
sorting, which runs through the entries of `embeddings` in insertion order and
through each entry's chunks in the order `createTextChunks` emitted them; and
for a corpus loaded from records with distinct codes the entries of
`embeddings` are those of the records, in loading order. -/
theorem semanticSearch_stable (dp : CourseDataProcessor) (query : Str) (topK : Nat) :
    (∀ a b : Hit, [a, b].Sublist (semanticSearch dp query topK) →
      a.similarity.gt b.similarity = false → b.similarity.gt a.similarity = false →
      [a, b].Sublist (searchResults dp query)) ∧
    searchResults dp query
      = dp.embeddings.flatMap (fun entry =>
          entry.2.embeddings.filterMap (fun embedding =>
            if (cosineSimilarity (queryVectorOf query) embedding.vector).gt Num.zero then
              some { courseCode := entry.1,
                     similarity := cosineSimilarity (queryVectorOf query) embedding.vector,
                     text := embedding.text, metadata := embedding.metadata,
                     course := mapGet dp.courses entry.1 }
            else none)) ∧
    (∀ records : List Course, (records.map (fun r => r.code)).Nodup →
      (processCourseData CourseDataProcessor.new records).embeddings
        = records.map (fun r =>
            (r.code, { chunks := createTextChunks r,
                       embeddings := (createTextChunks r).map embedChunk }))) := by
  refine ⟨?_, rfl, ?_⟩
  · intro a b hsub hab hba
    have hsorted : [a, b].Sublist (sortBySimilarity (searchResults dp query)) :=
      hsub.trans (List.take_sublist _ _)
    have hamem : a ∈ searchResults dp query :=
      (mem_sortBySimilarity a _).mp (hsorted.subset (List.mem_cons_self _ _))
    have hfin := Num.gt_zero_fin (searchResults_positive dp query a hamem)
    have hf := hsorted.filter (sameSimilarity a.similarity)
    rw [sortBySimilarity_filter _ hfin] at hf
    have hab' : [a, b].filter (sameSimilarity a.similarity) = [a, b] := by
      simp [List.filter_cons, sameSimilarity, Num.gt_irrefl, hab, hba]
    rw [hab'] at hf
    exact hf.trans (List.filter_sublist _)
  · intro records hnodup
    have h := processCourseData_embeddings_append records CourseDataProcessor.new hnodup
      (fun entry he => by simp [CourseDataProcessor.new] at he)
    simpa [CourseDataProcessor.new, embeddingsEntry, generateEmbeddings] using h

/-- C11, witness: on the corpus of ACFI 801 and ACFI 802 the query "letter
grading" retrieves the two logistics chunks with equal similarity, ACFI 801
first. -/
theorem semanticSearch_stable_witness :
    [hitFor "letter grading".toList acfi801 (logisticsChunk "ACFI 801".toList),
     hitFor "letter grading".toList acfi802 (logisticsChunk "ACFI 802".toList)].Sublist
      (semanticSearch (processCourseData CourseDataProcessor.new [acfi801, acfi802])
        "letter grading".toList 5) ∧
    (hitFor "letter grading".toList acfi801 (logisticsChunk "ACFI 801".toList)).similarity.gt
      (hitFor "letter grading".toList acfi802 (logisticsChunk "ACFI 802".toList)).similarity
        = false ∧
    (hitFor "letter grading".toList acfi802 (logisticsChunk "ACFI 802".toList)).similarity.gt
      (hitFor "letter grading".toList acfi801 (logisticsChunk "ACFI 801".toList)).similarity
        = false ∧
    [hitFor "letter grading".toList acfi801 (logisticsChunk "ACFI 801".toList),
     hitFor "letter grading".toList acfi802 (logisticsChunk "ACFI 802".toList)].Sublist
      (searchResults (processCourseData CourseDataProcessor.new [acfi801, acfi802])
        "letter grading".toList) ∧
    (processCourseData CourseDataProcessor.new [acfi801, acfi802]).embeddings
      = [acfi801, acfi802].map (fun r =>
          (r.code, { chunks := createTextChunks r,
                     embeddings := (createTextChunks r).map embedChunk })) :=
  ⟨by decide, by decide, by decide,
   (semanticSearch_stable (processCourseData CourseDataProcessor.new [acfi801, acfi802])
      "letter grading".toList 5).1 _ _ (by decide) (by decide) (by decide),
   (semanticSearch_stable CourseDataProcessor.new [] 0).2.2 [acfi801, acfi802] (by decide)⟩

/-! ## Chunks -/

theorem kind_ne_rules :
    ("description".toList = "rules".toList) = False ∧
    ("prerequisites".toList = "rules".toList) = False ∧
    ("logistics".toList = "rules".toList) = False ∧
    ("description".toList = "prerequisites".toList) = False ∧
    ("logistics".toList = "prerequisites".toList) = False ∧
    ("rules".toList = "prerequisites".toList) = False := by
  refine ⟨?_, ?_, ?_, ?_, ?_, ?_⟩ <;> exact eq_false (by decide)

/-- C12: a record whose prerequisites, repeatRule, mutualExclusion and
equivalent are all populated (non-empty) gives exactly four documents, of
kinds description, prerequisites, logistics, rules; a record with those four
fields null gives exactly two, of kinds description and logistics; every
record gives between two and four documents. -/
theorem createTextChunks_kinds (course : Course) :
    (course.prerequisites.truthy = true → course.repeatRule.truthy = true →
      course.mutualExclusion.truthy = true → course.equivalent.truthy = true →
      (createTextChunks course).map (fun chunk => chunk.metadata.type)
        = ["description".toList, "prerequisites".toList, "logistics".toList,
           "rules".toList]) ∧
    (course.prerequisites = .null → course.repeatRule = .null →
      course.mutualExclusion = .null → course.equivalent = .null →
      (createTextChunks course).map (fun chunk => chunk.metadata.type)
        = ["description".toList, "logistics".toList]) ∧
    2 ≤ (createTextChunks course).length ∧ (createTextChunks course).length ≤ 4 := by
  refine ⟨?_, ?_, ?_, ?_⟩
  · intro h1 h2 h3 h4
    simp [createTextChunks, h1, h2, h3, h4]
  · intro h1 h2 h3 h4
    simp [createTextChunks, h1, h2, h3, h4, Value.truthy]
  · unfold createTextChunks
    cases course.prerequisites.truthy <;>
      cases (course.repeatRule.truthy || course.mutualExclusion.truthy ||
        course.equivalent.truthy) <;> simp
  · unfold createTextChunks
    cases course.prerequisites.truthy <;>
      cases (course.repeatRule.truthy || course.mutualExclusion.truthy ||
        course.equivalent.truthy) <;> simp

/-- C12, witness: ACFI 804 with all four optional fields populated, and
ACFI 801 with all four null. -/
theorem createTextChunks_kinds_witness :
    (createTextChunks { acfi804 with mutualExclusion := .str "No credit for ADMN 846.".toList,
                                     equivalent := .str "ACFI 897".toList }).map
        (fun chunk => chunk.metadata.type)
      = ["description".toList, "prerequisites".toList, "logistics".toList, "rules".toList] ∧
    (createTextChunks { acfi801 with repeatRule := .null, equivalent := .null }).map
        (fun chunk => chunk.metadata.type)
      = ["description".toList, "logistics".toList] :=
  ⟨(createTextChunks_kinds _).1 (by decide) (by decide) (by decide) (by decide),
   (createTextChunks_kinds _).2.1 (by decide) (by decide) (by decide) (by decide)⟩

/-- C13, counterexample: for ACFI 801, whose only rule is the repeat rule, the
rules text ends in a space after the rule; for a record with an equivalent
course the value is preceded by "Equivalent to ".  Neither is the prefix
followed by the present values separated by single spaces. -/
theorem createTextChunks_rules_not_spec_words :
    (createTextChunks acfi801).filter
        (fun chunk => decide (chunk.metadata.type = "rules".toList))
      = [{ type := "rules".toList,
           text := "Additional rules for ACFI 801: May be repeated for a maximum of 6 credits. ".toList,
           metadata := { type := "rules".toList, courseCode := .str "ACFI 801".toList } }] ∧
    rulesTextInSpecWords acfi801
      = "Additional rules for ACFI 801: May be repeated for a maximum of 6 credits.".toList ∧
    ((createTextChunks { acfi801 with equivalent := .str "ACFI 897".toList }).filter
        (fun chunk => decide (chunk.metadata.type = "rules".toList))).map (fun chunk => chunk.text)
      = ["Additional rules for ACFI 801: May be repeated for a maximum of 6 credits. Equivalent to ACFI 897".toList] ∧
    rulesTextInSpecWords { acfi801 with equivalent := .str "ACFI 897".toList }
      = "Additional rules for ACFI 801: May be repeated for a maximum of 6 credits. ACFI 897".toList := by
  decide

/-- C13, amended: when at least one of repeatRule, mutualExclusion,
equivalent is present (a non-empty value), `createTextChunks` emits exactly
one rules document; its text is "Additional rules for {code}: ", then the
repeat rule followed by a space if present, then the mutual exclusion
followed by a space if present, then "Equivalent to " followed by the
equivalent course if present.  When none is present there is no rules
document. -/
theorem createTextChunks_rules (course : Course) :
    (createTextChunks course).filter
        (fun chunk => decide (chunk.metadata.type = "rules".toList))
      = if course.repeatRule.truthy || course.mutualExclusion.truthy ||
            course.equivalent.truthy then
          [{ type := "rules".toList,
             text := "Additional rules for ".toList ++ course.code.toStr ++ ": ".toList ++
               (if course.repeatRule.truthy then course.repeatRule.toStr ++ " ".toList else []) ++
               (if course.mutualExclusion.truthy then
                  course.mutualExclusion.toStr ++ " ".toList else []) ++
               (if course.equivalent.truthy then
                  "Equivalent to ".toList ++ course.equivalent.toStr else []),
             metadata := { type := "rules".toList, courseCode := course.code } }]
        else [] := by
  unfold createTextChunks
  cases course.prerequisites.truthy <;> cases course.repeatRule.truthy <;>
    cases course.mutualExclusion.truthy <;> cases course.equivalent.truthy <;>
    simp [kind_ne_rules]

/-- C14, counterexample: a record whose prerequisites field is the empty
string, which is not null, gets no prerequisites document. -/
theorem createTextChunks_empty_prerequisites :
    ({ acfi801 with prerequisites := .str [] } : Course).prerequisites ≠ .null ∧
    ({ acfi801 with prerequisites := .str [] } : Course).prerequisites ≠ .undefined ∧
    (createTextChunks { acfi801 with prerequisites := .str [] }).filter
        (fun chunk => decide (chunk.metadata.type = "prerequisites".toList)) = [] := by
  decide

/-- C14, amended: `createTextChunks` emits a prerequisites document if and
only if the prerequisites field is truthy (not null, not undefined, not the
empty string, not 0); the document's text is "Prerequisites for {code}:
{prerequisites}" and its course code is the record's code. -/
theorem createTextChunks_prerequisites (course : Course) :
    (createTextChunks course).filter
        (fun chunk => decide (chunk.metadata.type = "prerequisites".toList))
      = if course.prerequisites.truthy then
          [{ type := "prerequisites".toList,
             text := "Prerequisites for ".toList ++ course.code.toStr ++ ": ".toList ++
               course.prerequisites.toStr,
             metadata := { type := "prerequisites".toList, courseCode := course.code } }]
        else [] := by
  unfold createTextChunks
  cases course.prerequisites.truthy <;>
    cases (course.repeatRule.truthy || course.mutualExclusion.truthy ||
      course.equivalent.truthy) <;> simp [kind_ne_rules]

/-! ## What `processCourseData` keeps and what it replaces -/

theorem mem_mapSet_of_ne {β : Type} (m : List (Value × β)) (k : Value) (v : β)
    (entry : Value × β) (he : entry ∈ m) (hne : entry.1 ≠ k) : entry ∈ mapSet m k v := by
  induction m with
  | nil => simp at he
  | cons kw rest ih =>
    obtain ⟨k0, w⟩ := kw
    by_cases h0 : k0 = k
    · simp only [mapSet, h0, if_true]
      rcases List.mem_cons.mp he with rfl | he
      · exact absurd h0 hne
      · exact List.mem_cons_of_mem _ he
    · simp only [mapSet, h0, if_false]
      rcases List.mem_cons.mp he with rfl | he
      · exact List.mem_cons_self _ _
      · exact List.mem_cons_of_mem _ (ih he)

theorem processCourseData_frame (records : List Course) (dp : CourseDataProcessor) (k : Value)
    (hk : ∀ r ∈ records, r.code ≠ k) :
    mapGet (processCourseData dp records).courses k = mapGet dp.courses k ∧
    mapGet (processCourseData dp records).embeddings k = mapGet dp.embeddings k := by
  induction records generalizing dp with
  | nil => exact ⟨rfl, rfl⟩
  | cons course rest ih =>
    have hne : ¬ course.code = k := hk course (List.mem_cons_self _ _)
    obtain ⟨h1, h2⟩ := ih
      { courses := mapSet dp.courses course.code course,
        embeddings := mapSet dp.embeddings course.code
          { chunks := createTextChunks course,
            embeddings := generateEmbeddings (createTextChunks course) } }
      (fun r hr => hk r (List.mem_cons_of_mem _ hr))
    simp only [processCourseData]
    rw [h1, h2]
    simp only [mapGet_mapSet, hne, if_false, and_self]

theorem processCourseData_keeps (records : List Course) (dp : CourseDataProcessor) :
    (∀ entry ∈ dp.courses, (∀ r ∈ records, r.code ≠ entry.1) →
      entry ∈ (processCourseData dp records).courses) ∧
    (∀ entry ∈ dp.embeddings, (∀ r ∈ records, r.code ≠ entry.1) →
      entry ∈ (processCourseData dp records).embeddings) := by
  induction records generalizing dp with
  | nil => exact ⟨fun _ h _ => h, fun _ h _ => h⟩
  | cons course rest ih =>
    obtain ⟨h1, h2⟩ := ih
      { courses := mapSet dp.courses course.code course,
        embeddings := mapSet dp.embeddings course.code
          { chunks := createTextChunks course,
            embeddings := generateEmbeddings (createTextChunks course) } }
    constructor
    · intro entry he hk
      exact h1 entry
        (mem_mapSet_of_ne _ _ _ entry he
          (fun h => hk course (List.mem_cons_self _ _) h.symm))
        (fun r hr => hk r (List.mem_cons_of_mem _ hr))
    · intro entry he hk
      exact h2 entry
        (mem_mapSet_of_ne _ _ _ entry he
          (fun h => hk course (List.mem_cons_self _ _) h.symm))
        (fun r hr => hk r (List.mem_cons_of_mem _ hr))

theorem processCourseData_stores (records : List Course) (dp : CourseDataProcessor)
    (k : Value) (hk : ∃ r ∈ records, r.code = k) :
    ∃ r ∈ records, r.code = k ∧ mapGet (processCourseData dp records).courses k = some r := by
  induction records generalizing dp with
  | nil => obtain ⟨r, hr, _⟩ := hk; simp at hr
  | cons course rest ih =>
    by_cases hrest : ∃ r ∈ rest, r.code = k
    · obtain ⟨r, hr, hc, hget⟩ := ih
        { courses := mapSet dp.courses course.code course,
          embeddings := mapSet dp.embeddings course.code
            { chunks := createTextChunks course,
              embeddings := generateEmbeddings (createTextChunks course) } } hrest
      exact ⟨r, List.mem_cons_of_mem _ hr, hc, hget⟩
    · have hnone : ∀ r ∈ rest, r.code ≠ k := fun r hr h => hrest ⟨r, hr, h⟩
      obtain ⟨r, hr, hc⟩ := hk
      have hck : course.code = k := by
        rcases List.mem_cons.mp hr with rfl | hr'
        · exact hc
        · exact absurd hc (hnone r hr')
      refine ⟨course, List.mem_cons_self _ _, hck, ?_⟩
      simp only [processCourseData]
      rw [(processCourseData_frame rest _ k hnone).1]
      simp [mapGet_mapSet, hck]

theorem processCourseData_append (l1 l2 : List Course) (dp : CourseDataProcessor) :
    processCourseData dp (l1 ++ l2) = processCourseData (processCourseData dp l1) l2 := by
  induction l1 generalizing dp with
  | nil => rfl
  | cons course rest ih =>
    show processCourseData _ (rest ++ l2) = _
    rw [ih]
    rfl

theorem processCourseData_last (before after : List Course) (r : Course)
    (dp : CourseDataProcessor) (hafter : ∀ x ∈ after, x.code ≠ r.code) :
    mapGet (processCourseData dp (before ++ r :: after)).courses r.code = some r ∧
    mapGet (processCourseData dp (before ++ r :: after)).embeddings r.code
      = some { chunks := createTextChunks r,
               embeddings := generateEmbeddings (createTextChunks r) } := by
  rw [processCourseData_append]
  simp only [processCourseData]
  rw [(processCourseData_frame after _ r.code hafter).1,
    (processCourseData_frame after _ r.code hafter).2]
  simp [mapGet_mapSet]

theorem searchResults_kept (records : List Course) (dp : CourseDataProcessor) (query : Str)
    (h : Hit) (hh : h ∈ searchResults dp query) (hk : ∀ r ∈ records, r.code ≠ h.courseCode) :
    h ∈ searchResults (processCourseData dp records) query := by
  simp only [searchResults, List.mem_flatMap, searchCourse, List.mem_filterMap] at hh ⊢
  obtain ⟨entry, hentry, embedding, hemb, hsome⟩ := hh
  split at hsome
  · rename_i hpos
    simp only [Option.some.injEq] at hsome
    subst hsome
    simp only at hk
    refine ⟨entry, (processCourseData_keeps records dp).2 entry hentry hk, embedding, hemb, ?_⟩
    rw [if_pos hpos, (processCourseData_frame records dp entry.1 hk).1]
  · exact absurd hsome (by simp)

/-- C15, counterexample: after loading ACFI 801 and then calling
`processCourseData` with ACFI 802 alone, ACFI 801 is still returned by
`getCourse`, `getAllCourses` and `semanticSearch`. -/
theorem processCourseData_does_not_replace :
    getCourse (processCourseData (processCourseData CourseDataProcessor.new [acfi801])
      [acfi802]) "ACFI 801".toList = some acfi801 ∧
    getAllCourses (processCourseData (processCourseData CourseDataProcessor.new [acfi801])
      [acfi802]) = [acfi801, acfi802] ∧
    ((semanticSearch (processCourseData (processCourseData CourseDataProcessor.new [acfi801])
      [acfi802]) "corporate finance".toList 5).map (fun hit => hit.courseCode))
      = [.str "ACFI 801".toList] := by
  decide

/-- C15, amended: after `processCourseData dp records` the store holds, for
every code among the supplied records, a supplied record of that code (the
last one), and everything that was stored under a code not among the supplied
records is kept: `getCourse` gives the same record, the entries of `courses`
and `embeddings` are still there, and `semanticSearch` still collects the
same hits. -/
theorem processCourseData_upsert (dp : CourseDataProcessor) (records : List Course) :
    (∀ r ∈ records, ∃ r' ∈ records, r'.code = r.code ∧
      mapGet (processCourseData dp records).courses r.code = some r') ∧
    (∀ before after r, records = before ++ r :: after → (∀ x ∈ after, x.code ≠ r.code) →
      mapGet (processCourseData dp records).courses r.code = some r ∧
      mapGet (processCourseData dp records).embeddings r.code
        = some { chunks := createTextChunks r,
                 embeddings := generateEmbeddings (createTextChunks r) }) ∧
    (∀ k, (∀ r ∈ records, r.code ≠ k) →
      mapGet (processCourseData dp records).courses k = mapGet dp.courses k ∧
      mapGet (processCourseData dp records).embeddings k = mapGet dp.embeddings k) ∧
    (∀ entry ∈ dp.courses, (∀ r ∈ records, r.code ≠ entry.1) →
      entry ∈ (processCourseData dp records).courses) ∧
    (∀ entry ∈ dp.embeddings, (∀ r ∈ records, r.code ≠ entry.1) →
      entry ∈ (processCourseData dp records).embeddings) ∧
    (∀ query, ∀ h ∈ searchResults dp query, (∀ r ∈ records, r.code ≠ h.courseCode) →
      h ∈ searchResults (processCourseData dp records) query) :=
  ⟨fun r hr => processCourseData_stores records dp r.code ⟨r, hr, rfl⟩,
   fun before after r hrec hafter => by
     subst hrec; exact processCourseData_last before after r dp hafter,
   fun k hk => processCourseData_frame records dp k hk,
   (processCourseData_keeps records dp).1,
   (processCourseData_keeps records dp).2,
   fun query h hh hk => searchResults_kept records dp query h hh hk⟩

/-- C15, witness: the store holding ACFI 801, loaded with ACFI 802. -/
theorem processCourseData_upsert_witness :
    (∀ r ∈ [acfi802], r.code ≠ Value.str "ACFI 801".toList) ∧
    mapGet (processCourseData (processCourseData CourseDataProcessor.new [acfi801])
        [acfi802]).courses (.str "ACFI 801".toList)
      = mapGet (processCourseData CourseDataProcessor.new [acfi801]).courses
          (.str "ACFI 801".toList) ∧
    mapGet (processCourseData (processCourseData CourseDataProcessor.new [acfi801])
        [acfi802]).courses acfi802.code = some acfi802 :=
  ⟨by decide,
   ((processCourseData_upsert (processCourseData CourseDataProcessor.new [acfi801])
      [acfi802]).2.2.1 (.str "ACFI 801".toList) (by decide)).1,
   ((processCourseData_upsert (processCourseData CourseDataProcessor.new [acfi801])
      [acfi802]).2.1 [] [] acfi802 rfl (by decide)).1⟩

/-! ## Lookup by code -/

/-- C16, counterexample: a record whose code is written "acfi 801" is loaded,
and `getCourse "acfi 801"`, the very same string, returns `undefined`: the
argument is put in upper case, the stored key is not. -/
theorem getCourse_lower_case_code :
    mapGet (processCourseData CourseDataProcessor.new
        [{ acfi801 with code := .str "acfi 801".toList }]).courses (.str "acfi 801".toList)
      = some { acfi801 with code := .str "acfi 801".toList } ∧
    getCourse (processCourseData CourseDataProcessor.new
        [{ acfi801 with code := .str "acfi 801".toList }]) "acfi 801".toList = none ∧
    getCourse (processCourseData CourseDataProcessor.new
        [{ acfi801 with code := .str "acfi 801".toList }]) "ACFI 801".toList = none := by
  decide

/-- C16, amended: for a record `r` that is loaded, whose code `c` is in upper
case and is not the code of a record loaded after `r`, and every ASCII string
`s` whose upper-case form is `c`, `getCourse s` returns `r`; for every ASCII
string whose upper-case form is the code of no loaded record, `getCourse`
returns `undefined`; it does not throw. -/
theorem getCourse_loaded (before after : List Course) (r : Course) (c s : Str)
    (hcode : r.code = .str c) (hafter : ∀ x ∈ after, x.code ≠ r.code)
    (_hascii : isAscii s = true) (hs : toUpperCase s = c) :
    getCourse (processCourseData CourseDataProcessor.new (before ++ r :: after)) s = some r ∧
    ∀ t : Str, isAscii t = true →
      (∀ x ∈ before ++ r :: after, x.code ≠ .str (toUpperCase t)) →
      getCourse (processCourseData CourseDataProcessor.new (before ++ r :: after)) t = none := by
  constructor
  · have h := (processCourseData_last before after r CourseDataProcessor.new hafter).1
    rw [hcode] at h
    simp only [getCourse, hs]
    exact h
  · intro t _ ht
    simp only [getCourse]
    rw [(processCourseData_frame _ CourseDataProcessor.new _ ht).1]
    rfl

/-- C16, witness: ACFI 801 in the corpus of ACFI 801 and ACFI 802, looked up
as "acfi 801"; "acfi 999" is not found. -/
theorem getCourse_loaded_witness :
    acfi801.code = .str "ACFI 801".toList ∧
    (∀ x ∈ [acfi802], x.code ≠ acfi801.code) ∧
    isAscii "acfi 801".toList = true ∧
    toUpperCase "acfi 801".toList = "ACFI 801".toList ∧
    getCourse (processCourseData CourseDataProcessor.new ([] ++ acfi801 :: [acfi802]))
      "acfi 801".toList = some acfi801 ∧
    getCourse (processCourseData CourseDataProcessor.new ([] ++ acfi801 :: [acfi802]))
      "acfi 999".toList = none :=
  ⟨by decide, by decide, by decide, by decide,
   (getCourse_loaded [] [acfi802] acfi801 "ACFI 801".toList "acfi 801".toList
      (by decide) (by decide) (by decide) (by decide)).1,
   (getCourse_loaded [] [acfi802] acfi801 "ACFI 801".toList "acfi 801".toList
      (by decide) (by decide) (by decide) (by decide)).2 "acfi 999".toList
      (by decide) (by decide)⟩

/-! ## The loader -/

theorem processCourseDataArray_records (records : List Course) (dp : CourseDataProcessor) :
    processCourseDataArray dp (records.map some) = (processCourseData dp records, true) := by
  induction records generalizing dp with
  | nil => rfl
  | cons course rest ih =>
    simp only [List.map_cons, processCourseDataArray, processCourseData, ih]

theorem processCourseDataArray_false (catalogData : List (Option Course))
    (dp : CourseDataProcessor) :
    (processCourseDataArray dp catalogData).2 = false ↔ none ∈ catalogData := by
  induction catalogData generalizing dp with
  | nil => simp [processCourseDataArray]
  | cons x rest ih =>
    cases x with
    | none => simp [processCourseDataArray]
    | some course => simp [processCourseDataArray, ih]

/-- C17, counterexample: loading the empty sequence is reported as success,
and so is loading a record without code and title, which is stored under the
key `undefined`. -/
theorem fetchCourseData_reports_success :
    fetchCourseData CourseDataProcessor.new [] = (true, CourseDataProcessor.new) ∧
    (fetchCourseData CourseDataProcessor.new
      [some { acfi801 with code := .undefined, title := .undefined }]).1 = true ∧
    mapGet (fetchCourseData CourseDataProcessor.new
        [some { acfi801 with code := .undefined, title := .undefined }]).2.courses .undefined
      = some { acfi801 with code := .undefined, title := .undefined } := by
  decide

/-- C17, amended: loading any sequence of records, the empty one and one with
records that lack code or title included, is reported as success (`true`), and
every record is stored under its code, a record without code under the key
`undefined`; the loader returns `false` exactly when an element of the
sequence is `null` or `undefined`, where the loop throws; no exception
escapes. -/
theorem fetchCourseData_no_validation (dp : CourseDataProcessor) (records : List Course)
    (catalogData : List (Option Course)) :
    fetchCourseData dp (records.map some) = (true, processCourseData dp records) ∧
    (∀ r ∈ records, ∃ r' ∈ records, r'.code = r.code ∧
      mapGet (fetchCourseData dp (records.map some)).2.courses r.code = some r') ∧
    ((fetchCourseData dp catalogData).1 = false ↔ none ∈ catalogData) := by
  have h : fetchCourseData dp (records.map some) = (true, processCourseData dp records) := by
    simp only [fetchCourseData, processCourseDataArray_records]
  refine ⟨h, ?_, ?_⟩
  · intro r hr
    rw [h]
    exact processCourseData_stores records dp r.code ⟨r, hr, rfl⟩
  · simp only [fetchCourseData]
    exact processCourseDataArray_false catalogData dp

/-- C17, witness: the record without code in a one-record sequence. -/
theorem fetchCourseData_no_validation_witness :
    ∃ r' ∈ [({ acfi801 with code := .undefined, title := .undefined } : Course)],
      r'.code = .undefined ∧
      mapGet (fetchCourseData CourseDataProcessor.new
        ([({ acfi801 with code := .undefined, title := .undefined } : Course)].map some)).2.courses
        .undefined = some r' :=
  (fetchCourseData_no_validation CourseDataProcessor.new
    [{ acfi801 with code := .undefined, title := .undefined }] []).2.1
    { acfi801 with code := .undefined, title := .undefined } (List.mem_cons_self _ _)

/-! ## Comparison -/

/-- C18 (the code at the failing input): with ACFI 801 and ACFI 802 in the
corpus, the literals "acfi801" and "acfi802", which match the course-code
pattern, are normalised to "ACFI801" and "ACFI802", found under no key, and
skipped: the response is the heading alone.  Written with a space, both
courses are rendered. -/
theorem generateComparisonResponse_skips_unspaced :
    matchAllCodes "acfi801 acfi802".toList = ["acfi801".toList, "acfi802".toList] ∧
    classifyIntent "acfi801".toList = .specific_course "ACFI 801".toList ∧
    getCourse (processCourseData CourseDataProcessor.new [acfi801, acfi802])
      "ACFI 801".toList = some acfi801 ∧
    toUpperCase (collapseSpaces "acfi801".toList) = "ACFI801".toList ∧
    generateComparisonResponse (processCourseData CourseDataProcessor.new [acfi801, acfi802])
      ["acfi801".toList, "acfi802".toList] = some "<h3>Course Comparison:</h3>".toList ∧
    generateComparisonResponse (processCourseData CourseDataProcessor.new [acfi801, acfi802])
      ["acfi 801".toList, "acfi  802".toList]
      = some ("<h3>Course Comparison:</h3>".toList ++ formatCourseResponse acfi801 ++
          formatCourseResponse acfi802) :=
  ⟨by decide, by decide, by decide, by decide, by decide, rfl⟩

/-! ## Topic answers -/

theorem coursesOf_of_all_some (l : List Info) (h : ∀ info ∈ l, ∃ r, info.course = some r) :
    coursesOf l = some (l.filterMap (fun info => info.course)) := by
  induction l with
  | nil => rfl
  | cons info rest ih =>
    obtain ⟨r, hr⟩ := h info (List.mem_cons_self _ _)
    have hrest := ih (fun i hi => h i (List.mem_cons_of_mem _ hi))
    simp only [coursesOf, hr, hrest, List.filterMap_cons]

/-- C19, counterexample: in the corpus holding only ACFI 803 exactly one
description contains "derivative" (inside the word "derivatives"); the query
"derivative" is classified `topic_search`, no document has the token
`derivative`, nothing is retrieved, and the answer is the notice that no
courses were found. -/
theorem answerQuery_derivative_not_found :
    includes (toLowerCase acfi803.description.toStr) "derivative".toList = true ∧
    classifyIntent (toLowerCase "derivative".toList) = .topic_search "derivative".toList ∧
    retrieveRelevantInfo (processCourseData CourseDataProcessor.new [acfi803])
      "derivative".toList = [] ∧
    answerQuery (processCourseData CourseDataProcessor.new [acfi803]) "derivative".toList
      = some "<p>No courses found specifically related to \"derivative\". Try asking about specific course codes or browse all courses.</p>".toList := by
  decide

/-- C19, amended: for every corpus loaded from records the query "derivative"
is classified `topic_search` with the topic "derivative", and the answer is
made from the retrieved hits (top 8, similarity above 0.1) whose text contains
"derivative": the notice that no courses were found when there is none, and
otherwise the heading followed by one card for each distinct course of those
hits.  For the corpus of ACFI 801 and ACFI 804 the answer is the heading and
the one card of ACFI 804. -/
theorem answerQuery_derivative (records : List Course) :
    classifyIntent (toLowerCase "derivative".toList) = .topic_search "derivative".toList ∧
    answerQuery (processCourseData CourseDataProcessor.new records) "derivative".toList
      = some
          (if (uniqByCode (((retrieveRelevantInfo
                (processCourseData CourseDataProcessor.new records) "derivative".toList).filter
                (fun info => includes (toLowerCase info.relevantText) "derivative".toList)).filterMap
                (fun info => info.course))).length = 0 then
            "<p>No courses found specifically related to \"".toList ++ "derivative".toList ++
              "\". Try asking about specific course codes or browse all courses.</p>".toList
          else
            (uniqByCode (((retrieveRelevantInfo
                (processCourseData CourseDataProcessor.new records) "derivative".toList).filter
                (fun info => includes (toLowerCase info.relevantText) "derivative".toList)).filterMap
                (fun info => info.course))).foldl
              (fun response course => response ++ topicCard course)
              ("<h3>Courses related to \"".toList ++ "derivative".toList ++
                "\":</h3>".toList)) ∧
    answerQuery (processCourseData CourseDataProcessor.new [acfi801, acfi804])
        "derivative".toList
      = some ("<h3>Courses related to \"derivative\":</h3>".toList ++ topicCard acfi804) := by
  have hcl : classifyIntent (toLowerCase "derivative".toList)
      = .topic_search "derivative".toList := by decide
  have hlow : toLowerCase "derivative".toList = "derivative".toList := by decide
  refine ⟨hcl, ?_, by decide⟩
  have hall : ∀ info ∈ (retrieveRelevantInfo
      (processCourseData CourseDataProcessor.new records) "derivative".toList).filter
      (fun info => includes (toLowerCase info.relevantText) "derivative".toList),
      ∃ r, info.course = some r := by
    intro info hinfo
    obtain ⟨r, hr, _⟩ := retrieved_course _
      (processCourseData_consistent records _ new_consistent) "derivative".toList info
      (List.mem_of_mem_filter hinfo)
    exact ⟨r, hr⟩
  have hcl' : classifyIntent "derivative".toList = .topic_search "derivative".toList := by
    decide
  simp only [answerQuery, generateResponse, hlow, hcl', generateTopicResponse,
    coursesOf_of_all_some _ hall]
  split <;> rfl

/-! ## The empty corpus -/

theorem classifyIntent_comparison_nil (query : Str) (courses : List Str)
    (h : classifyIntent query = .comparison courses) : courses = [] := by
  unfold classifyIntent at h
  split at h
  · exact absurd h (by simp)
  · rename_i hnone
    split at h
    · exact absurd h (by simp)
    · split at h
      · exact absurd h (by simp)
      · split at h
        · simp only [Intent.comparison.injEq] at h
          rw [← h]
          exact matchAllAux_zero_of_matchCode_none query hnone
        · split at h
          · exact absurd h (by simp)
          · split at h <;> exact absurd h (by simp)

theorem retrieveRelevantInfo_new (query : Str) :
    retrieveRelevantInfo CourseDataProcessor.new query = [] := by
  simp [retrieveRelevantInfo, semanticSearch, searchResults, CourseDataProcessor.new,
    sortBySimilarity]

/-- C20: on the empty corpus the pipeline returns, for every query and without
throwing, the message of the query's intent: the not-found message naming the
code for `specific_course`, the heading with the notice "No courses found for
this category." for `list_courses`, the request for at least two courses for
`comparison`, the general statement for `prerequisites`, the notice naming the
topic for `topic_search`, the summary with an empty distribution list for
`general_info`, and the default help message for `semantic_search`. -/
theorem answerQuery_empty_corpus (query : Str) :
    answerQuery CourseDataProcessor.new query
      = some
          (match classifyIntent (toLowerCase query) with
           | .specific_course courseCode =>
             "I couldn\x27t find information about ".toList ++ courseCode ++
               ". Please check the course code and try again.".toList
           | .list_courses category =>
             "<h3>".toList ++
               (if category = "finance".toList then "Finance-Related Courses".toList
                else if category = "accounting".toList then "Accounting-Related Courses".toList
                else "All ACFI Courses".toList) ++
               ":</h3>".toList ++ "<p>No courses found for this category.</p>".toList
           | .prerequisites =>
             "<p>Most ACFI courses do not have specific prerequisites listed. However, some advanced courses may require foundational knowledge.</p>".toList
           | .comparison _ => "Please specify at least two courses to compare.".toList
           | .topic_search topic =>
             "<p>No courses found specifically related to \"".toList ++ topic ++
               "\". Try asking about specific course codes or browse all courses.</p>".toList
           | .general_info =>
             "<h3>Course Information Summary:</h3><h4>Credit Distribution:</h4><ul></ul><p>Most ACFI courses are 3 credits and use Letter Grading. Some courses may be repeated for additional credits.</p>".toList
           | .semantic_search => getDefaultResponse) := by
  simp only [answerQuery, generateResponse, retrieveRelevantInfo_new]
  cases hcl : classifyIntent (toLowerCase query) with
  | specific_course courseCode => rfl
  | list_courses category =>
    by_cases h1 : category = "finance".toList
    · subst h1; rfl
    · by_cases h2 : category = "accounting".toList
      · subst h2; rfl
      · simp only [generateCourseListResponse, h1, h2, if_false]
        rfl
  | prerequisites => rfl
  | comparison courses =>
    have := classifyIntent_comparison_nil _ _ hcl
    subst this
    rfl
  | topic_search topic => rfl
  | general_info => rfl
  | semantic_search => rfl

/-! ## The list and topic rules of the classifier -/

/-- C24: a query with no course code that contains "list" together with
"course" or "all" is classified `list_courses`; the category is "finance" when
the query contains "finance" (also when it contains "accounting" as well),
otherwise "accounting" when it contains "accounting", otherwise "all". -/
theorem classifyIntent_list_category (query : Str)
    (hcode : matchCode query = none)
    (hlist : includes query "list".toList = true)
    (hwhat : includes query "course".toList = true ∨ includes query "all".toList = true) :
    (includes query "finance".toList = true →
      classifyIntent query = .list_courses "finance".toList) ∧
    (includes query "finance".toList = false → includes query "accounting".toList = true →
      classifyIntent query = .list_courses "accounting".toList) ∧
    (includes query "finance".toList = false → includes query "accounting".toList = false →
      classifyIntent query = .list_courses "all".toList) := by
  have htest : (includes query "list".toList &&
      (includes query "course".toList || includes query "all".toList)) = true := by
    rcases hwhat with h | h
    · rw [hlist, h]; rfl
    · rw [hlist, h, Bool.or_true]; rfl
  refine ⟨fun hf => ?_, fun hf ha => ?_, fun hf ha => ?_⟩
  · simp only [classifyIntent, hcode, htest, hf, if_true]
  · simp only [classifyIntent, hcode, htest, hf, ha, if_true]
    rfl
  · simp only [classifyIntent, hcode, htest, hf, ha, if_true]
    rfl

/-- C24, witness: "list all finance and accounting courses" has the category
"finance". -/
theorem classifyIntent_list_category_witness :
    classifyIntent "list all finance and accounting courses".toList
      = .list_courses "finance".toList :=
  (classifyIntent_list_category "list all finance and accounting courses".toList
    (by decide) (by decide) (Or.inl (by decide))).1 (by decide)

/-- C25: a query that reaches the topic rule (no course code, no list request,
no prerequisites request, no comparison request) and contains a word of the
vocabulary is classified `topic_search` with the first entry of the vocabulary,
in the order of the list, that the query contains: the vocabulary splits into
the entries before it, none of which the query contains, the entry itself, and
the entries after it. -/
theorem classifyIntent_topic_earliest (query : Str)
    (hcode : matchCode query = none)
    (hlist : ruleListCourses query = none)
    (hprereq : rulePrerequisites query = none)
    (hcompare : ruleComparison query = none)
    (hsome : ∃ word ∈ topics, includes query word = true) :
    ∃ before topic after,
      topics = before ++ topic :: after ∧
      includes query topic = true ∧
      (∀ word ∈ before, includes query word = false) ∧
      classifyIntent query = .topic_search topic := by
  have hl : (includes query "list".toList &&
      (includes query "course".toList || includes query "all".toList)) = false := by
    simp only [ruleListCourses] at hlist
    split at hlist
    · exact absurd hlist (by simp)
    · rename_i hne; simpa using hne
  have hp : (includes query "prerequisite".toList || includes query "prereq".toList) = false := by
    simp only [rulePrerequisites] at hprereq
    split at hprereq
    · exact absurd hprereq (by simp)
    · rename_i hne; simpa using hne
  have hc : (decide ((matchAllCodes query).length > 1) || includes query "compare".toList ||
      includes query "difference".toList) = false := by
    simp only [ruleComparison] at hcompare
    split at hcompare
    · exact absurd hcompare (by simp)
    · rename_i hne; simpa using hne
  obtain ⟨word, hmem, hword⟩ := hsome
  cases hfind : topics.find? (fun topic => includes query topic) with
  | none =>
    rw [List.find?_eq_none] at hfind
    exact absurd hword (hfind word hmem)
  | some topic =>
    have hcl : classifyIntent query = .topic_search topic := by
      simp only [classifyIntent, hcode, hl, hp, hc, hfind]
      rfl
    obtain ⟨htopic, before, after, hsplit, hbefore⟩ := List.find?_eq_some.mp hfind
    exact ⟨before, topic, after, hsplit, htopic,
      fun w hw => by simpa using hbefore w hw, hcl⟩

/-- C25, witness: "courses on tax and audit" contains "tax" and "audit" and
carries "audit", the earlier of the two in the vocabulary. -/
theorem classifyIntent_topic_earliest_witness :
    ∃ before topic after,
      topics = before ++ topic :: after ∧
      includes "courses on tax and audit".toList topic = true ∧
      (∀ word ∈ before, includes "courses on tax and audit".toList word = false) ∧
      classifyIntent "courses on tax and audit".toList = .topic_search topic :=
  classifyIntent_topic_earliest "courses on tax and audit".toList
    (by decide) (by decide) (by decide) (by decide)
    ⟨"tax".toList, by decide, by decide⟩

/-- C29: when `classifyIntent` returns the comparison intent, the list of
course codes it carries is empty; `generateResponse` then answers "Please
specify at least two courses to compare." for every store and every list of
hits. -/
theorem classifyIntent_comparison_carries_no_code (query : Str) :
    (∀ courses, classifyIntent query = .comparison courses → courses = []) ∧
    (∀ courses, classifyIntent (toLowerCase query) = .comparison courses →
      ∀ dp retrievedInfo, generateResponse dp query retrievedInfo
        = some "Please specify at least two courses to compare.".toList) := by
  refine ⟨fun courses h => classifyIntent_comparison_nil query courses h, ?_⟩
  intro courses h dp retrievedInfo
  have hnil := classifyIntent_comparison_nil _ _ h
  subst hnil
  simp only [generateResponse, h]
  rfl

/-- C29 at "compare the courses on investments": the query is classified as a
comparison, carries no code, and gets the request to name two courses. -/
theorem classifyIntent_comparison_carries_no_code_witness :
    classifyIntent "compare the courses on investments".toList = .comparison [] ∧
    generateResponse CourseDataProcessor.new "Compare the courses on investments".toList []
      = some "Please specify at least two courses to compare.".toList :=
  ⟨by decide,
   (classifyIntent_comparison_carries_no_code "Compare the courses on investments".toList).2
     [] (by decide) CourseDataProcessor.new []⟩

/-! ## The full course detail -/

theorem includes_iff (s needle : Str) :
    includes s needle = true ↔ ∃ pre post, s = pre ++ (needle ++ post) := by
  induction s with
  | nil =>
    constructor
    · intro h
      have : needle = [] := by simpa [includes] using h
      exact ⟨[], [], by simp [this]⟩
    · rintro ⟨pre, post, h⟩
      have h1 : pre = [] ∧ needle = [] ∧ post = [] := by simpa using h.symm
      simp [includes, h1.2.1]
  | cons c cs ih =>
    constructor
    · intro h
      simp only [includes, Bool.or_eq_true] at h
      rcases h with h | h
      · rw [List.isPrefixOf_iff_prefix] at h
        obtain ⟨post, hpost⟩ := h
        exact ⟨[], post, by simp [hpost]⟩
      · obtain ⟨pre, post, hcs⟩ := ih.mp h
        exact ⟨c :: pre, post, by simp [hcs]⟩
    · rintro ⟨pre, post, h⟩
      simp only [includes, Bool.or_eq_true]
      cases pre with
      | nil =>
        left
        rw [List.isPrefixOf_iff_prefix]
        exact ⟨post, by simpa using h.symm⟩
      | cons p pre =>
        right
        simp only [List.cons_append, List.cons.injEq] at h
        exact ih.mpr ⟨pre, post, h.2⟩

theorem includes_self (needle : Str) : includes needle needle = true :=
  (includes_iff _ _).mpr ⟨[], [], by simp⟩

theorem includes_append_left (s t needle : Str) (h : includes s needle = true) :
    includes (s ++ t) needle = true := by
  obtain ⟨pre, post, hs⟩ := (includes_iff _ _).mp h
  exact (includes_iff _ _).mpr ⟨pre, post ++ t, by simp [hs]⟩

theorem includes_append_right (s t needle : Str) (h : includes t needle = true) :
    includes (s ++ t) needle = true := by
  obtain ⟨pre, post, ht⟩ := (includes_iff _ _).mp h
  exact (includes_iff _ _).mpr ⟨s ++ pre, post, by simp [ht]⟩

theorem includes_pieces (a code b title c credits d description e p r m q g f : Str) :
    includes (a ++ code ++ b ++ title ++ c ++ credits ++ d ++ description ++ e ++ p ++ r ++ m ++
      q ++ g ++ f) code = true ∧
    includes (a ++ code ++ b ++ title ++ c ++ credits ++ d ++ description ++ e ++ p ++ r ++ m ++
      q ++ g ++ f) title = true ∧
    includes (a ++ code ++ b ++ title ++ c ++ credits ++ d ++ description ++ e ++ p ++ r ++ m ++
      q ++ g ++ f) credits = true ∧
    includes (a ++ code ++ b ++ title ++ c ++ credits ++ d ++ description ++ e ++ p ++ r ++ m ++
      q ++ g ++ f) description = true ∧
    includes (a ++ code ++ b ++ title ++ c ++ credits ++ d ++ description ++ e ++ p ++ r ++ m ++
      q ++ g ++ f) p = true ∧
    includes (a ++ code ++ b ++ title ++ c ++ credits ++ d ++ description ++ e ++ p ++ r ++ m ++
      q ++ g ++ f) r = true ∧
    includes (a ++ code ++ b ++ title ++ c ++ credits ++ d ++ description ++ e ++ p ++ r ++ m ++
      q ++ g ++ f) m = true ∧
    includes (a ++ code ++ b ++ title ++ c ++ credits ++ d ++ description ++ e ++ p ++ r ++ m ++
      q ++ g ++ f) q = true ∧
    includes (a ++ code ++ b ++ title ++ c ++ credits ++ d ++ description ++ e ++ p ++ r ++ m ++
      q ++ g ++ f) g = true := by
  refine ⟨?_, ?_, ?_, ?_, ?_, ?_, ?_, ?_, ?_⟩ <;>
    repeat' (first
      | exact includes_append_right _ _ _ (includes_self _)
      | apply includes_append_left)

/-- C21: the full course detail is the card with the code, title, credits and
description of the record, then the Prerequisites line, the Repeat Rule line,
the Mutual Exclusion line and the Equivalent line, each exactly when its field
is present (truthy), then the Grade Mode line, then the closing tags; the
code, title, credits, description and the Grade Mode line occur in it for every
record.  For ACFI 801 it shows the title and "Credits: 3", and the word
"Prerequisites" does not occur in it. -/
theorem formatCourseResponse_lines (course : Course) :
    formatCourseResponse course =
      ("\n            <div class=\"course-card\">\n                <div class=\"course-title\">".toList ++
        course.code.toStr ++ " - ".toList ++ course.title.toStr ++
        "</div>\n                <div class=\"course-credits\">Credits: ".toList ++
        course.credits.toStr ++
        "</div>\n                <div class=\"course-description\">".toList ++
        course.description.toStr ++
        "</div>\n                <div class=\"course-details\">\n        ".toList) ++
      (if course.prerequisites.truthy then
        "<p><strong>Prerequisites:</strong> ".toList ++ course.prerequisites.toStr ++ "</p>".toList
       else []) ++
      (if course.repeatRule.truthy then
        "<p><strong>Repeat Rule:</strong> ".toList ++ course.repeatRule.toStr ++ "</p>".toList
       else []) ++
      (if course.mutualExclusion.truthy then
        "<p><strong>Mutual Exclusion:</strong> ".toList ++ course.mutualExclusion.toStr ++
          "</p>".toList
       else []) ++
      (if course.equivalent.truthy then
        "<p><strong>Equivalent:</strong> ".toList ++ course.equivalent.toStr ++ "</p>".toList
       else []) ++
      ("<p><strong>Grade Mode:</strong> ".toList ++ course.gradeMode.toStr ++ "</p>".toList) ++
      "</div></div>".toList ∧
    includes (formatCourseResponse course) course.code.toStr = true ∧
    includes (formatCourseResponse course) course.title.toStr = true ∧
    includes (formatCourseResponse course) course.credits.toStr = true ∧
    includes (formatCourseResponse course) course.description.toStr = true ∧
    includes (formatCourseResponse course)
      ("<p><strong>Grade Mode:</strong> ".toList ++ course.gradeMode.toStr ++ "</p>".toList)
      = true ∧
    (course.prerequisites.truthy = true →
      includes (formatCourseResponse course)
        ("<p><strong>Prerequisites:</strong> ".toList ++ course.prerequisites.toStr ++
          "</p>".toList) = true) ∧
    (course.repeatRule.truthy = true →
      includes (formatCourseResponse course)
        ("<p><strong>Repeat Rule:</strong> ".toList ++ course.repeatRule.toStr ++
          "</p>".toList) = true) ∧
    (course.mutualExclusion.truthy = true →
      includes (formatCourseResponse course)
        ("<p><strong>Mutual Exclusion:</strong> ".toList ++ course.mutualExclusion.toStr ++
          "</p>".toList) = true) ∧
    (course.equivalent.truthy = true →
      includes (formatCourseResponse course)
        ("<p><strong>Equivalent:</strong> ".toList ++ course.equivalent.toStr ++
          "</p>".toList) = true) ∧
    includes (formatCourseResponse acfi801) "Corporate Finance".toList = true ∧
    includes (formatCourseResponse acfi801) "Credits: 3".toList = true ∧
    includes (formatCourseResponse acfi801) "Prerequisites".toList = false := by
  have hshape : formatCourseResponse course =
      ("\n            <div class=\"course-card\">\n                <div class=\"course-title\">".toList ++
        course.code.toStr ++ " - ".toList ++ course.title.toStr ++
        "</div>\n                <div class=\"course-credits\">Credits: ".toList ++
        course.credits.toStr ++
        "</div>\n                <div class=\"course-description\">".toList ++
        course.description.toStr ++
        "</div>\n                <div class=\"course-details\">\n        ".toList) ++
      (if course.prerequisites.truthy then
        "<p><strong>Prerequisites:</strong> ".toList ++ course.prerequisites.toStr ++ "</p>".toList
       else []) ++
      (if course.repeatRule.truthy then
        "<p><strong>Repeat Rule:</strong> ".toList ++ course.repeatRule.toStr ++ "</p>".toList
       else []) ++
      (if course.mutualExclusion.truthy then
        "<p><strong>Mutual Exclusion:</strong> ".toList ++ course.mutualExclusion.toStr ++
          "</p>".toList
       else []) ++
      (if course.equivalent.truthy then
        "<p><strong>Equivalent:</strong> ".toList ++ course.equivalent.toStr ++ "</p>".toList
       else []) ++
      ("<p><strong>Grade Mode:</strong> ".toList ++ course.gradeMode.toStr ++ "</p>".toList) ++
      "</div></div>".toList := by
    unfold formatCourseResponse
    cases course.prerequisites.truthy <;> cases course.repeatRule.truthy <;>
      cases course.mutualExclusion.truthy <;> cases course.equivalent.truthy <;>
      simp only [Bool.false_eq_true, if_true, if_false, List.append_nil]
  refine ⟨hshape, ?_, ?_, ?_, ?_, ?_, ?_, ?_, ?_, ?_, by decide, by decide, by decide⟩
  · rw [hshape]; exact (includes_pieces _ _ _ _ _ _ _ _ _ _ _ _ _ _ _).1
  · rw [hshape]; exact (includes_pieces _ _ _ _ _ _ _ _ _ _ _ _ _ _ _).2.1
  · rw [hshape]; exact (includes_pieces _ _ _ _ _ _ _ _ _ _ _ _ _ _ _).2.2.1
  · rw [hshape]; exact (includes_pieces _ _ _ _ _ _ _ _ _ _ _ _ _ _ _).2.2.2.1
  · rw [hshape]; exact (includes_pieces _ _ _ _ _ _ _ _ _ _ _ _ _ _ _).2.2.2.2.2.2.2.2
  · intro h
    rw [hshape, h, if_pos rfl]; exact (includes_pieces _ _ _ _ _ _ _ _ _ _ _ _ _ _ _).2.2.2.2.1
  · intro h
    rw [hshape, h, if_pos rfl]; exact (includes_pieces _ _ _ _ _ _ _ _ _ _ _ _ _ _ _).2.2.2.2.2.1
  · intro h
    rw [hshape, h, if_pos rfl]; exact (includes_pieces _ _ _ _ _ _ _ _ _ _ _ _ _ _ _).2.2.2.2.2.2.1
  · intro h
    rw [hshape, h, if_pos rfl]
    exact (includes_pieces _ _ _ _ _ _ _ _ _ _ _ _ _ _ _).2.2.2.2.2.2.2.1

/-- C21 at ACFI 804, whose prerequisites are present: the detail has the
Prerequisites line. -/
theorem formatCourseResponse_lines_witness :
    includes (formatCourseResponse acfi804)
      ("<p><strong>Prerequisites:</strong> ".toList ++ acfi804.prerequisites.toStr ++
        "</p>".toList) = true :=
  (formatCourseResponse_lines acfi804).2.2.2.2.2.2.1 (by decide)

/-! ## Course lists -/

theorem foldl_append_flatMap {α : Type} (f : α → Str) (l : List α) (init : Str) :
    l.foldl (fun response x => response ++ f x) init = init ++ l.flatMap f := by
  induction l generalizing init with
  | nil => simp
  | cons x rest ih => simp [ih]

theorem processCourseData_courses_append (records : List Course) (dp : CourseDataProcessor)
    (hnodup : (records.map (fun r => r.code)).Nodup)
    (hnew : ∀ entry ∈ dp.courses, ∀ r ∈ records, entry.1 ≠ r.code) :
    (processCourseData dp records).courses
      = dp.courses ++ records.map (fun r => (r.code, r)) := by
  induction records generalizing dp with
  | nil => simp [processCourseData]
  | cons course rest ih =>
    simp only [List.map_cons, List.nodup_cons, List.mem_map, not_exists, not_and] at hnodup
    obtain ⟨hfresh, hrest⟩ := hnodup
    have hset : mapSet dp.courses course.code course = dp.courses ++ [(course.code, course)] :=
      mapSet_append_of_not_mem _ _ _
        (fun entry he => hnew entry he course (List.mem_cons_self _ _))
    simp only [processCourseData]
    rw [ih _ hrest, hset]
    · simp
    · intro entry he r hr
      show entry.1 ≠ r.code
      rw [hset] at he
      rcases List.mem_append.mp he with he | he
      · exact hnew entry he r (List.mem_cons_of_mem _ hr)
      · simp only [List.mem_singleton] at he
        subst he
        exact fun heq => hfresh r hr heq.symm

theorem listCard_flatMap_ne_notice (courses : List Course) :
    courses.flatMap listCard ≠ "<p>No courses found for this category.</p>".toList := by
  cases courses with
  | nil => decide
  | cons course rest =>
    intro h
    have h0 := congrArg List.head? h
    simp [listCard] at h0

/-- C22: for the category "all" the answer is the heading "All ACFI Courses"
followed by one card per record of the store, in the order of the store, or by
the notice "No courses found for this category." when the store is empty; for
"finance" and "accounting" it is the heading of the category followed by the
cards of the records that `getCoursesByCategory` returns, or by the notice when
that list is empty.  The cards of a list of records never read as the notice.
A store built from records with distinct codes holds exactly these records in
their order, and "list all courses" on the corpus ACFI 801, 802, 803 gives the
three cards of these courses. -/
theorem generateCourseListResponse_cards (dp : CourseDataProcessor) :
    generateCourseListResponse dp "all".toList
      = some ("<h3>".toList ++ "All ACFI Courses".toList ++ ":</h3>".toList ++
          (if getAllCourses dp = [] then "<p>No courses found for this category.</p>".toList
           else (getAllCourses dp).flatMap listCard)) ∧
    (∃ courses, getCoursesByCategory dp "finance".toList = some courses ∧
      generateCourseListResponse dp "finance".toList
        = some ("<h3>".toList ++ "Finance-Related Courses".toList ++ ":</h3>".toList ++
            (if courses = [] then "<p>No courses found for this category.</p>".toList
             else courses.flatMap listCard))) ∧
    (∃ courses, getCoursesByCategory dp "accounting".toList = some courses ∧
      generateCourseListResponse dp "accounting".toList
        = some ("<h3>".toList ++ "Accounting-Related Courses".toList ++ ":</h3>".toList ++
            (if courses = [] then "<p>No courses found for this category.</p>".toList
             else courses.flatMap listCard))) ∧
    (∀ courses : List Course,
      courses.flatMap listCard ≠ "<p>No courses found for this category.</p>".toList) ∧
    (∀ records : List Course, (records.map (fun r => r.code)).Nodup →
      getAllCourses (processCourseData CourseDataProcessor.new records) = records) ∧
    answerQuery (processCourseData CourseDataProcessor.new [acfi801, acfi802, acfi803])
        "list all courses".toList
      = some ("<h3>".toList ++ "All ACFI Courses".toList ++ ":</h3>".toList ++
          (listCard acfi801 ++ listCard acfi802 ++ listCard acfi803)) := by
  have hgen : ∀ (courses : List Course) (heading : Str),
      (if courses.length = 0 then
          some ("<h3>".toList ++ heading ++ ":</h3>".toList ++
            "<p>No courses found for this category.</p>".toList)
        else some (courses.foldl (fun response course => response ++ listCard course)
          ("<h3>".toList ++ heading ++ ":</h3>".toList)))
      = some ("<h3>".toList ++ heading ++ ":</h3>".toList ++
          (if courses = [] then "<p>No courses found for this category.</p>".toList
           else courses.flatMap listCard)) := by
    intro courses heading
    cases courses with
    | nil => rfl
    | cons course rest =>
      rw [if_neg (by simp), if_neg (by simp), foldl_append_flatMap]
  refine ⟨?_, ⟨_, rfl, ?_⟩, ⟨_, rfl, ?_⟩, listCard_flatMap_ne_notice, ?_, by rfl⟩
  · exact hgen (getAllCourses dp) "All ACFI Courses".toList
  · exact hgen _ "Finance-Related Courses".toList
  · exact hgen _ "Accounting-Related Courses".toList
  · intro records hnodup
    rw [getAllCourses, processCourseData_courses_append records CourseDataProcessor.new hnodup
      (fun entry he => by simp [CourseDataProcessor.new] at he)]
    simp [CourseDataProcessor.new, Function.comp_def]

/-- C22 at the corpus ACFI 801, 802, 803, whose codes are distinct: the store
holds the three records in their order. -/
theorem generateCourseListResponse_cards_witness :
    getAllCourses (processCourseData CourseDataProcessor.new [acfi801, acfi802, acfi803])
      = [acfi801, acfi802, acfi803] :=
  (generateCourseListResponse_cards CourseDataProcessor.new).2.2.2.2.1
    [acfi801, acfi802, acfi803] (by decide)

/-! ## De-duplication by code -/

theorem uniqByCode_eq_nil (l : List Course) : uniqByCode l = [] ↔ l = [] := by
  cases l <;> simp [uniqByCode]

theorem uniqByCode_sublist (l : List Course) : (uniqByCode l).Sublist l := by
  induction l with
  | nil => exact List.Sublist.slnil
  | cons c rest ih =>
    exact List.Sublist.cons₂ c ((List.filter_sublist _).trans ih)

theorem uniqByCode_nodup (l : List Course) : ((uniqByCode l).map (fun c => c.code)).Nodup := by
  induction l with
  | nil => exact List.nodup_nil
  | cons c rest ih =>
    simp only [uniqByCode, List.map_cons, List.nodup_cons]
    constructor
    · intro hmem
      obtain ⟨x, hx, hcode⟩ := List.mem_map.mp hmem
      have := (List.mem_filter.mp hx).2
      simp only [decide_eq_true_eq] at this
      exact this hcode
    · exact ih.sublist ((List.filter_sublist _).map _)

theorem uniqByCode_first (l : List Course) :
    ∀ c ∈ l, ∃ first ∈ uniqByCode l, first.code = c.code ∧
      l.find? (fun x => decide (x.code = c.code)) = some first := by
  induction l with
  | nil => intro c hc; simp at hc
  | cons a rest ih =>
    intro c hc
    by_cases hac : a.code = c.code
    · exact ⟨a, List.mem_cons_self _ _, hac, by simp [List.find?, hac]⟩
    · have hc' : c ∈ rest := by
        rcases List.mem_cons.mp hc with rfl | h
        · exact absurd rfl hac
        · exact h
      obtain ⟨first, hfirst, hcode, hfind⟩ := ih c hc'
      refine ⟨first, ?_, hcode, by simp [List.find?, hac, hfind]⟩
      simp only [uniqByCode]
      refine List.mem_cons_of_mem _ (List.mem_filter.mpr ⟨hfirst, ?_⟩)
      simp only [decide_eq_true_eq]
      rw [hcode]
      exact fun h => hac h.symm

/-! ## Topic answers, for an ASCII topic

`lowerChar` is `toLowerCase` on ASCII and on the two characters outside ASCII
whose lower-case form contains an ASCII letter.  So for an ASCII topic the
test `text.toLowerCase().includes(topic.toLowerCase())` of the program is the
test of the model, whatever the text: the string searched for is ASCII, and
the ASCII characters of the lower-cased text are the same in both. -/

theorem lowerChar_ascii (c d : Char) (hc : c.toNat < 128) (h : d ∈ lowerChar c) :
    d.toNat < 128 := by
  unfold lowerChar at h
  split at h
  · rename_i hu
    simp only [List.mem_singleton] at h
    subst h
    have hb : 65 ≤ c.toNat ∧ c.toNat ≤ 90 := by simpa [isUpperAscii] using hu
    obtain ⟨h1, h2⟩ := hb
    generalize c.toNat = n at h1 h2
    interval_cases n <;> decide
  · split at h
    · rename_i h1
      have : c.toNat = 8490 := by simpa using h1
      omega
    · split at h
      · rename_i h1
        have : c.toNat = 304 := by simpa using h1
        omega
      · simp only [List.mem_singleton] at h
        subst h
        exact hc

theorem isAscii_toLowerCase (s : Str) (h : isAscii s = true) :
    isAscii (toLowerCase s) = true := by
  induction s with
  | nil => rfl
  | cons c cs ih =>
    simp only [isAscii, List.all_cons, Bool.and_eq_true, decide_eq_true_eq] at h
    have hcs : isAscii (toLowerCase cs) = true := ih (by simpa [isAscii] using h.2)
    simp only [isAscii, toLowerCase, List.all_append, Bool.and_eq_true, List.all_eq_true,
      decide_eq_true_eq]
    refine ⟨fun d hd => lowerChar_ascii c d h.1 hd, ?_⟩
    simpa [isAscii] using hcs

/-- C26: for an ASCII topic and a list of hits that each carry their course
record, `generateTopicResponse` takes the hits whose text contains the topic,
both in lower case, and their records; when there is none it returns the
notice "No courses found specifically related to" naming the topic, and
otherwise the heading naming the topic followed by one card for each record
kept by the de-duplication.  The notice is returned if and only if no hit
contains the topic.  The de-duplication keeps the records in their order,
keeps no two records of the same code, and for every record keeps the first
record of its code.  The string searched for, the topic in lower case, is
ASCII. -/
theorem generateTopicResponse_relevant (topic : Str) (retrievedInfo : List Info)
    (hascii : isAscii topic = true)
    (hrecords : ∀ info ∈ retrievedInfo, ∃ r, info.course = some r) :
    generateTopicResponse topic retrievedInfo
      = some
          (if (retrievedInfo.filter (fun info =>
                includes (toLowerCase info.relevantText) (toLowerCase topic))) = [] then
            "<p>No courses found specifically related to \"".toList ++ topic ++
              "\". Try asking about specific course codes or browse all courses.</p>".toList
          else
            "<h3>Courses related to \"".toList ++ topic ++ "\":</h3>".toList ++
              (uniqByCode ((retrievedInfo.filter (fun info =>
                  includes (toLowerCase info.relevantText) (toLowerCase topic))).filterMap
                  (fun info => info.course))).flatMap topicCard) ∧
    (generateTopicResponse topic retrievedInfo
        = some ("<p>No courses found specifically related to \"".toList ++ topic ++
            "\". Try asking about specific course codes or browse all courses.</p>".toList)
      ↔ ∀ info ∈ retrievedInfo,
          includes (toLowerCase info.relevantText) (toLowerCase topic) = false) ∧
    (uniqByCode ((retrievedInfo.filter (fun info =>
        includes (toLowerCase info.relevantText) (toLowerCase topic))).filterMap
        (fun info => info.course))).Sublist
      ((retrievedInfo.filter (fun info =>
        includes (toLowerCase info.relevantText) (toLowerCase topic))).filterMap
        (fun info => info.course)) ∧
    ((uniqByCode ((retrievedInfo.filter (fun info =>
        includes (toLowerCase info.relevantText) (toLowerCase topic))).filterMap
        (fun info => info.course))).map (fun c => c.code)).Nodup ∧
    (∀ c ∈ (retrievedInfo.filter (fun info =>
        includes (toLowerCase info.relevantText) (toLowerCase topic))).filterMap
        (fun info => info.course),
      ∃ first ∈ uniqByCode ((retrievedInfo.filter (fun info =>
          includes (toLowerCase info.relevantText) (toLowerCase topic))).filterMap
          (fun info => info.course)),
        first.code = c.code ∧
        ((retrievedInfo.filter (fun info =>
          includes (toLowerCase info.relevantText) (toLowerCase topic))).filterMap
          (fun info => info.course)).find? (fun x => decide (x.code = c.code)) = some first) ∧
    isAscii (toLowerCase topic) = true := by
  have hall : ∀ info ∈ retrievedInfo.filter (fun info =>
      includes (toLowerCase info.relevantText) (toLowerCase topic)),
      ∃ r, info.course = some r :=
    fun info hinfo => hrecords info (List.mem_of_mem_filter hinfo)
  have hnil : (retrievedInfo.filter (fun info =>
        includes (toLowerCase info.relevantText) (toLowerCase topic))).filterMap
        (fun info => info.course) = [] ↔
      retrievedInfo.filter (fun info =>
        includes (toLowerCase info.relevantText) (toLowerCase topic)) = [] := by
    generalize retrievedInfo.filter (fun info =>
        includes (toLowerCase info.relevantText) (toLowerCase topic)) = kept at hall
    cases kept with
    | nil => simp
    | cons info rest =>
      obtain ⟨r, hr⟩ := hall info (List.mem_cons_self _ _)
      simp [List.filterMap_cons, hr]
  have hform : generateTopicResponse topic retrievedInfo
      = some
          (if (retrievedInfo.filter (fun info =>
                includes (toLowerCase info.relevantText) (toLowerCase topic))) = [] then
            "<p>No courses found specifically related to \"".toList ++ topic ++
              "\". Try asking about specific course codes or browse all courses.</p>".toList
          else
            "<h3>Courses related to \"".toList ++ topic ++ "\":</h3>".toList ++
              (uniqByCode ((retrievedInfo.filter (fun info =>
                  includes (toLowerCase info.relevantText) (toLowerCase topic))).filterMap
                  (fun info => info.course))).flatMap topicCard) := by
    simp only [generateTopicResponse, coursesOf_of_all_some _ hall, List.length_eq_zero,
      uniqByCode_eq_nil, hnil, foldl_append_flatMap]
    split <;> rfl
  refine ⟨hform, ?_, uniqByCode_sublist _, uniqByCode_nodup _, uniqByCode_first _,
    isAscii_toLowerCase topic hascii⟩
  rw [hform]
  constructor
  · intro h
    by_cases hkept : retrievedInfo.filter (fun info =>
        includes (toLowerCase info.relevantText) (toLowerCase topic)) = []
    · intro info hinfo
      rw [List.filter_eq_nil_iff] at hkept
      simpa using hkept info hinfo
    · rw [if_neg hkept] at h
      have h1 := congrArg (fun s => (Option.getD s []).get? 1) h
      simp at h1
  · intro h
    rw [if_pos]
    rw [List.filter_eq_nil_iff]
    intro info hinfo
    simp [h info hinfo]

/-- C26 at the ASCII topic "tax" and the two hits of ACFI 803 and ACFI 801 with
their descriptions as text: only the description of ACFI 803 contains "tax",
and the answer is the heading and the card of ACFI 803. -/
theorem generateTopicResponse_relevant_witness :
    isAscii "tax".toList = true ∧
    generateTopicResponse "tax".toList
        [infoOf acfi803 acfi803.description.toStr, infoOf acfi801 acfi801.description.toStr]
      = some ("<h3>Courses related to \"".toList ++ "tax".toList ++ "\":</h3>".toList ++
          topicCard acfi803) :=
  ⟨by decide,
   ((generateTopicResponse_relevant "tax".toList
    [infoOf acfi803 acfi803.description.toStr, infoOf acfi801 acfi801.description.toStr]
    (by decide)
    (fun info hinfo => by
      rcases List.mem_cons.mp hinfo with h | h
      · exact ⟨acfi803, by rw [h]; rfl⟩
      · rw [List.mem_singleton] at h
        exact ⟨acfi801, by rw [h]; rfl⟩)).1).trans (by rfl)⟩

/-! ## Counting with an object -/

theorem ownProp_putOwn (obj : Obj) (k k' : Str) (v : PropVal) :
    ownProp (putOwn obj k v) k' = if k = k' then some v else ownProp obj k' := by
  induction obj with
  | nil => simp [putOwn, ownProp]
  | cons kw rest ih =>
    obtain ⟨k0, w⟩ := kw
    by_cases h0 : k0 = k
    · subst h0
      by_cases h1 : k0 = k' <;> simp [putOwn, ownProp, h1]
    · by_cases h1 : k0 = k'
      · subst h1
        have h2 : ¬ k = k0 := fun h => h0 h.symm
        simp only [putOwn, h0, if_false, ownProp, if_true, h2]
      · simp only [putOwn, h0, if_false, ownProp, h1, ih]

theorem putOwn_allCounts (obj : Obj) (k : Str) (n : Nat) (h : AllCounts obj) :
    AllCounts (putOwn obj k (.count n)) := by
  induction obj with
  | nil =>
    intro kv hkv
    simp only [putOwn, List.mem_singleton] at hkv
    exact ⟨n, by rw [hkv]⟩
  | cons kw rest ih =>
    obtain ⟨k0, w⟩ := kw
    have hrest : AllCounts rest := fun kv hkv => h kv (List.mem_cons_of_mem _ hkv)
    intro kv hkv
    by_cases h0 : k0 = k
    · simp only [putOwn, h0, if_true, List.mem_cons] at hkv
      rcases hkv with rfl | hkv
      · exact ⟨n, rfl⟩
      · exact hrest kv hkv
    · simp only [putOwn, h0, if_false, List.mem_cons] at hkv
      rcases hkv with rfl | hkv
      · exact h _ (List.mem_cons_self _ _)
      · exact ih hrest kv hkv

theorem putOwn_keys_eq (obj : Obj) (k : Str) (v : PropVal) :
    (putOwn obj k v).map Prod.fst
      = if k ∈ obj.map Prod.fst then obj.map Prod.fst else obj.map Prod.fst ++ [k] := by
  induction obj with
  | nil => simp [putOwn]
  | cons kw rest ih =>
    obtain ⟨k0, w⟩ := kw
    by_cases h0 : k0 = k
    · subst h0
      simp only [putOwn, if_true, List.map_cons, List.mem_cons, true_or]
    · have h0' : ¬ k = k0 := fun h => h0 h.symm
      simp only [putOwn, h0, if_false, List.map_cons, ih, List.mem_cons, h0', false_or]
      split <;> simp

theorem addWord_count (obj : Obj) (k : Str) (hk : k ∉ objectPrototypeNames)
    (h : AllCounts obj) :
    addWord obj k = putOwn obj k (.count (countOf obj k + 1)) := by
  have hproto : k ≠ "__proto__".toList := by
    intro heq
    apply hk
    rw [heq]
    decide
  simp only [addWord, setProp, hproto, if_false, getProp, countOf]
  cases hown : ownProp obj k with
  | none => simp only [hk, if_false, orZeroPlusOne]
  | some v =>
    obtain ⟨n, hn⟩ := h (k, v) (ownProp_mem obj k v hown)
    simp only at hn
    subst hn
    simp only [orZeroPlusOne]

theorem foldl_addWord_counts (words : List Str) (obj : Obj)
    (hwords : ∀ k ∈ words, k ∉ objectPrototypeNames)
    (hcounts : AllCounts obj) (hnodup : (obj.map Prod.fst).Nodup) :
    AllCounts (words.foldl (fun o w => addWord o w) obj) ∧
    ((words.foldl (fun o w => addWord o w) obj).map Prod.fst).Nodup ∧
    (∀ k, k ∈ (words.foldl (fun o w => addWord o w) obj).map Prod.fst
      ↔ k ∈ obj.map Prod.fst ∨ k ∈ words) ∧
    ∀ k, countOf (words.foldl (fun o w => addWord o w) obj) k
      = countOf obj k + words.countP (fun w => decide (w = k)) := by
  induction words generalizing obj with
  | nil =>
    refine ⟨hcounts, hnodup, fun k => ?_, fun k => ?_⟩
    · simp only [List.foldl_nil, List.not_mem_nil, or_false]
    · simp only [List.foldl_nil, List.countP_nil, Nat.add_zero]
  | cons w ws ih =>
    have hw : w ∉ objectPrototypeNames := hwords w (List.mem_cons_self _ _)
    have hadd := addWord_count obj w hw hcounts
    have hcounts' : AllCounts (addWord obj w) := by
      rw [hadd]; exact putOwn_allCounts _ _ _ hcounts
    have hkeys : (addWord obj w).map Prod.fst
        = if w ∈ obj.map Prod.fst then obj.map Prod.fst else obj.map Prod.fst ++ [w] := by
      rw [hadd]; exact putOwn_keys_eq _ _ _
    have hnodup' : ((addWord obj w).map Prod.fst).Nodup := by
      rw [hkeys]
      split
      · exact hnodup
      · rename_i hnot
        rw [List.nodup_append]
        refine ⟨hnodup, List.nodup_singleton _, ?_⟩
        intro a ha hb
        rw [List.mem_singleton] at hb
        subst hb
        exact hnot ha
    obtain ⟨h1, h2, h3, h4⟩ := ih (addWord obj w)
      (fun k hk => hwords k (List.mem_cons_of_mem _ hk)) hcounts' hnodup'
    refine ⟨h1, h2, ?_, ?_⟩
    · intro k
      rw [List.foldl_cons, h3 k, hkeys]
      split
      · rename_i hmem
        constructor
        · rintro (h | h)
          · exact Or.inl h
          · exact Or.inr (List.mem_cons_of_mem _ h)
        · rintro (h | h)
          · exact Or.inl h
          · rcases List.mem_cons.mp h with rfl | h
            · exact Or.inl hmem
            · exact Or.inr h
      · simp only [List.mem_append, List.mem_singleton, List.mem_cons]
        tauto
    · intro k
      rw [List.foldl_cons, h4 k]
      have hc : countOf (addWord obj w) k = countOf obj k + (if w = k then 1 else 0) := by
        rw [hadd]
        simp only [countOf, ownProp_putOwn]
        by_cases hwk : w = k
        · subst hwk; simp
        · simp [hwk]
      rw [hc, List.countP_cons]
      by_cases hwk : w = k
      · simp only [hwk, if_true, decide_True]
        omega
      · simp only [hwk, if_false, decide_False, Bool.false_eq_true]
        omega

theorem insertIndexKey_perm (x : Nat × Str) (l : List (Nat × Str)) :
    (insertIndexKey x l).Perm (x :: l) := by
  induction l with
  | nil => exact List.Perm.refl _
  | cons y ys ih =>
    by_cases h : x.1 ≤ y.1
    · simp only [insertIndexKey, h, if_true]
      exact List.Perm.refl _
    · simp only [insertIndexKey, h, if_false]
      exact (List.Perm.cons y ih).trans (List.Perm.swap x y ys)

theorem foldr_insertIndexKey_perm (l : List (Nat × Str)) :
    (l.foldr insertIndexKey []).Perm l := by
  induction l with
  | nil => exact List.Perm.refl _
  | cons y ys ih =>
    simp only [List.foldr_cons]
    exact (insertIndexKey_perm y _).trans (List.Perm.cons y ih)

theorem objectKeys_perm (obj : Obj) : (objectKeys obj).Perm (obj.map Prod.fst) := by
  have hidx : (obj.filterMap (fun kv => (arrayIndex kv.1).map (fun n => (n, kv.1)))).map Prod.snd
      = (obj.map Prod.fst).filter (fun k => (arrayIndex k).isSome) := by
    induction obj with
    | nil => rfl
    | cons kv rest ih =>
      cases h : arrayIndex kv.1 with
      | none => simp [List.filterMap_cons, h, ih]
      | some n => simp [List.filterMap_cons, h, ih]
  unfold objectKeys
  have h1 := ((foldr_insertIndexKey_perm
    (obj.filterMap (fun kv => (arrayIndex kv.1).map (fun n => (n, kv.1))))).map Prod.snd)
  rw [hidx] at h1
  have h2 := List.filter_append_perm (fun k : Str => (arrayIndex k).isSome) (obj.map Prod.fst)
  have h3 : (fun k : Str => !(arrayIndex k).isSome) = (fun k : Str => (arrayIndex k).isNone) := by
    funext k
    cases arrayIndex k <;> rfl
  rw [h3] at h2
  exact (List.Perm.append_right _ h1).trans h2

theorem sum_countP_eq_length (listed words : List Str) (hnodup : listed.Nodup)
    (hmem : ∀ k, k ∈ listed ↔ k ∈ words) :
    (listed.map (fun k => words.countP (fun w => decide (w = k)))).sum = words.length := by
  have hperm : listed.Perm words.dedup := by
    rw [List.perm_ext_iff_of_nodup hnodup (List.nodup_dedup _)]
    intro k
    rw [hmem, List.mem_dedup]
  rw [(hperm.map _).sum_eq]
  exact List.sum_map_count_dedup_eq_length words

theorem ownProp_of_mem_keys (obj : Obj) (k : Str) (h : k ∈ obj.map Prod.fst) :
    ∃ v, ownProp obj k = some v := by
  induction obj with
  | nil => simp at h
  | cons kw rest ih =>
    obtain ⟨k0, w⟩ := kw
    by_cases h0 : k0 = k
    · exact ⟨w, by simp only [ownProp, h0, if_true]⟩
    · have hrest : k ∈ rest.map Prod.fst := by
        simp only [List.map_cons, List.mem_cons] at h
        rcases h with h | h
        · exact absurd h.symm h0
        · exact h
      obtain ⟨v, hv⟩ := ih hrest
      exact ⟨v, by simp only [ownProp, h0, if_false, hv]⟩

theorem flatMap_congr_mem {α : Type} (f g : α → Str) (l : List α)
    (h : ∀ x ∈ l, f x = g x) : l.flatMap f = l.flatMap g := by
  induction l with
  | nil => rfl
  | cons x rest ih =>
    simp only [List.flatMap_cons]
    rw [h x (List.mem_cons_self _ _), ih (fun y hy => h y (List.mem_cons_of_mem _ hy))]

/-! ## The credit distribution -/

/-- C27: the general-information answer does not depend on the retrieved hits.
When no credits value of the store is written like a property name of
`Object.prototype`, the answer lists, between the fixed heading and the fixed
closing sentence, one item for each way a credits value of the store is
written: every such string once, with the number of records of the store whose
credits is written that way, and these numbers add up to the number of records
of the store. -/
theorem generateGeneralInfoResponse_histogram (dp : CourseDataProcessor) :
    (∀ query retrievedInfo retrievedInfo',
      classifyIntent (toLowerCase query) = .general_info →
      generateResponse dp query retrievedInfo = some (generateGeneralInfoResponse dp) ∧
      generateResponse dp query retrievedInfo = generateResponse dp query retrievedInfo') ∧
    ((∀ course ∈ getAllCourses dp, course.credits.toStr ∉ objectPrototypeNames) →
      ∃ listed : List Str,
        listed = objectKeys ((getAllCourses dp).foldl
          (fun creditCounts course => addWord creditCounts course.credits.toStr) []) ∧
        generateGeneralInfoResponse dp
          = "<h3>Course Information Summary:</h3>".toList ++
            "<h4>Credit Distribution:</h4><ul>".toList ++
            listed.flatMap (fun credits =>
              "<li><strong>".toList ++ credits ++ " credits:</strong> ".toList ++
                Nat.toDigits 10
                  ((getAllCourses dp).countP
                    (fun course => decide (course.credits.toStr = credits))) ++
                " courses</li>".toList) ++
            "</ul>".toList ++
            "<p>Most ACFI courses are 3 credits and use Letter Grading. Some courses may be repeated for additional credits.</p>".toList ∧
        listed.Nodup ∧
        (∀ credits, credits ∈ listed ↔
          ∃ course ∈ getAllCourses dp, course.credits.toStr = credits) ∧
        (listed.map (fun credits =>
            (getAllCourses dp).countP
              (fun course => decide (course.credits.toStr = credits)))).sum
          = (getAllCourses dp).length) := by
  constructor
  · intro query retrievedInfo retrievedInfo' hcl
    simp only [generateResponse, hcl, and_self]
  · intro hcredits
    have hfold : (getAllCourses dp).foldl
        (fun creditCounts course => addWord creditCounts course.credits.toStr) []
        = ((getAllCourses dp).map (fun course => course.credits.toStr)).foldl
            (fun o w => addWord o w) [] := by
      rw [List.foldl_map]
    have hwords : ∀ k ∈ (getAllCourses dp).map (fun course => course.credits.toStr),
        k ∉ objectPrototypeNames := by
      intro k hk
      obtain ⟨course, hcourse, rfl⟩ := List.mem_map.mp hk
      exact hcredits course hcourse
    obtain ⟨hcounts, hnodup, hkeys, hcount⟩ := foldl_addWord_counts
      ((getAllCourses dp).map (fun course => course.credits.toStr)) [] hwords
      (fun kv hkv => by simp at hkv) List.nodup_nil
    have hperm := objectKeys_perm (((getAllCourses dp).map
      (fun course => course.credits.toStr)).foldl (fun o w => addWord o w) [])
    refine ⟨_, rfl, ?_, ?_, ?_, ?_⟩
    · simp only [generateGeneralInfoResponse, foldl_append_flatMap]
      rw [hfold]
      congr 3
      apply flatMap_congr_mem
      intro k hk
      have hk' := (mem_objectKeys _ _).mp hk
      obtain ⟨v, hv⟩ := ownProp_of_mem_keys _ k hk'
      obtain ⟨n, hn⟩ := hcounts (k, v) (ownProp_mem _ k v hv)
      simp only at hn
      subst hn
      have hc := hcount k
      simp only [countOf, hv, ownProp, Nat.zero_add, List.countP_map] at hc
      simp only [getProp, hv, PropVal.toStr, hc]
      rfl
    · rw [hfold]
      exact hperm.nodup_iff.mpr hnodup
    · intro credits
      rw [hfold, mem_objectKeys, hkeys]
      simp only [List.map_nil, List.not_mem_nil, false_or, List.mem_map]
    · rw [hfold]
      have hsum := sum_countP_eq_length _
        ((getAllCourses dp).map (fun course => course.credits.toStr))
        (hperm.nodup_iff.mpr hnodup)
        (fun k => by
          rw [mem_objectKeys, hkeys]
          simp only [List.map_nil, List.not_mem_nil, false_or])
      simp only [List.countP_map, List.length_map] at hsum
      exact hsum

/-- C27 at the store of ACFI 801, 802, 803, all worth 3 credits: one item, "3
credits: 3 courses". -/
theorem generateGeneralInfoResponse_histogram_witness :
    generateResponse (processCourseData CourseDataProcessor.new [acfi801, acfi802, acfi803])
        "How many credit hours?".toList []
      = some (generateGeneralInfoResponse
          (processCourseData CourseDataProcessor.new [acfi801, acfi802, acfi803])) ∧
    ∃ listed : List Str,
      listed = ["3".toList] ∧
      generateGeneralInfoResponse
          (processCourseData CourseDataProcessor.new [acfi801, acfi802, acfi803])
        = "<h3>Course Information Summary:</h3>".toList ++
          "<h4>Credit Distribution:</h4><ul>".toList ++
          listed.flatMap (fun credits =>
            "<li><strong>".toList ++ credits ++ " credits:</strong> ".toList ++
              Nat.toDigits 10
                ((getAllCourses (processCourseData CourseDataProcessor.new
                  [acfi801, acfi802, acfi803])).countP
                  (fun course => decide (course.credits.toStr = credits))) ++
              " courses</li>".toList) ++
          "</ul>".toList ++
          "<p>Most ACFI courses are 3 credits and use Letter Grading. Some courses may be repeated for additional credits.</p>".toList :=
  ⟨((generateGeneralInfoResponse_histogram
      (processCourseData CourseDataProcessor.new [acfi801, acfi802, acfi803])).1
      "How many credit hours?".toList [] [] (by decide)).1,
   match (generateGeneralInfoResponse_histogram
      (processCourseData CourseDataProcessor.new [acfi801, acfi802, acfi803])).2
      (by decide) with
   | ⟨listed, hlisted, hresponse, _⟩ => ⟨listed, hlisted.trans (by decide), hresponse⟩⟩

/-! ## Semantic answers -/

theorem semanticCards_eq (dp : CourseDataProcessor) (codes : List Value) (response : Str)
    (hstr : ∀ code ∈ codes, ∃ s, code = Value.str s) :
    semanticCards dp codes response
      = some (response ++
          (codes.filterMap (fun code => (getCourseOfKey dp code).join)).flatMap semanticCard) := by
  induction codes generalizing response with
  | nil => simp [semanticCards]
  | cons code rest ih =>
    obtain ⟨s, hs⟩ := hstr code (List.mem_cons_self _ _)
    subst hs
    have hrest := fun response => ih response (fun c hc => hstr c (List.mem_cons_of_mem _ hc))
    cases hget : getCourse dp s with
    | none =>
      have hk : getCourseOfKey dp (.str s) = some none := by
        simp only [getCourseOfKey, hget]
      have hj : (getCourseOfKey dp (.str s)).join = none := by rw [hk]; rfl
      rw [List.filterMap_cons, hj]
      simp only [semanticCards, hk, hrest]
    | some course =>
      have hk : getCourseOfKey dp (.str s) = some (some course) := by
        simp only [getCourseOfKey, hget]
      have hj : (getCourseOfKey dp (.str s)).join = some course := by rw [hk]; rfl
      rw [List.filterMap_cons, hj]
      simp only [semanticCards, hk, hrest, List.flatMap_cons, List.append_assoc]

/-- C28, counterexample: the store holds ACFI 801 under the code "acfi 801" and
ACFI 802; the query "valuation" is a semantic search whose hits carry the two
distinct codes "acfi 801" and "ACFI 802", and the answer has one card, that of
ACFI 802: `getCourse` looks for "ACFI 801" and the loop skips the code.  With
ACFI 801 alone in the store the single code is not found either and the call
throws. -/
theorem generateSemanticResponse_skips_code :
    classifyIntent (toLowerCase "valuation".toList) = .semantic_search ∧
    (retrieveRelevantInfo (processCourseData CourseDataProcessor.new
        [acfi801LowerCase, acfi802]) "valuation".toList).map (fun info => info.courseCode)
      = [.str "acfi 801".toList, .str "ACFI 802".toList] ∧
    generateSemanticResponse
        (processCourseData CourseDataProcessor.new [acfi801LowerCase, acfi802])
        (retrieveRelevantInfo (processCourseData CourseDataProcessor.new
          [acfi801LowerCase, acfi802]) "valuation".toList)
      = some ("<h3>Related Information:</h3>".toList ++ semanticCard acfi802) ∧
    (retrieveRelevantInfo (processCourseData CourseDataProcessor.new
        [acfi801LowerCase]) "valuation".toList).map (fun info => info.courseCode)
      = [.str "acfi 801".toList] ∧
    generateSemanticResponse
        (processCourseData CourseDataProcessor.new [acfi801LowerCase])
        (retrieveRelevantInfo (processCourseData CourseDataProcessor.new
          [acfi801LowerCase]) "valuation".toList)
      = none := by
  refine ⟨by decide, by decide, by rfl, by decide, by decide⟩

/-- C28, amended: `generateSemanticResponse` returns the default help message
for the empty list of hits.  For a list of hits whose codes are strings it
takes the first 3 hits and the distinct codes among them, in the order of
their first occurrence; there are at most 3.  When exactly one code remains
and `getCourse` finds its record, the answer is the full detail of that
record.  When 2 or 3 codes remain, the answer is the heading "Related
Information" followed by one summary card for each code whose record
`getCourse` finds, in that order; a code that is not found gets no card, and
when every code is found there are as many cards as codes. -/
theorem generateSemanticResponse_cards (dp : CourseDataProcessor) (retrievedInfo : List Info)
    (hstr : ∀ info ∈ retrievedInfo.take 3, info.courseCode = .str info.courseCode.toStr) :
    generateSemanticResponse dp [] = some getDefaultResponse ∧
    (uniq ((retrievedInfo.take 3).map (fun info => info.courseCode))).length ≤ 3 ∧
    (∀ s course, uniq ((retrievedInfo.take 3).map (fun info => info.courseCode)) = [.str s] →
      getCourse dp s = some course →
      generateSemanticResponse dp retrievedInfo = some (formatCourseResponse course)) ∧
    (retrievedInfo ≠ [] →
      (uniq ((retrievedInfo.take 3).map (fun info => info.courseCode))).length ≠ 1 →
      ((uniq ((retrievedInfo.take 3).map (fun info => info.courseCode))).length = 2 ∨
        (uniq ((retrievedInfo.take 3).map (fun info => info.courseCode))).length = 3) ∧
      generateSemanticResponse dp retrievedInfo
        = some ("<h3>Related Information:</h3>".toList ++
            ((uniq ((retrievedInfo.take 3).map (fun info => info.courseCode))).filterMap
              (fun code => (getCourseOfKey dp code).join)).flatMap semanticCard) ∧
      ((∀ code ∈ uniq ((retrievedInfo.take 3).map (fun info => info.courseCode)),
          ∃ s course, code = Value.str s ∧ getCourse dp s = some course) →
        ((uniq ((retrievedInfo.take 3).map (fun info => info.courseCode))).filterMap
            (fun code => (getCourseOfKey dp code).join)).length
          = (uniq ((retrievedInfo.take 3).map (fun info => info.courseCode))).length)) := by
  have hlen : (uniq ((retrievedInfo.take 3).map (fun info => info.courseCode))).length ≤ 3 := by
    have h1 := length_uniq_le ((retrievedInfo.take 3).map (fun info => info.courseCode))
    have h2 : (retrievedInfo.take 3).length ≤ 3 := List.length_take_le 3 retrievedInfo
    rw [List.length_map] at h1
    omega
  have hcodes : ∀ code ∈ uniq ((retrievedInfo.take 3).map (fun info => info.courseCode)),
      ∃ s, code = Value.str s := by
    intro code hcode
    rw [mem_uniq] at hcode
    obtain ⟨info, hinfo, rfl⟩ := List.mem_map.mp hcode
    exact ⟨_, hstr info hinfo⟩
  refine ⟨rfl, hlen, ?_, ?_⟩
  · intro s course huniq hget
    have hne : retrievedInfo.length ≠ 0 := by
      intro h0
      rw [List.length_eq_zero.mp h0] at huniq
      simp [uniq] at huniq
    simp only [generateSemanticResponse, hne, if_false, huniq, getCourseOfKey, hget]
  · intro hne hlen1
    have hne0 : retrievedInfo.length ≠ 0 := fun h0 => hne (List.length_eq_zero.mp h0)
    have hpos : (uniq ((retrievedInfo.take 3).map (fun info => info.courseCode))).length ≠ 0 := by
      cases retrievedInfo with
      | nil => exact absurd rfl hne
      | cons info rest => simp [uniq]
    refine ⟨by omega, ?_, ?_⟩
    · have htake : (uniq ((retrievedInfo.take 3).map (fun info => info.courseCode))).take 3
          = uniq ((retrievedInfo.take 3).map (fun info => info.courseCode)) :=
        List.take_of_length_le hlen
      have hcards := semanticCards_eq dp
        (uniq ((retrievedInfo.take 3).map (fun info => info.courseCode)))
        "<h3>Related Information:</h3>".toList hcodes
      simp only [generateSemanticResponse, hne0, if_false]
      generalize uniq ((retrievedInfo.take 3).map (fun info => info.courseCode)) = codes
        at hlen1 htake hcards
      match codes, hlen1 with
      | [], _ => exact hcards
      | [c], h => exact absurd rfl h
      | c1 :: c2 :: rest, _ =>
        simp only
        rw [htake]
        exact hcards
    · intro hfound
      generalize uniq ((retrievedInfo.take 3).map (fun info => info.courseCode)) = codes
        at hfound
      induction codes with
      | nil => rfl
      | cons code rest ih =>
        obtain ⟨s, course, hs, hget⟩ := hfound code (List.mem_cons_self _ _)
        subst hs
        have hj : (getCourseOfKey dp (.str s)).join = some course := by
          simp only [getCourseOfKey, hget]
          rfl
        rw [List.filterMap_cons, hj]
        simp only [List.length_cons, ih (fun c hc => hfound c (List.mem_cons_of_mem _ hc))]

/-- C28, witness of the amended claim: on the store of ACFI 801 and ACFI 802
the hits of "valuation" carry the two codes and the answer has the two cards,
in the order of the hits. -/
theorem generateSemanticResponse_cards_witness :
    generateSemanticResponse (processCourseData CourseDataProcessor.new [acfi801, acfi802])
        (retrieveRelevantInfo (processCourseData CourseDataProcessor.new [acfi801, acfi802])
          "valuation".toList)
      = some ("<h3>Related Information:</h3>".toList ++
          (semanticCard acfi801 ++ semanticCard acfi802)) :=
  (((generateSemanticResponse_cards
      (processCourseData CourseDataProcessor.new [acfi801, acfi802])
      (retrieveRelevantInfo (processCourseData CourseDataProcessor.new [acfi801, acfi802])
        "valuation".toList)
      (by decide)).2.2.2 (by decide) (by decide)).2.1).trans (by rfl)

/-! ## First occurrences -/

theorem uniq_nodup {α : Type} [DecidableEq α] (l : List α) : (uniq l).Nodup := by
  induction l with
  | nil => exact List.nodup_nil
  | cons x xs ih =>
    simp only [uniq, List.nodup_cons, List.mem_filter, decide_eq_true_eq, ne_eq, not_true,
      and_false, not_false_eq_true, true_and]
    exact ih.sublist (List.filter_sublist _)

theorem uniq_filter_index_aux {α : Type} [DecidableEq α] (xs pre : List α) :
    ((xs.enumFrom pre.length).filter
        (fun p => decide ((pre ++ xs).indexOf p.2 = p.1))).map Prod.snd
      = (uniq xs).filter (fun y => decide (y ∉ pre)) := by
  induction xs generalizing pre with
  | nil => rfl
  | cons x rest ih =>
    have ih' := ih (pre ++ [x])
    simp only [List.length_append, List.length_singleton, List.append_assoc,
      List.singleton_append] at ih'
    simp only [List.enumFrom_cons, uniq, List.filter_cons]
    have hkeep : ∀ y, (decide (y ∉ pre ++ [x])) = (decide (y ≠ x) && decide (y ∉ pre)) := by
      intro y
      by_cases h1 : y = x <;> by_cases h2 : y ∈ pre <;> simp [h1, h2]
    have hrest : (uniq rest).filter (fun y => decide (y ∉ pre ++ [x]))
        = ((uniq rest).filter (fun y => decide (y ≠ x))).filter (fun y => decide (y ∉ pre)) := by
      rw [List.filter_filter]
      congr 1
      funext y
      rw [hkeep y, Bool.and_comm]
    by_cases hx : x ∈ pre
    · have hidx : ¬ (pre ++ x :: rest).indexOf x = pre.length := by
        rw [List.indexOf_append_of_mem hx]
        exact Nat.ne_of_lt (List.indexOf_lt_length.mpr hx)
      simp only [hidx, decide_False, Bool.false_eq_true, if_false, hx, not_true_eq_false]
      rw [ih', hrest]
    · have hidx : (pre ++ x :: rest).indexOf x = pre.length := by
        rw [List.indexOf_append_of_not_mem hx, List.indexOf_cons_self]
        rfl
      simp only [hidx, decide_True, if_true, hx, not_false_eq_true, List.map_cons]
      rw [ih', hrest]

theorem uniq_eq_filter_index {α : Type} [DecidableEq α] (l : List α) :
    uniq l = (l.enum.filter (fun p => decide (l.indexOf p.2 = p.1))).map Prod.snd := by
  have h := uniq_filter_index_aux l []
  simp only [List.length_nil, List.nil_append, List.not_mem_nil, not_false_eq_true,
    decide_True, List.filter_true] at h
  exact h.symm

/-! ## The conversation history -/

/-- C23: a call of `processQuery` whose response is generated without a throw
returns that response and leaves the history it found followed by exactly two
turns: the user turn with the query, then the assistant turn with the
response and, as sources, the codes of the retrieved hits with only the first
occurrence of each code kept (the elements whose index is the index of their
first occurrence), so with no code twice.  Every call, also one that ends in
the `catch` branch, leaves the history it found followed by at least one
turn, so never an empty history; `initialize` leaves the history as it is, and
`clearHistory` leaves the empty history. -/
theorem processQuery_appends_two_turns (bot : RAGChatbot) (catalogData : List (Option Course))
    (query : Str) :
    (∀ response,
      answerQuery
          (if bot.initialized then bot.dataProcessor
           else (fetchCourseData bot.dataProcessor catalogData).2) query = some response →
      (processQuery bot catalogData query).1 = response ∧
      (processQuery bot catalogData query).2.conversationHistory
        = bot.conversationHistory ++
            [{ type := "user".toList, content := query, sources := none },
             { type := "assistant".toList, content := response,
               sources := some (uniq ((retrieveRelevantInfo
                 (if bot.initialized then bot.dataProcessor
                  else (fetchCourseData bot.dataProcessor catalogData).2) query).map
                 (fun info => info.courseCode))) }]) ∧
    (∀ codes : List Value,
      uniq codes
        = (codes.enum.filter (fun p => decide (codes.indexOf p.2 = p.1))).map Prod.snd ∧
      (uniq codes).Nodup ∧ ∀ code, code ∈ uniq codes ↔ code ∈ codes) ∧
    (∃ added, added ≠ [] ∧
      (processQuery bot catalogData query).2.conversationHistory
        = bot.conversationHistory ++ added) ∧
    (initializeChatbot bot catalogData).2.conversationHistory = bot.conversationHistory ∧
    (clearHistory bot).conversationHistory = [] := by
  refine ⟨?_, fun codes => ⟨uniq_eq_filter_index codes, uniq_nodup codes,
    fun code => mem_uniq code codes⟩, ?_, rfl, rfl⟩
  · intro response hresponse
    cases hinit : bot.initialized with
    | true =>
      simp only [hinit, if_true, answerQuery] at hresponse
      simp only [processQuery, hinit, if_true, hresponse, List.append_assoc,
        List.singleton_append, Bool.false_eq_true, if_false, and_self]
    | false =>
      simp only [hinit, Bool.false_eq_true, if_false, answerQuery] at hresponse
      simp only [processQuery, hinit, Bool.false_eq_true, if_false, initializeChatbot, hresponse,
        List.append_assoc, List.singleton_append, and_self]
  · cases hinit : bot.initialized with
    | true =>
      cases hresponse : generateResponse bot.dataProcessor query
          (retrieveRelevantInfo bot.dataProcessor query) with
      | none =>
        refine ⟨[{ type := "user".toList, content := query, sources := none }],
          List.cons_ne_nil _ _, ?_⟩
        simp only [processQuery, hinit, if_true, hresponse]
      | some response =>
        refine ⟨[{ type := "user".toList, content := query, sources := none },
          { type := "assistant".toList, content := response,
            sources := some (uniq ((retrieveRelevantInfo bot.dataProcessor query).map
              (fun info => info.courseCode))) }], List.cons_ne_nil _ _, ?_⟩
        simp only [processQuery, hinit, if_true, hresponse, List.append_assoc,
          List.singleton_append]
    | false =>
      cases hresponse : generateResponse (fetchCourseData bot.dataProcessor catalogData).2 query
          (retrieveRelevantInfo (fetchCourseData bot.dataProcessor catalogData).2 query) with
      | none =>
        refine ⟨[{ type := "user".toList, content := query, sources := none }],
          List.cons_ne_nil _ _, ?_⟩
        simp only [processQuery, hinit, Bool.false_eq_true, if_false, initializeChatbot,
          hresponse]
      | some response =>
        refine ⟨[{ type := "user".toList, content := query, sources := none },
          { type := "assistant".toList, content := response,
            sources := some (uniq ((retrieveRelevantInfo
              (fetchCourseData bot.dataProcessor catalogData).2 query).map
              (fun info => info.courseCode))) }], List.cons_ne_nil _ _, ?_⟩
        simp only [processQuery, hinit, Bool.false_eq_true, if_false, initializeChatbot,
          hresponse, List.append_assoc, List.singleton_append]

/-- C23 at a new chatbot whose catalogue holds ACFI 801, asked "Tell me about
ACFI 801": the history is the user turn and the assistant turn with the full
detail of ACFI 801 and the one source "ACFI 801", though three chunks of the
course were retrieved. -/
theorem processQuery_appends_two_turns_witness :
    (retrieveRelevantInfo (processCourseData CourseDataProcessor.new [acfi801])
        "Tell me about ACFI 801".toList).length = 3 ∧
    (processQuery (RAGChatbot.new CourseDataProcessor.new) [some acfi801]
        "Tell me about ACFI 801".toList).1 = formatCourseResponse acfi801 ∧
    (processQuery (RAGChatbot.new CourseDataProcessor.new) [some acfi801]
        "Tell me about ACFI 801".toList).2.conversationHistory
      = [{ type := "user".toList, content := "Tell me about ACFI 801".toList, sources := none },
         { type := "assistant".toList, content := formatCourseResponse acfi801,
           sources := some [.str "ACFI 801".toList] }] :=
  ⟨by decide,
   ((processQuery_appends_two_turns (RAGChatbot.new CourseDataProcessor.new) [some acfi801]
      "Tell me about ACFI 801".toList).1 (formatCourseResponse acfi801) (by rfl)).1,
   (((processQuery_appends_two_turns (RAGChatbot.new CourseDataProcessor.new) [some acfi801]
      "Tell me about ACFI 801".toList).1 (formatCourseResponse acfi801) (by rfl)).2).trans
     (by decide)⟩

/-! ## Positive similarity of term vectors -/

theorem countOf_pos_iff (v : Obj) (hv : IsTermVector v) (w : Str) :
    0 < countOf v w ↔ w ∈ v.map Prod.fst := by
  constructor
  · intro hpos
    cases hown : ownProp v w with
    | none => simp only [countOf, hown] at hpos; omega
    | some val =>
      exact List.mem_map.mpr ⟨(w, val), ownProp_mem v w val hown, rfl⟩
  · intro hmem
    obtain ⟨val, hown⟩ := ownProp_of_mem_keys v w hmem
    obtain ⟨_, hsmall⟩ := hv.2 (w, val) (ownProp_mem v w val hown)
    cases val with
    | count n =>
      simp only [isSmallCount, Bool.and_eq_true, decide_eq_true_eq] at hsmall
      simp only [countOf, hown]
      exact hsmall.1
    | undefined => simp [isSmallCount] at hsmall
    | native name ones => simp [isSmallCount] at hsmall
    | inherited name => simp [isSmallCount] at hsmall

theorem sum_pos_iff (f : Str → Nat) (ws : List Str) :
    0 < (ws.map f).sum ↔ ∃ w ∈ ws, 0 < f w := by
  induction ws with
  | nil => simp
  | cons x xs ih =>
    simp only [List.map_cons, List.sum_cons, List.mem_cons, exists_eq_or_imp]
    rw [← ih]
    omega

theorem cosineSums_termVector (a b : Obj) (ha : IsTermVector a) (hb : IsTermVector b) :
    cosineSums a b
      = { dotProduct := .fin (0 + ((uniq (objectKeys a ++ objectKeys b)).map
            (fun w => countOf a w * countOf b w)).sum) 0,
          normA := .fin (0 + ((uniq (objectKeys a ++ objectKeys b)).map
            (fun w => countOf a w * countOf a w)).sum) 0,
          normB := .fin (0 + ((uniq (objectKeys a ++ objectKeys b)).map
            (fun w => countOf b w * countOf b w)).sum) 0 } := by
  have hws : ∀ w ∈ uniq (objectKeys a ++ objectKeys b), w ∉ objectPrototypeNames := by
    intro w hw
    rw [mem_uniq, List.mem_append, mem_objectKeys, mem_objectKeys] at hw
    rcases hw with hw | hw
    · obtain ⟨kv, hkv, rfl⟩ := List.mem_map.mp hw
      exact (ha.2 kv hkv).1
    · obtain ⟨kv, hkv, rfl⟩ := List.mem_map.mp hw
      exact (hb.2 kv hkv).1
  have hlen : (uniq (objectKeys a ++ objectKeys b)).length ≤ 2 ^ 21 := by
    have h1 := length_uniq_le (objectKeys a ++ objectKeys b)
    have h2 := length_objectKeys_le a
    have h3 := length_objectKeys_le b
    have h4 := ha.1
    have h5 := hb.1
    rw [List.length_append] at h1
    have : (2 : Nat) ^ 21 = 2 * 2 ^ 19 + 2 * 2 ^ 19 := by norm_num
    omega
  have hprod : ∀ (f g : Str → Nat), (∀ w ∈ uniq (objectKeys a ++ objectKeys b), f w < 2 ^ 16) →
      (∀ w ∈ uniq (objectKeys a ++ objectKeys b), g w < 2 ^ 16) →
      0 + ((uniq (objectKeys a ++ objectKeys b)).map (fun w => f w * g w)).sum < 2 ^ 53 := by
    intro f g hf hg
    have h1 := sum_le_length_mul (fun w => f w * g w) (2 ^ 32 - 1)
      (uniq (objectKeys a ++ objectKeys b)) (by
        intro w hw
        have h1 : f w ≤ 2 ^ 16 - 1 := by have := hf w hw; omega
        have h2 : g w ≤ 2 ^ 16 - 1 := by have := hg w hw; omega
        calc f w * g w ≤ (2 ^ 16 - 1) * (2 ^ 16 - 1) := Nat.mul_le_mul h1 h2
          _ ≤ 2 ^ 32 - 1 := by norm_num)
    have h2 : (uniq (objectKeys a ++ objectKeys b)).length * (2 ^ 32 - 1)
        ≤ 2 ^ 21 * (2 ^ 32 - 1) := Nat.mul_le_mul_right _ hlen
    have h3 : (2 : Nat) ^ 21 * (2 ^ 32 - 1) < 2 ^ 53 := by norm_num
    omega
  have hca := fun w hw => (termVector_lookup a ha w (hws w hw))
  have hcb := fun w hw => (termVector_lookup b hb w (hws w hw))
  exact cosine_foldl_exact a b (countOf a) (countOf b) (uniq (objectKeys a ++ objectKeys b))
      (fun w hw => (hca w hw).1) (fun w hw => (hcb w hw).1) 0 0 0
      (hprod _ _ (fun w hw => (hca w hw).2) (fun w hw => (hcb w hw).2))
      (hprod _ _ (fun w hw => (hca w hw).2) (fun w hw => (hca w hw).2))
      (hprod _ _ (fun w hw => (hcb w hw).2) (fun w hw => (hcb w hw).2))

/-- For term vectors (no key a property name of `Object.prototype`, counts
from 1 to 65535, at most 524288 keys) the similarity is greater than 0 exactly
when the two vectors have a key in common. -/
theorem cosineSimilarity_pos_iff_common_key (a b : Obj) (ha : IsTermVector a)
    (hb : IsTermVector b) :
    (cosineSimilarity a b).gt Num.zero = true
      ↔ ∃ w, w ∈ a.map Prod.fst ∧ w ∈ b.map Prod.fst := by
  have hsums := cosineSums_termVector a b ha hb
  have hCS := cauchy_schwarz_sums (countOf a) (countOf b)
    (uniq (objectKeys a ++ objectKeys b)) 0 0 0 (le_refl _)
  have hDpos : 0 < 0 + ((uniq (objectKeys a ++ objectKeys b)).map
      (fun w => countOf a w * countOf b w)).sum
      ↔ ∃ w, w ∈ a.map Prod.fst ∧ w ∈ b.map Prod.fst := by
    rw [Nat.zero_add, sum_pos_iff]
    constructor
    · rintro ⟨w, _, hpos⟩
      have h1 : 0 < countOf a w := Nat.pos_of_mul_pos_right hpos
      have h2 : 0 < countOf b w := Nat.pos_of_mul_pos_left hpos
      exact ⟨w, (countOf_pos_iff a ha w).mp h1, (countOf_pos_iff b hb w).mp h2⟩
    · rintro ⟨w, h1, h2⟩
      refine ⟨w, ?_, Nat.mul_pos ((countOf_pos_iff a ha w).mpr h1)
        ((countOf_pos_iff b hb w).mpr h2)⟩
      rw [mem_uniq, List.mem_append, mem_objectKeys]
      exact Or.inl h1
  rw [← hDpos]
  generalize 0 + ((uniq (objectKeys a ++ objectKeys b)).map
    (fun w => countOf a w * countOf b w)).sum = D at hsums hCS
  generalize 0 + ((uniq (objectKeys a ++ objectKeys b)).map
    (fun w => countOf a w * countOf a w)).sum = NA at hsums hCS
  generalize 0 + ((uniq (objectKeys a ++ objectKeys b)).map
    (fun w => countOf b w * countOf b w)).sum = NB at hsums hCS
  by_cases hz : NA = 0 ∨ NB = 0
  · have hD0 : D = 0 := by
      have : NA * NB = 0 := by rcases hz with h | h <;> simp [h]
      rw [this] at hCS
      have h0 : D * D = 0 := Nat.le_zero.mp hCS
      rcases Nat.mul_eq_zero.mp h0 with h | h <;> exact h
    have hcos : cosineSimilarity a b = Num.zero := by
      simp only [cosineSimilarity, hsums, Num.isZero]
      rcases hz with h | h <;> simp [h]
    rw [hcos, hD0]
    simp [Num.gt_irrefl]
  · have hA : 0 < NA := by omega
    have hB : 0 < NB := by omega
    obtain ⟨mx, ex, hxe, hmx, _, _⟩ := Num.sqrt_spec NA 0 hA
    obtain ⟨my, ey, hye, hmy, _, _⟩ := Num.sqrt_spec NB 0 hB
    obtain ⟨mp, ep, hpe, hmp, _, _⟩ := Num.mul_spec mx my ex ey
    obtain ⟨m, e, hre, hrlo, hrhi⟩ := Num.div_spec D mp 0 ep (hmp hmx hmy)
    have hA0 : (NA == 0) = false := by simpa using (by omega : NA ≠ 0)
    have hB0 : (NB == 0) = false := by simpa using (by omega : NB ≠ 0)
    have hcos : cosineSimilarity a b = .fin m e := by
      simp only [cosineSimilarity, hsums, Num.isZero, hA0, hB0, Bool.or_self,
        Bool.false_eq_true, if_false]
      rw [hxe, hye, hpe, hre]
    rw [hcos, Num.zero, Num.gt_fin_iff_real]
    simp only [zpow_zero, mul_one, Nat.cast_zero] at hrlo hrhi ⊢
    have hvp : (0 : ℝ) < (mp : ℝ) * (2 : ℝ) ^ ep := by
      have : (0 : ℝ) < (mp : ℝ) := by exact_mod_cast hmp hmx hmy
      positivity
    have hE : (0 : ℝ) < (2 : ℝ) ^ e := zpow_pos (by norm_num) _
    constructor
    · intro hpos
      by_contra hD
      have hD0 : D = 0 := by omega
      rw [hD0] at hrlo
      simp only [Nat.cast_zero, zero_div] at hrlo
      have h1 : (0 : ℝ) < 1 - 1 / 2 ^ 53 := by norm_num
      nlinarith
    · intro hD
      have hq : (0 : ℝ) < (D : ℝ) / ((mp : ℝ) * (2 : ℝ) ^ ep) := by
        have : (0 : ℝ) < (D : ℝ) := by exact_mod_cast hD
        positivity
      have h1 : (0 : ℝ) < 1 + 1 / 2 ^ 53 := by norm_num
      have h2 : (0 : ℝ) < (m : ℝ) * (2 : ℝ) ^ e * (1 + 1 / 2 ^ 53) := lt_of_lt_of_le hq hrhi
      exact pos_of_mul_pos_left h2 (le_of_lt h1)

/-! ## Hits and shared tokens -/

/-- C30 (the code at the failing input): the store holds one course whose
description contains the word "constructor"; the query "pattern" and the first
document of the course share the token `pattern`, each with the count 1, yet
the similarity of the two vectors is NaN, not a number greater than 0, and
`semanticSearch` with `k = 10` returns no hit. -/
theorem semanticSearch_misses_shared_token :
    queryVectorOf "pattern".toList = [("pattern".toList, .count 1)] ∧
    (createTextChunks acfi899).map
        (fun chunk =>
          (chunk.text, ownProp (embedChunk chunk).vector "pattern".toList,
            ownProp (embedChunk chunk).vector "constructor".toList))
      = [("ACFI 899 Financial Software: The constructor pattern in financial software.".toList,
          some (.count 1), some (.native "constructor".toList 1)),
         ("ACFI 899 is worth 3 credits and uses Letter Grading".toList, none, none)] ∧
    (createTextChunks acfi899).map
        (fun chunk => cosineSimilarity (queryVectorOf "pattern".toList) (embedChunk chunk).vector)
      = [.nan, .fin 0 (-57)] ∧
    semanticSearch (processCourseData CourseDataProcessor.new [acfi899])
      "pattern".toList 10 = [] := by
  decide

end Catalog
